import Mathlib

/-!
# CBOR container parsers of `lib/cbor.h`

A shallow embedding of the three generic container parsers of `lib/cbor.h`
(`cbor_array_parse`, `cbor_ctx_array_parse`, `cbor_map_parse`) and theorems
about them.

Conventions of the embedding:

* memory is a total function from addresses to bytes, a cursor is an address
  and `NULL` is `none`; `in_max` is the exclusive upper bound of the buffer;
* the `int* err` out-parameter is an `ErrCell`: its content and the number of
  stores made to it;
* the delegates (element parser, map receiver) and the header decoder
  `cbor_get_number`, whose bodies are not part of `lib/cbor.h`, are parameters;
* 64-bit arithmetic on the key index wraps (two's complement); the `int` counter
  `rank` of the array parsers does not: the increment that overflows it has no
  meaning in C++, and the run ends there with the outcome `rank_overflow`;
* the `while` loops are modelled with a fuel argument (`none` = fuel exhausted);
* every result carries the trace of the delegate calls that were made.
-/

namespace Cbor

/-! ## Constants and macros of `lib/cbor.h` -/

/-- Memory: the byte stored at each address. -/
abbrev Mem := Nat → Nat

/-- The macro `CBOR_CLASS(x)`, that is `(((x)>>5)&7)`. -/
def CBOR_CLASS (x : Nat) : Nat := (x >>> 5) &&& 7

def CBOR_T_UINT : Nat := 0

def CBOR_T_NINT : Nat := 1

def CBOR_T_BYTES : Nat := 2

def CBOR_T_TEXT : Nat := 3

def CBOR_T_ARRAY : Nat := 4

def CBOR_T_MAP : Nat := 5

def CBOR_T_TAGGED : Nat := 6

def CBOR_T_FLOAT : Nat := 7

def CBOR_END_OF_ARRAY : Int := -1

def CBOR_ILLEGAL_VALUE : Int := -2

def CBOR_MALFORMED_VALUE : Int := -3

def CBOR_NOT_IMPLEMENTED : Int := -4

def CBOR_UNEXPECTED : Int := -5

def CBOR_MEMORY : Int := -6

def CBOR_END_MARK : Nat := 0xff

/-! ## Machine integers -/

/-- The largest value of an `int`. -/
def INT_MAX : Int := 2147483647

/-- Value of a 64-bit two's-complement `int64_t` holding `x` modulo `2^64`. -/
def wrapInt64 (x : Int) : Int :=
  (x + 9223372036854775808) % 18446744073709551616 - 9223372036854775808

/-- The conversion `(size_t)x` of a signed integer on a 64-bit target. -/
def toSizeT (x : Int) : Nat := (x % 18446744073709551616).toNat

/-! ## The error out-parameter -/

/-- The cell behind `int* err`: its content and how many stores were made to it. -/
structure ErrCell where
  code : Int
  stores : Nat
  deriving DecidableEq, Repr

/-- The store `*err = c`. -/
def ErrCell.set (e : ErrCell) (c : Int) : ErrCell := ⟨c, e.stores + 1⟩

/-! ## Delegates -/

/-- The header decoder `cbor_get_number(in, in_max, &val)`: `none` is a `NULL`
return, `some (p, val)` the returned cursor and the value stored in `val`. -/
abbrev HeaderDecoder := Mem → Nat → Nat → Option (Nat × Int)

/-- An element parser `cbor_object_parse(in, in_max, &slot, err)`: from the
memory, `in`, `in_max`, the slot and the error cell to the returned cursor, the
slot and the error cell after the call. -/
abbrev ElemParser (α : Type) := Mem → Nat → Nat → α → ErrCell → Option Nat × α × ErrCell

/-- An element parser `cbor_object_ctx_parse(in, in_max, &slot, err, ctx)`; the
context object is passed by pointer, so its state is threaded. -/
abbrev CtxElemParser (α γ : Type) :=
  Mem → Nat → Nat → α → ErrCell → γ → Option Nat × α × ErrCell × γ

/-- A map receiver `v->parse_map_item(in, in_max, index, err)`, acting on the
receiver state. -/
abbrev MapReceiver (σ : Type) := Mem → Nat → Nat → Int → σ → ErrCell → Option Nat × σ × ErrCell

/-! ## `std::vector` operations used by the array parsers -/

/-- The call `v->resize(n)`: keeps the first `n` elements, appends
value-initialised elements `d` up to length `n`. The array parsers call it with
`n = rank + 1` for `0 ≤ rank ≤ INT_MAX` only, so with `1 ≤ n ≤ 2^31`, where
`resize` does not throw `std::length_error`. -/
def vec_resize {α : Type} (v : List α) (n : Nat) (d : α) : List α :=
  v.take n ++ List.replicate (n - v.length) d

/-! ## Results -/

/-- What `cbor_array_parse` leaves behind: the returned cursor, the vector, the
error cell, and the cursors at which the element parser was called. -/
structure ArrayResult (α : Type) where
  cur : Option Nat
  v : List α
  err : ErrCell
  calls : List Nat
  deriving DecidableEq, Repr

/-- What `cbor_ctx_array_parse` leaves behind; `ctx` is the context object after
the call. -/
structure CtxArrayResult (α γ : Type) where
  cur : Option Nat
  v : List α
  err : ErrCell
  ctx : γ
  calls : List Nat
  deriving DecidableEq, Repr

/-- What `cbor_map_parse` leaves behind: the returned cursor, the receiver, the
error cell, and the `(in, index)` arguments of every `parse_map_item` call. -/
structure MapResult (σ : Type) where
  cur : Option Nat
  recv : σ
  err : ErrCell
  calls : List (Nat × Int)
  deriving DecidableEq, Repr

/-- How a call of one of the array parsers ends: it returns, or the increment
`rank++` (lines 142, 187) is reached with `rank == INT_MAX`. The overflow of a
signed integer is undefined in C++, so the call has no result then; the state
reached at the increment is kept. -/
inductive Outcome (ρ : Type) where
  | returned (r : ρ) : Outcome ρ
  | rank_overflow (r : ρ) : Outcome ρ
  deriving DecidableEq, Repr

/-- The state in which a call ends. -/
def Outcome.state {ρ : Type} : Outcome ρ → ρ
  | Outcome.returned r => r
  | Outcome.rank_overflow r => r

/-- Apply a function to the state of an outcome. -/
def Outcome.map {ρ τ : Type} (f : ρ → τ) : Outcome ρ → Outcome τ
  | Outcome.returned r => Outcome.returned (f r)
  | Outcome.rank_overflow r => Outcome.rank_overflow (f r)

/-! ## `cbor_array_parse` -/

/-- The `while` loop of `cbor_array_parse` (lines 128-144). -/
def array_loop {α : Type} (parse : ElemParser α) (d : α) (mem : Mem) (in_max : Nat)
    (is_undef : Bool) (val : Int) :
    Nat → Int → Option Nat → List α → ErrCell → List Nat → Option (Outcome (ArrayResult α))
  | 0, _, _, _, _, _ => none
  | fuel + 1, rank, cur, v, err, calls =>
    match cur with
    | none => some (Outcome.returned ⟨none, v, err, calls⟩)
    | some p =>
      if rank < val ∧ p < in_max then
        if mem p = 0xff then
          if is_undef then some (Outcome.returned ⟨some (p + 1), v, err, calls⟩)
          else some (Outcome.returned ⟨none, v, err.set CBOR_MALFORMED_VALUE, calls⟩)
        else
          let v1 := vec_resize v ((toSizeT rank + 1) % 18446744073709551616) d
          let r := parse mem p in_max (v1.getD (toSizeT rank) d) err
          if rank = INT_MAX then
            some (Outcome.rank_overflow ⟨r.1, v1.set (toSizeT rank) r.2.1, r.2.2, calls ++ [p]⟩)
          else
            array_loop parse d mem in_max is_undef val fuel (rank + 1) r.1
              (v1.set (toSizeT rank) r.2.1) r.2.2 (calls ++ [p])
      else some (Outcome.returned ⟨some p, v, err, calls⟩)

/-- The function `cbor_array_parse` (lines 108-148); `d` is a value-initialised
`InnerClass`. -/
def cbor_array_parse {α : Type} (gn : HeaderDecoder) (parse : ElemParser α) (d : α)
    (mem : Mem) (in_ in_max : Nat) (v : List α) (err : ErrCell) (fuel : Nat) :
    Option (Outcome (ArrayResult α)) :=
  let outer_type := CBOR_CLASS (mem in_)
  match gn mem in_ in_max with
  | none => some (Outcome.returned ⟨none, v, err.set CBOR_MALFORMED_VALUE, []⟩)
  | some (p, val) =>
    if outer_type ≠ CBOR_T_ARRAY then
      some (Outcome.returned ⟨none, v, err.set CBOR_MALFORMED_VALUE, []⟩)
    else
      let is_undef := decide (val = CBOR_END_OF_ARRAY)
      let val := if is_undef then 0xffffffff else val
      array_loop parse d mem in_max is_undef val fuel 0 (some p) v err []

/-! ## `cbor_ctx_array_parse` -/

/-- The `while` loop of `cbor_ctx_array_parse` (lines 173-189). -/
def ctx_array_loop {α γ : Type} (parse : CtxElemParser α γ) (d : α) (mem : Mem)
    (in_max : Nat) (is_undef : Bool) (val : Int) :
    Nat → Int → Option Nat → List α → ErrCell → γ → List Nat →
      Option (Outcome (CtxArrayResult α γ))
  | 0, _, _, _, _, _, _ => none
  | fuel + 1, rank, cur, v, err, ctx, calls =>
    match cur with
    | none => some (Outcome.returned ⟨none, v, err, ctx, calls⟩)
    | some p =>
      if rank < val ∧ p < in_max then
        if mem p = 0xff then
          if is_undef then some (Outcome.returned ⟨some (p + 1), v, err, ctx, calls⟩)
          else some (Outcome.returned ⟨none, v, err.set CBOR_MALFORMED_VALUE, ctx, calls⟩)
        else
          let v1 := vec_resize v ((toSizeT rank + 1) % 18446744073709551616) d
          let r := parse mem p in_max (v1.getD (toSizeT rank) d) err ctx
          if rank = INT_MAX then
            some (Outcome.rank_overflow
              ⟨r.1, v1.set (toSizeT rank) r.2.1, r.2.2.1, r.2.2.2, calls ++ [p]⟩)
          else
            ctx_array_loop parse d mem in_max is_undef val fuel (rank + 1) r.1
              (v1.set (toSizeT rank) r.2.1) r.2.2.1 r.2.2.2 (calls ++ [p])
      else some (Outcome.returned ⟨some p, v, err, ctx, calls⟩)

/-- The function `cbor_ctx_array_parse` (lines 153-193). -/
def cbor_ctx_array_parse {α γ : Type} (gn : HeaderDecoder) (parse : CtxElemParser α γ)
    (d : α) (mem : Mem) (in_ in_max : Nat) (v : List α) (err : ErrCell) (ctx : γ)
    (fuel : Nat) : Option (Outcome (CtxArrayResult α γ)) :=
  let outer_type := CBOR_CLASS (mem in_)
  match gn mem in_ in_max with
  | none => some (Outcome.returned ⟨none, v, err.set CBOR_MALFORMED_VALUE, ctx, []⟩)
  | some (p, val) =>
    if outer_type ≠ CBOR_T_ARRAY then
      some (Outcome.returned ⟨none, v, err.set CBOR_MALFORMED_VALUE, ctx, []⟩)
    else
      let is_undef := decide (val = CBOR_END_OF_ARRAY)
      let val := if is_undef then 0xffffffff else val
      ctx_array_loop parse d mem in_max is_undef val fuel 0 (some p) v err ctx []

/-! ## `cbor_map_parse` -/

/-- The index handed to `parse_map_item` (lines 244-246): for a `NINT` key
`inner_val = -(inner_val + 1)` in `int64_t` arithmetic. -/
def map_index (inner_type : Nat) (inner_val : Int) : Int :=
  if inner_type = CBOR_T_NINT then wrapInt64 (-(wrapInt64 (inner_val + 1))) else inner_val

/-- The `while` loop of `cbor_map_parse` (lines 222-251). -/
def map_loop {σ : Type} (gn : HeaderDecoder) (recv : MapReceiver σ) (mem : Mem)
    (in_max : Nat) (is_undef : Bool) :
    Nat → Int → Option Nat → σ → ErrCell → List (Nat × Int) → Option (MapResult σ)
  | 0, _, _, _, _, _ => none
  | fuel + 1, val, cur, s, err, calls =>
    match cur with
    | none => some ⟨none, s, err, calls⟩
    | some p =>
      if 0 < val ∧ p < in_max then
        if mem p = 0xff then
          if is_undef then some ⟨some (p + 1), s, err, calls⟩
          else some ⟨none, s, err.set CBOR_MALFORMED_VALUE, calls⟩
        else
          let inner_type := CBOR_CLASS (mem p)
          match gn mem p in_max with
          | none =>
            map_loop gn recv mem in_max is_undef fuel val none s
              (err.set CBOR_MALFORMED_VALUE) calls
          | some (q, inner_val) =>
            if inner_type ≠ CBOR_T_UINT ∧ inner_type ≠ CBOR_T_NINT then
              map_loop gn recv mem in_max is_undef fuel val none s
                (err.set CBOR_MALFORMED_VALUE) calls
            else
              let index := map_index inner_type inner_val
              let r := recv mem q in_max index s err
              map_loop gn recv mem in_max is_undef fuel (val - 1) r.1 r.2.1 r.2.2
                (calls ++ [(q, index)])
      else some ⟨some p, s, err, calls⟩

/-- The function `cbor_map_parse` (lines 202-255). -/
def cbor_map_parse {σ : Type} (gn : HeaderDecoder) (recv : MapReceiver σ) (mem : Mem)
    (in_ in_max : Nat) (s : σ) (err : ErrCell) (fuel : Nat) : Option (MapResult σ) :=
  let outer_type := CBOR_CLASS (mem in_)
  match gn mem in_ in_max with
  | none => some ⟨none, s, err.set CBOR_MALFORMED_VALUE, []⟩
  | some (p, val) =>
    if outer_type ≠ CBOR_T_MAP then some ⟨none, s, err.set CBOR_MALFORMED_VALUE, []⟩
    else
      let is_undef := decide (val = CBOR_END_OF_ARRAY)
      let val := if is_undef then 0xffffffff else val
      map_loop gn recv mem in_max is_undef fuel val (some p) s err []

/-! ## Functions declared in `lib/cbor.h` whose bodies live elsewhere -/

/-- Big-endian value of the `n` bytes at `p`, continuing the accumulator. -/
def be_value (mem : Mem) : Nat → Nat → Nat → Nat
  | 0, _, acc => acc
  | n + 1, p, acc => be_value mem n (p + 1) (acc * 256 + mem p)

/-- Modelled from the spec: the body of `cbor_get_number` (declared at line 47) is
missing. Section 4.1: the low 5 bits of the initial byte are the magnitude when
below 24; 24/25/26/27 announce a 1/2/4/8-byte big-endian magnitude; 31 is the
indefinite-length marker, valid for major types 2, 3, 4, 5 and for the break
code, and yields the reserved value `CBOR_END_OF_ARRAY`; anything else is
illegal; it fails when fewer bytes remain than the encoding requires. The
magnitude is delivered in an `int64_t` (line 47) and the reserved value is
distinguishable from any legal magnitude, so the legal magnitudes are those the
signed 64-bit slot holds as they are: on an 8-byte magnitude of `2^63` or more
the decoder fails. -/
def cbor_get_number : HeaderDecoder := fun mem in_ in_max =>
  if in_ < in_max then
    let ty := CBOR_CLASS (mem in_)
    let ai := mem in_ &&& 0x1f
    if ai < 24 then some (in_ + 1, (ai : Int))
    else if ai = 24 then
      if in_ + 2 ≤ in_max then some (in_ + 2, wrapInt64 (be_value mem 1 (in_ + 1) 0)) else none
    else if ai = 25 then
      if in_ + 3 ≤ in_max then some (in_ + 3, wrapInt64 (be_value mem 2 (in_ + 1) 0)) else none
    else if ai = 26 then
      if in_ + 5 ≤ in_max then some (in_ + 5, wrapInt64 (be_value mem 4 (in_ + 1) 0)) else none
    else if ai = 27 then
      if in_ + 9 ≤ in_max ∧ be_value mem 8 (in_ + 1) 0 < 9223372036854775808 then
        some (in_ + 9, wrapInt64 (be_value mem 8 (in_ + 1) 0))
      else none
    else if ai = 31 then
      if ty = CBOR_T_BYTES ∨ ty = CBOR_T_TEXT ∨ ty = CBOR_T_ARRAY ∨ ty = CBOR_T_MAP
          ∨ ty = CBOR_T_FLOAT then
        some (in_ + 1, CBOR_END_OF_ARRAY)
      else none
    else none
  else none

/-- Modelled from the spec: the body of `cbor_parse_int` (declared at line 59) is
missing. Section 4.2: decode the header, require major type `UINT`, or `NINT`
when signed parsing is requested; a `NINT` of magnitude `m` is `-(m + 1)`;
malformed-value on a wrong major type, illegal-value when the value does not
fit the 32-bit target. -/
def cbor_parse_int (mem : Mem) (in_ in_max : Nat) (v : Int) (is_signed : Bool)
    (err : ErrCell) : Option Nat × Int × ErrCell :=
  match cbor_get_number mem in_ in_max with
  | none => (none, v, err.set CBOR_MALFORMED_VALUE)
  | some (p, val) =>
    if CBOR_CLASS (mem in_) = CBOR_T_UINT then
      if 0 ≤ val ∧ val ≤ 2147483647 then (some p, val, err)
      else (none, v, err.set CBOR_ILLEGAL_VALUE)
    else if CBOR_CLASS (mem in_) = CBOR_T_NINT ∧ is_signed = true then
      if 0 ≤ val ∧ val ≤ 2147483647 then (some p, -(val + 1), err)
      else (none, v, err.set CBOR_ILLEGAL_VALUE)
    else (none, v, err.set CBOR_MALFORMED_VALUE)

/-- Modelled from the spec: the body of the overload `cbor_object_parse(in, in_max,
int* v, err)` (declared at line 99) is missing; it is the element parser of an
array of integers (section 8, scenario 3) and is taken to be the signed 32-bit
integer parse of section 4.2. -/
def cbor_object_parse_int : ElemParser Int := fun mem in_ in_max v err =>
  cbor_parse_int mem in_ in_max v true err

/-! ## Concrete inputs -/

/-- The memory holding the bytes `l` from address 0 on (zero elsewhere). -/
def bytes (l : List Nat) : Mem := fun i => l.getD i 0

/-- A fresh error cell: content 0, no store yet. -/
def err0 : ErrCell := ⟨0, 0⟩

/-- The element parser with a context that it ignores. -/
def ignoreCtx {α γ : Type} (parse : ElemParser α) : CtxElemParser α γ :=
  fun mem in_ in_max slot err ctx =>
    ((parse mem in_ in_max slot err).1, (parse mem in_ in_max slot err).2.1,
      (parse mem in_ in_max slot err).2.2, ctx)

/-- A receiver that parses every value as an integer and records the pair
`(index, value)`; on failure it records nothing. -/
def recordInts : MapReceiver (List (Int × Int)) := fun mem in_ in_max index s err =>
  match cbor_object_parse_int mem in_ in_max 0 err with
  | (some p, x, e) => (some p, s ++ [(index, x)], e)
  | (none, _, e) => (none, s, e)

/-! ## Well-formed input: elements and entries that the delegates accept -/

/-- The items of an array as the element parser sees them: starting at `p` with
the given slot, each item lies inside the buffer, does not start with the break
byte, and is accepted by the element parser (non-null cursor `it.1`, parsed
value `it.2`, error cell left alone); the next item starts where the previous
one ended and is handed a value-initialised slot. -/
def ElemsAccepted {α : Type} (parse : ElemParser α) (d : α) (mem : Mem) (in_max : Nat)
    (err : ErrCell) : α → Nat → List (Nat × α) → Prop
  | _, _, [] => True
  | slot, p, it :: rest =>
    p < in_max ∧ mem p ≠ 0xff ∧ parse mem p in_max slot err = (some it.1, it.2, err) ∧
      ElemsAccepted parse d mem in_max err d it.1 rest

/-- The items of an array as a context-taking element parser sees them; `it.2.2`
is the context after the item. -/
def CtxElemsAccepted {α γ : Type} (parse : CtxElemParser α γ) (d : α) (mem : Mem)
    (in_max : Nat) (err : ErrCell) : α → Nat → γ → List (Nat × α × γ) → Prop
  | _, _, _, [] => True
  | slot, p, c, it :: rest =>
    p < in_max ∧ mem p ≠ 0xff ∧
      parse mem p in_max slot err c = (some it.1, it.2.1, err, it.2.2) ∧
      CtxElemsAccepted parse d mem in_max err d it.1 it.2.2 rest

/-- A map entry as the parser sees it: where the key header ends, the magnitude
the header decoder delivers for it, where the value ends, and the receiver
after the value. -/
structure MapEntry (σ : Type) where
  keyEnd : Nat
  mag : Int
  valEnd : Nat
  recv : σ
  deriving DecidableEq, Repr

/-- The entries of a map: starting at `p`, each entry lies inside the buffer,
its key header has major type `UINT` or `NINT` and is decoded by the header
decoder, and the receiver accepts the value (non-null cursor, error cell left
alone) when called after the key with the key's index. -/
def EntriesAccepted {σ : Type} (gn : HeaderDecoder) (recv : MapReceiver σ) (mem : Mem)
    (in_max : Nat) (err : ErrCell) : Nat → σ → List (MapEntry σ) → Prop
  | _, _, [] => True
  | p, s, en :: rest =>
    p < in_max ∧ (CBOR_CLASS (mem p) = CBOR_T_UINT ∨ CBOR_CLASS (mem p) = CBOR_T_NINT) ∧
      gn mem p in_max = some (en.keyEnd, en.mag) ∧
      recv mem en.keyEnd in_max (map_index (CBOR_CLASS (mem p)) en.mag) s err
        = (some en.valEnd, en.recv, err) ∧
      EntriesAccepted gn recv mem in_max err en.valEnd en.recv rest

/-- Where a chain of items that starts at `p` and whose items end at `ends` ends. -/
def chainEnd (p : Nat) (ends : List Nat) : Nat := ends.getLastD p

/-- Where the items of a chain start: the first at `p`, each other one where the
previous one ended. -/
def chainStarts (p : Nat) (ends : List Nat) : List Nat := (p :: ends).dropLast

/-- The `(in, index)` arguments of the receiver calls for a chain of entries
starting at `p`. -/
def entryCalls {σ : Type} (mem : Mem) : Nat → List (MapEntry σ) → List (Nat × Int)
  | _, [] => []
  | p, en :: rest =>
    (en.keyEnd, map_index (CBOR_CLASS (mem p)) en.mag) :: entryCalls mem en.valEnd rest

/-- The vector after storing the values `xs` from index `rank` on, the way the
loop of the array parsers does (resize to `rank + 1`, write slot `rank`). -/
def vecAfter {α : Type} (d : α) : Int → List α → List α → List α
  | _, v, [] => v
  | rank, v, x :: xs =>
    vecAfter d (rank + 1)
      ((vec_resize v ((toSizeT rank + 1) % 18446744073709551616) d).set (toSizeT rank) x) xs

/-! ## Auxiliary notions -/

/-- Forget the context of a result of `cbor_ctx_array_parse`. -/
def dropCtx {α γ : Type} (r : CtxArrayResult α γ) : ArrayResult α :=
  ⟨r.cur, r.v, r.err, r.calls⟩

/-- The count the loops run against (lines 123-126, 168-171, 217-220): the
magnitude, or `0xffffffff` when the header decoder reports indefinite length. -/
def container_count (val : Int) : Int := if val = CBOR_END_OF_ARRAY then 0xffffffff else val

/-- The slot handed to the element parser for the item of index `k`: the old
first element of the vector for the first item, a value-initialised one after. -/
def next_slot {α : Type} (v : List α) (d : α) (k : Nat) : α := if k = 0 then v.headD d else d

/-! ## Deciding well-formedness on concrete inputs -/

instance decElemsAccepted {α : Type} [DecidableEq α] (parse : ElemParser α) (d : α)
    (mem : Mem) (in_max : Nat) (err : ErrCell) :
    ∀ (items : List (Nat × α)) (slot : α) (p : Nat),
      Decidable (ElemsAccepted parse d mem in_max err slot p items)
  | [], _, _ => isTrue trivial
  | it :: rest, slot, p =>
    have := decElemsAccepted parse d mem in_max err rest d it.1
    inferInstanceAs (Decidable (p < in_max ∧ mem p ≠ 0xff ∧
      parse mem p in_max slot err = (some it.1, it.2, err) ∧
      ElemsAccepted parse d mem in_max err d it.1 rest))

instance decCtxElemsAccepted {α γ : Type} [DecidableEq α] [DecidableEq γ]
    (parse : CtxElemParser α γ) (d : α) (mem : Mem) (in_max : Nat) (err : ErrCell) :
    ∀ (items : List (Nat × α × γ)) (slot : α) (p : Nat) (c : γ),
      Decidable (CtxElemsAccepted parse d mem in_max err slot p c items)
  | [], _, _, _ => isTrue trivial
  | it :: rest, slot, p, c =>
    have := decCtxElemsAccepted parse d mem in_max err rest d it.1 it.2.2
    inferInstanceAs (Decidable (p < in_max ∧ mem p ≠ 0xff ∧
      parse mem p in_max slot err c = (some it.1, it.2.1, err, it.2.2) ∧
      CtxElemsAccepted parse d mem in_max err d it.1 it.2.2 rest))

instance decEntriesAccepted {σ : Type} [DecidableEq σ] (gn : HeaderDecoder)
    (recv : MapReceiver σ) (mem : Mem) (in_max : Nat) (err : ErrCell) :
    ∀ (entries : List (MapEntry σ)) (p : Nat) (s : σ),
      Decidable (EntriesAccepted gn recv mem in_max err p s entries)
  | [], _, _ => isTrue trivial
  | en :: rest, p, s =>
    have := decEntriesAccepted gn recv mem in_max err rest en.valEnd en.recv
    inferInstanceAs (Decidable (p < in_max ∧
      (CBOR_CLASS (mem p) = CBOR_T_UINT ∨ CBOR_CLASS (mem p) = CBOR_T_NINT) ∧
      gn mem p in_max = some (en.keyEnd, en.mag) ∧
      recv mem en.keyEnd in_max (map_index (CBOR_CLASS (mem p)) en.mag) s err
        = (some en.valEnd, en.recv, err) ∧
      EntriesAccepted gn recv mem in_max err en.valEnd en.recv rest))

/-! ## Containers beyond the range of the counters -/

/-- The items of `n` one-byte integers `01` starting at `p`: item end and value. -/
def onesItems : Nat → Nat → List (Nat × Int)
  | _, 0 => []
  | p, n + 1 => (p + 1, 1) :: onesItems (p + 1) n

/-- The indefinite-length array `9f 01 ... 01 ff` with `2^31 + 1` elements. -/
def longIndefArray : Mem := fun i =>
  if i = 0 then 0x9f else if i ≤ 2147483649 then 0x01 else 0xff

/-- The indefinite-length array `9f 01 ... 01 61 ...` with `2^31` integers
followed by a text-string header. -/
def longFailingArray : Mem := fun i =>
  if i = 0 then 0x9f else if i ≤ 2147483648 then 0x01 else 0x61

/-- A receiver without state that requires every value to be an integer. -/
def checkInts : MapReceiver Unit := fun mem in_ in_max _ s err =>
  ((cbor_object_parse_int mem in_ in_max 0 err).1, s,
    (cbor_object_parse_int mem in_ in_max 0 err).2.2)

/-- The entries of `n` pairs `01 02` starting at `p`. -/
def pairEntries : Nat → Nat → List (MapEntry Unit)
  | _, 0 => []
  | p, n + 1 => ⟨p + 1, 1, p + 2, ()⟩ :: pairEntries (p + 2) n

/-- The indefinite-length map `bf 01 02 ... 01 02 61 61 02` with `2^32 - 1`
entries `1 ↦ 2` followed by an entry with a text-string key. -/
def longIndefMap : Mem := fun i =>
  if i = 0 then 0xbf else if i < 8589934591 then (if i % 2 = 1 then 0x01 else 0x02) else
    if i = 8589934593 then 0x02 else 0x61

/-- The definite-length array `9a 80 00 00 02 01 ... 01 ff`: the header announces
`2^31 + 2` elements, `2^31 + 1` one-byte integers follow, then a break byte. -/
def longDefiniteArray : Mem := fun i =>
  if i = 0 then 0x9a else if i = 1 then 0x80 else if i = 2 then 0x00 else
    if i = 3 then 0x00 else if i = 4 then 0x02 else
      if i ≤ 2147483653 then 0x01 else 0xff

/-! ## Recording the contexts handed to the element parser -/

/-- The element parser `parse` made to record, next to its own context, the
context it is handed at each call and the context it leaves. -/
def logCtx {α γ : Type} (parse : CtxElemParser α γ) : CtxElemParser α (γ × List (γ × γ)) :=
  fun mem in_ in_max slot err cl =>
    ((parse mem in_ in_max slot err cl.1).1, (parse mem in_ in_max slot err cl.1).2.1,
      (parse mem in_ in_max slot err cl.1).2.2.1,
      ((parse mem in_ in_max slot err cl.1).2.2.2,
        cl.2 ++ [(cl.1, (parse mem in_ in_max slot err cl.1).2.2.2)]))

/-- A record of (context handed, context left) pairs is threaded from `c`: the
first call is handed `c`, every later call what the call before it left. -/
def Threaded {γ : Type} : γ → List (γ × γ) → Prop
  | _, [] => True
  | c, e :: rest => e.1 = c ∧ Threaded e.2 rest

/-- Forget the record of contexts in a result of `cbor_ctx_array_parse`. -/
def dropLog {α γ : Type} (r : CtxArrayResult α (γ × List (γ × γ))) : CtxArrayResult α γ :=
  ⟨r.cur, r.v, r.err, r.ctx.1, r.calls⟩

/-- An element parser that parses an integer and counts the elements in its
context; it writes the context without reading it for the parse. -/
def countingInt : CtxElemParser Int Nat := fun mem in_ in_max slot err ctx =>
  ((cbor_object_parse_int mem in_ in_max slot err).1,
    (cbor_object_parse_int mem in_ in_max slot err).2.1,
    (cbor_object_parse_int mem in_ in_max slot err).2.2, ctx + 1)

/-! ## The error discipline of the delegates -/

/-- An element parser stores to the error cell exactly once when it returns the
null cursor and leaves the cell alone when it succeeds. -/
def ElemErrDiscipline {α : Type} (parse : ElemParser α) (mem : Mem) (in_max : Nat) : Prop :=
  ∀ (p : Nat) (slot : α) (e : ErrCell),
    ((parse mem p in_max slot e).1 = none → (parse mem p in_max slot e).2.2.stores = e.stores + 1)
      ∧ ((parse mem p in_max slot e).1 ≠ none → (parse mem p in_max slot e).2.2 = e)

/-- A context-taking element parser stores to the error cell exactly once when it
returns the null cursor and leaves the cell alone when it succeeds. -/
def CtxElemErrDiscipline {α γ : Type} (parse : CtxElemParser α γ) (mem : Mem)
    (in_max : Nat) : Prop :=
  ∀ (p : Nat) (slot : α) (e : ErrCell) (c : γ),
    ((parse mem p in_max slot e c).1 = none →
        (parse mem p in_max slot e c).2.2.1.stores = e.stores + 1)
      ∧ ((parse mem p in_max slot e c).1 ≠ none → (parse mem p in_max slot e c).2.2.1 = e)

/-- A map receiver stores to the error cell exactly once when it returns the null
cursor and leaves the cell alone when it succeeds. -/
def RecvErrDiscipline {σ : Type} (recv : MapReceiver σ) (mem : Mem) (in_max : Nat) : Prop :=
  ∀ (p : Nat) (index : Int) (s : σ) (e : ErrCell),
    ((recv mem p in_max index s e).1 = none →
        (recv mem p in_max index s e).2.2.stores = e.stores + 1)
      ∧ ((recv mem p in_max index s e).1 ≠ none → (recv mem p in_max index s e).2.2 = e)

/-- The `while` loop of `cbor_array_parse` with its reads (`*in` of line 129). -/
def array_loop_traced {α : Type} (parse : ElemParser α) (d : α) (mem : Mem) (in_max : Nat)
    (is_undef : Bool) (val : Int) :
    Nat → Int → Option Nat → List α → ErrCell → List Nat → List Nat →
      Option (Outcome (ArrayResult α) × List Nat)
  | 0, _, _, _, _, _, _ => none
  | fuel + 1, rank, cur, v, err, calls, reads =>
    match cur with
    | none => some (Outcome.returned ⟨none, v, err, calls⟩, reads)
    | some p =>
      if rank < val ∧ p < in_max then
        if mem p = 0xff then
          if is_undef then some (Outcome.returned ⟨some (p + 1), v, err, calls⟩, reads ++ [p])
          else
            some (Outcome.returned ⟨none, v, err.set CBOR_MALFORMED_VALUE, calls⟩, reads ++ [p])
        else
          let v1 := vec_resize v ((toSizeT rank + 1) % 18446744073709551616) d
          let r := parse mem p in_max (v1.getD (toSizeT rank) d) err
          if rank = INT_MAX then
            some (Outcome.rank_overflow ⟨r.1, v1.set (toSizeT rank) r.2.1, r.2.2, calls ++ [p]⟩,
              reads ++ [p])
          else
            array_loop_traced parse d mem in_max is_undef val fuel (rank + 1) r.1
              (v1.set (toSizeT rank) r.2.1) r.2.2 (calls ++ [p]) (reads ++ [p])
      else some (Outcome.returned ⟨some p, v, err, calls⟩, reads)

/-- The function `cbor_array_parse` with its reads: line 112 reads `*in` first. -/
def cbor_array_parse_traced {α : Type} (gn : HeaderDecoder) (parse : ElemParser α) (d : α)
    (mem : Mem) (in_ in_max : Nat) (v : List α) (err : ErrCell) (fuel : Nat) :
    Option (Outcome (ArrayResult α) × List Nat) :=
  let outer_type := CBOR_CLASS (mem in_)
  match gn mem in_ in_max with
  | none => some (Outcome.returned ⟨none, v, err.set CBOR_MALFORMED_VALUE, []⟩, [in_])
  | some (p, val) =>
    if outer_type ≠ CBOR_T_ARRAY then
      some (Outcome.returned ⟨none, v, err.set CBOR_MALFORMED_VALUE, []⟩, [in_])
    else
      let is_undef := decide (val = CBOR_END_OF_ARRAY)
      let val := if is_undef then 0xffffffff else val
      array_loop_traced parse d mem in_max is_undef val fuel 0 (some p) v err [] [in_]

/-- The `while` loop of `cbor_ctx_array_parse` with its reads (`*in` of line 174). -/
def ctx_array_loop_traced {α γ : Type} (parse : CtxElemParser α γ) (d : α) (mem : Mem)
    (in_max : Nat) (is_undef : Bool) (val : Int) :
    Nat → Int → Option Nat → List α → ErrCell → γ → List Nat → List Nat →
      Option (Outcome (CtxArrayResult α γ) × List Nat)
  | 0, _, _, _, _, _, _, _ => none
  | fuel + 1, rank, cur, v, err, ctx, calls, reads =>
    match cur with
    | none => some (Outcome.returned ⟨none, v, err, ctx, calls⟩, reads)
    | some p =>
      if rank < val ∧ p < in_max then
        if mem p = 0xff then
          if is_undef then
            some (Outcome.returned ⟨some (p + 1), v, err, ctx, calls⟩, reads ++ [p])
          else
            some (Outcome.returned ⟨none, v, err.set CBOR_MALFORMED_VALUE, ctx, calls⟩,
              reads ++ [p])
        else
          let v1 := vec_resize v ((toSizeT rank + 1) % 18446744073709551616) d
          let r := parse mem p in_max (v1.getD (toSizeT rank) d) err ctx
          if rank = INT_MAX then
            some (Outcome.rank_overflow
              ⟨r.1, v1.set (toSizeT rank) r.2.1, r.2.2.1, r.2.2.2, calls ++ [p]⟩, reads ++ [p])
          else
            ctx_array_loop_traced parse d mem in_max is_undef val fuel (rank + 1) r.1
              (v1.set (toSizeT rank) r.2.1) r.2.2.1 r.2.2.2 (calls ++ [p]) (reads ++ [p])
      else some (Outcome.returned ⟨some p, v, err, ctx, calls⟩, reads)

/-- The function `cbor_ctx_array_parse` with its reads: line 157 reads `*in`
first. -/
def cbor_ctx_array_parse_traced {α γ : Type} (gn : HeaderDecoder) (parse : CtxElemParser α γ)
    (d : α) (mem : Mem) (in_ in_max : Nat) (v : List α) (err : ErrCell) (ctx : γ)
    (fuel : Nat) : Option (Outcome (CtxArrayResult α γ) × List Nat) :=
  let outer_type := CBOR_CLASS (mem in_)
  match gn mem in_ in_max with
  | none => some (Outcome.returned ⟨none, v, err.set CBOR_MALFORMED_VALUE, ctx, []⟩, [in_])
  | some (p, val) =>
    if outer_type ≠ CBOR_T_ARRAY then
      some (Outcome.returned ⟨none, v, err.set CBOR_MALFORMED_VALUE, ctx, []⟩, [in_])
    else
      let is_undef := decide (val = CBOR_END_OF_ARRAY)
      let val := if is_undef then 0xffffffff else val
      ctx_array_loop_traced parse d mem in_max is_undef val fuel 0 (some p) v err ctx [] [in_]

/-- The `while` loop of `cbor_map_parse` with its reads: `*in` of line 223, and
again of line 235 when the byte is not the break byte. -/
def map_loop_traced {σ : Type} (gn : HeaderDecoder) (recv : MapReceiver σ) (mem : Mem)
    (in_max : Nat) (is_undef : Bool) :
    Nat → Int → Option Nat → σ → ErrCell → List (Nat × Int) → List Nat →
      Option (MapResult σ × List Nat)
  | 0, _, _, _, _, _, _ => none
  | fuel + 1, val, cur, s, err, calls, reads =>
    match cur with
    | none => some (⟨none, s, err, calls⟩, reads)
    | some p =>
      if 0 < val ∧ p < in_max then
        if mem p = 0xff then
          if is_undef then some (⟨some (p + 1), s, err, calls⟩, reads ++ [p])
          else some (⟨none, s, err.set CBOR_MALFORMED_VALUE, calls⟩, reads ++ [p])
        else
          let inner_type := CBOR_CLASS (mem p)
          match gn mem p in_max with
          | none =>
            map_loop_traced gn recv mem in_max is_undef fuel val none s
              (err.set CBOR_MALFORMED_VALUE) calls (reads ++ [p, p])
          | some (q, inner_val) =>
            if inner_type ≠ CBOR_T_UINT ∧ inner_type ≠ CBOR_T_NINT then
              map_loop_traced gn recv mem in_max is_undef fuel val none s
                (err.set CBOR_MALFORMED_VALUE) calls (reads ++ [p, p])
            else
              let index := map_index inner_type inner_val
              let r := recv mem q in_max index s err
              map_loop_traced gn recv mem in_max is_undef fuel (val - 1) r.1 r.2.1 r.2.2
                (calls ++ [(q, index)]) (reads ++ [p, p])
      else some (⟨some p, s, err, calls⟩, reads)

/-- The function `cbor_map_parse` with its reads: line 206 reads `*in` first. -/
def cbor_map_parse_traced {σ : Type} (gn : HeaderDecoder) (recv : MapReceiver σ) (mem : Mem)
    (in_ in_max : Nat) (s : σ) (err : ErrCell) (fuel : Nat) : Option (MapResult σ × List Nat) :=
  let outer_type := CBOR_CLASS (mem in_)
  match gn mem in_ in_max with
  | none => some (⟨none, s, err.set CBOR_MALFORMED_VALUE, []⟩, [in_])
  | some (p, val) =>
    if outer_type ≠ CBOR_T_MAP then some (⟨none, s, err.set CBOR_MALFORMED_VALUE, []⟩, [in_])
    else
      let is_undef := decide (val = CBOR_END_OF_ARRAY)
      let val := if is_undef then 0xffffffff else val
      map_loop_traced gn recv mem in_max is_undef fuel val (some p) s err [] [in_]

/-- A receiver that takes every value to be empty: it returns its cursor. -/
def emptyValues : MapReceiver Unit := fun _ in_ _ _ s err => (some in_, s, err)

/-- An element whose `parse` adds the integer it reads to the value the slot
holds; a failed read leaves the slot as it was. -/
def addToSlot : ElemParser Int := fun mem in_ in_max slot err =>
  ((cbor_object_parse_int mem in_ in_max 0 err).1,
    slot + (cbor_object_parse_int mem in_ in_max 0 err).2.1,
    (cbor_object_parse_int mem in_ in_max 0 err).2.2)

/-- A receiver whose values are arrays of integers, parsed by `cbor_array_parse`;
its state lists the addresses that `cbor_array_parse` read itself. Only a call
of `cbor_array_parse` that returns is followed. -/
def arrayValues : MapReceiver (List Nat) := fun mem in_ in_max _ s err =>
  match cbor_array_parse_traced cbor_get_number cbor_object_parse_int 0 mem in_ in_max [] err
      (in_max - in_ + 1) with
  | some (Outcome.returned r, reads) => (r.cur, s ++ reads, r.err)
  | _ => (none, s, err)

/-! ## Arithmetic facts -/

theorem CBOR_CLASS_eq (x : Nat) : CBOR_CLASS x = (x / 32) % 8 := by
  unfold CBOR_CLASS
  rw [Nat.shiftRight_eq_div_pow]
  exact Nat.and_pow_two_sub_one_eq_mod (x / 2 ^ 5) 3

theorem CBOR_CLASS_break : CBOR_CLASS 0xff = CBOR_T_FLOAT := by decide

theorem wrapInt64_of_range (x : Int) (h1 : -9223372036854775808 ≤ x)
    (h2 : x < 9223372036854775808) : wrapInt64 x = x := by
  unfold wrapInt64; omega

theorem toSizeT_of_nat (n : Nat) (h : n < 18446744073709551616) : toSizeT (n : Int) = n := by
  unfold toSizeT; omega

theorem size_le_next (rank : Int) (h1 : 0 ≤ rank) (h2 : rank < 2147483648) :
    (toSizeT rank + 1) % 18446744073709551616 ≤ toSizeT (rank + 1) := by
  unfold toSizeT; omega

/-! ## Facts about the vector -/

theorem vec_resize_length {α : Type} (v : List α) (n : Nat) (d : α) :
    (vec_resize v n d).length = n := by
  unfold vec_resize
  simp only [List.length_append, List.length_take, List.length_replicate]
  omega

theorem getD_append_replicate {α : Type} (l : List α) (m j : Nat) (d : α)
    (h : l.length ≤ j) : (l ++ List.replicate m d).getD j d = d := by
  rw [List.getD_eq_getElem?_getD, List.getElem?_append_right h, List.getElem?_replicate]
  split <;> rfl

/-- A slot beyond the old end of the vector is value-initialised. -/
theorem slot_fresh {α : Type} (v : List α) (rank : Int) (d : α)
    (h : v.length ≤ toSizeT rank) :
    (vec_resize v ((toSizeT rank + 1) % 18446744073709551616) d).getD (toSizeT rank) d = d := by
  unfold vec_resize
  apply getD_append_replicate
  simp only [List.length_take]
  omega

theorem vec_resize_succ {α : Type} (v : List α) (d : α) :
    vec_resize v (v.length + 1) d = v ++ [d] := by
  unfold vec_resize
  rw [List.take_of_length_le (by omega)]
  have : v.length + 1 - v.length = 1 := by omega
  rw [this]; rfl

theorem set_append_last {α : Type} (v : List α) (d x : α) :
    (v ++ [d]).set v.length x = v ++ [x] := by
  rw [List.set_append]
  simp

/-- The loop appends the parsed values to a vector whose length is the rank. -/
theorem vecAfter_append {α : Type} (d : α) :
    ∀ (xs v : List α), v.length + xs.length ≤ 2147483648 →
      vecAfter d v.length v xs = v ++ xs
  | [], v, _ => by simp [vecAfter]
  | x :: xs, v, h => by
    simp only [List.length_cons] at h
    have hs : toSizeT (v.length : Int) = v.length := toSizeT_of_nat _ (by omega)
    have hm : (v.length + 1) % 18446744073709551616 = v.length + 1 := by omega
    rw [vecAfter, hs, hm, vec_resize_succ, set_append_last]
    have hlen : ((v.length : Int) + 1) = ((v ++ [x]).length : Int) := by simp
    rw [hlen, vecAfter_append d xs (v ++ [x]) (by simp; omega)]
    simp

/-- From rank 0 the first `resize(1)` drops whatever the vector held, so the
parsed values are then exactly the content of the vector. -/
theorem vecAfter_zero {α : Type} (d : α) (v xs : List α) (hne : xs ≠ [])
    (h : xs.length ≤ 2147483648) : vecAfter d 0 v xs = xs := by
  cases xs with
  | nil => exact absurd rfl hne
  | cons x xs =>
    simp only [List.length_cons] at h
    have h1 : (vec_resize v ((toSizeT 0 + 1) % 18446744073709551616) d).set (toSizeT 0) x = [x] := by
      have : toSizeT 0 = 0 := by decide
      rw [this]
      cases v <;> simp [vec_resize]
    rw [vecAfter, h1]
    have := vecAfter_append d xs [x] (by simp; omega)
    simpa using this

/-! ## The loop of the array parsers along a chain of accepted items -/

theorem chainEnd_cons (p q : Nat) (ends : List Nat) :
    chainEnd p (q :: ends) = chainEnd q ends :=
  List.getLastD_cons p q ends

theorem chainStarts_cons (p q : Nat) (ends : List Nat) :
    chainStarts p (q :: ends) = p :: chainStarts q ends := by
  simp [chainStarts]

theorem chainStarts_length (p : Nat) (ends : List Nat) :
    (chainStarts p ends).length = ends.length := by
  simp [chainStarts]

/-- One iteration of the loop of `cbor_ctx_array_parse` on an item, below the
last value of the counter. -/
theorem ctx_array_loop_item {α γ : Type} (parse : CtxElemParser α γ) (d : α) (mem : Mem)
    (in_max : Nat) (u : Bool) (val : Int) (fuel : Nat) (rank : Int) (p : Nat) (v : List α)
    (err : ErrCell) (c : γ) (calls : List Nat)
    (hr : rank < val) (hp : p < in_max) (hb : mem p ≠ 0xff) (hm : rank ≠ INT_MAX) :
    ctx_array_loop parse d mem in_max u val (fuel + 1) rank (some p) v err c calls
      = ctx_array_loop parse d mem in_max u val fuel (rank + 1)
          (parse mem p in_max
            ((vec_resize v ((toSizeT rank + 1) % 18446744073709551616) d).getD (toSizeT rank) d)
            err c).1
          ((vec_resize v ((toSizeT rank + 1) % 18446744073709551616) d).set (toSizeT rank)
            (parse mem p in_max
              ((vec_resize v ((toSizeT rank + 1) % 18446744073709551616) d).getD (toSizeT rank) d)
              err c).2.1)
          (parse mem p in_max
            ((vec_resize v ((toSizeT rank + 1) % 18446744073709551616) d).getD (toSizeT rank) d)
            err c).2.2.1
          (parse mem p in_max
            ((vec_resize v ((toSizeT rank + 1) % 18446744073709551616) d).getD (toSizeT rank) d)
            err c).2.2.2
          (calls ++ [p]) := by
  rw [ctx_array_loop]
  simp only [hr, hp, and_self, if_true, hb, if_false, hm]

/-- The iteration of the loop of `cbor_ctx_array_parse` on an item with the
counter at `INT_MAX`: the element is parsed, then `rank++` overflows. -/
theorem ctx_array_loop_overflow {α γ : Type} (parse : CtxElemParser α γ) (d : α) (mem : Mem)
    (in_max : Nat) (u : Bool) (val : Int) (fuel : Nat) (p : Nat) (v : List α)
    (err : ErrCell) (c : γ) (calls : List Nat)
    (hr : INT_MAX < val) (hp : p < in_max) (hb : mem p ≠ 0xff) :
    ctx_array_loop parse d mem in_max u val (fuel + 1) INT_MAX (some p) v err c calls
      = some (Outcome.rank_overflow
          ⟨(parse mem p in_max
              ((vec_resize v ((toSizeT INT_MAX + 1) % 18446744073709551616) d).getD
                (toSizeT INT_MAX) d) err c).1,
            (vec_resize v ((toSizeT INT_MAX + 1) % 18446744073709551616) d).set (toSizeT INT_MAX)
              (parse mem p in_max
                ((vec_resize v ((toSizeT INT_MAX + 1) % 18446744073709551616) d).getD
                  (toSizeT INT_MAX) d) err c).2.1,
            (parse mem p in_max
              ((vec_resize v ((toSizeT INT_MAX + 1) % 18446744073709551616) d).getD
                (toSizeT INT_MAX) d) err c).2.2.1,
            (parse mem p in_max
              ((vec_resize v ((toSizeT INT_MAX + 1) % 18446744073709551616) d).getD
                (toSizeT INT_MAX) d) err c).2.2.2,
            calls ++ [p]⟩) := by
  rw [ctx_array_loop]
  simp only [hr, hp, and_self, if_true, hb, if_false]

/-- The loop of `cbor_ctx_array_parse` stops on a null cursor. -/
theorem ctx_array_loop_null {α γ : Type} (parse : CtxElemParser α γ) (d : α) (mem : Mem)
    (in_max : Nat) (u : Bool) (val : Int) (fuel : Nat) (rank : Int) (v : List α)
    (err : ErrCell) (c : γ) (calls : List Nat) :
    ctx_array_loop parse d mem in_max u val (fuel + 1) rank none v err c calls
      = some (Outcome.returned ⟨none, v, err, c, calls⟩) := by
  rw [ctx_array_loop]

/-- The loop of `cbor_ctx_array_parse` stops when the count is reached or the
buffer is exhausted. -/
theorem ctx_array_loop_done {α γ : Type} (parse : CtxElemParser α γ) (d : α) (mem : Mem)
    (in_max : Nat) (u : Bool) (val : Int) (fuel : Nat) (rank : Int) (p : Nat) (v : List α)
    (err : ErrCell) (c : γ) (calls : List Nat) (h : ¬ (rank < val ∧ p < in_max)) :
    ctx_array_loop parse d mem in_max u val (fuel + 1) rank (some p) v err c calls
      = some (Outcome.returned ⟨some p, v, err, c, calls⟩) := by
  rw [ctx_array_loop]
  simp only [h, if_false]

/-- The loop of `cbor_ctx_array_parse` on a break byte. -/
theorem ctx_array_loop_break {α γ : Type} (parse : CtxElemParser α γ) (d : α) (mem : Mem)
    (in_max : Nat) (u : Bool) (val : Int) (fuel : Nat) (rank : Int) (p : Nat) (v : List α)
    (err : ErrCell) (c : γ) (calls : List Nat)
    (hr : rank < val) (hp : p < in_max) (hb : mem p = 0xff) :
    ctx_array_loop parse d mem in_max u val (fuel + 1) rank (some p) v err c calls
      = if u then some (Outcome.returned ⟨some (p + 1), v, err, c, calls⟩)
        else some (Outcome.returned ⟨none, v, err.set CBOR_MALFORMED_VALUE, c, calls⟩) := by
  rw [ctx_array_loop]
  simp only [hr, hp, and_self, if_true, hb]

/-- Along a chain of accepted items the loop of `cbor_ctx_array_parse` makes one
iteration per item, as long as the rank stays below the count and does not
pass `INT_MAX`. -/
theorem ctx_array_loop_accepted {α γ : Type} (parse : CtxElemParser α γ) (d : α) (mem : Mem)
    (in_max : Nat) (u : Bool) (val : Int) (err : ErrCell) :
    ∀ (items : List (Nat × α × γ)) (fuel : Nat) (rank : Int) (p : Nat) (v : List α) (c : γ)
      (calls : List Nat) (slot : α),
      0 ≤ rank → rank + items.length ≤ INT_MAX →
      (vec_resize v ((toSizeT rank + 1) % 18446744073709551616) d).getD (toSizeT rank) d = slot →
      (∀ j : Nat, j < items.length → rank + j < val) →
      CtxElemsAccepted parse d mem in_max err slot p c items →
      ctx_array_loop parse d mem in_max u val (fuel + items.length) rank (some p) v err c calls
        = ctx_array_loop parse d mem in_max u val fuel (rank + items.length)
            (some (chainEnd p (items.map fun it => it.1)))
            (vecAfter d rank v (items.map fun it => it.2.1)) err
            ((items.map fun it => it.2.2).getLastD c)
            (calls ++ chainStarts p (items.map fun it => it.1))
  | [], fuel, rank, p, v, c, calls, slot, _, _, _, _, _ => by
    simp [chainEnd, chainStarts, vecAfter]
  | it :: rest, fuel, rank, p, v, c, calls, slot, h1, h2, hs, hlt, hacc => by
    obtain ⟨hp, hb, hparse, hrest⟩ := hacc
    simp only [List.length_cons, Nat.cast_add, Nat.cast_one] at h2
    unfold INT_MAX at h2
    have hr : rank < val := by
      have := hlt 0 (by simp)
      simpa using this
    have hm : rank ≠ INT_MAX := by unfold INT_MAX; omega
    have hfuel : fuel + (it :: rest).length = (fuel + rest.length) + 1 := by
      simp only [List.length_cons]; omega
    rw [hfuel, ctx_array_loop_item parse d mem in_max u val _ rank p v err c calls hr hp hb hm,
      hs, hparse]
    have hlen : ((vec_resize v ((toSizeT rank + 1) % 18446744073709551616) d).set
        (toSizeT rank) it.2.1).length ≤ toSizeT (rank + 1) := by
      rw [List.length_set, vec_resize_length]
      exact size_le_next rank h1 (by omega)
    have hslot := slot_fresh _ (rank + 1) d hlen
    have hlt2 : ∀ j : Nat, j < rest.length → rank + 1 + j < val := by
      intro j hj
      have := hlt (j + 1) (by simp only [List.length_cons]; omega)
      push_cast at this
      omega
    have ih := ctx_array_loop_accepted parse d mem in_max u val err rest fuel
      (rank + 1) it.1 _ it.2.2 (calls ++ [p]) d (by omega) (by unfold INT_MAX; omega) hslot hlt2
      hrest
    simp only at ih ⊢
    rw [ih]
    have hw : rank + 1 + (rest.length : Nat) = rank + ((it :: rest).length : Nat) := by
      simp only [List.length_cons]; push_cast; omega
    simp only [List.map_cons, chainEnd_cons, chainStarts_cons, vecAfter, List.getLastD_cons,
      List.append_assoc, List.singleton_append, hw]

/-! ## `cbor_array_parse` as `cbor_ctx_array_parse` with an ignored context -/

theorem array_loop_eq_ctx {α : Type} (parse : ElemParser α) (d : α) (mem : Mem)
    (in_max : Nat) (u : Bool) (val : Int) :
    ∀ (fuel : Nat) (rank : Int) (cur : Option Nat) (v : List α) (err : ErrCell)
      (calls : List Nat),
      array_loop parse d mem in_max u val fuel rank cur v err calls
        = (ctx_array_loop (ignoreCtx parse) d mem in_max u val fuel rank cur v err () calls).map
            (Outcome.map dropCtx)
  | 0, _, _, _, _, _ => by simp [array_loop, ctx_array_loop]
  | fuel + 1, rank, cur, v, err, calls => by
    cases cur with
    | none => simp [array_loop, ctx_array_loop, dropCtx, Outcome.map]
    | some p =>
      rw [array_loop, ctx_array_loop]
      simp only
      by_cases hc : rank < val ∧ p < in_max
      · simp only [hc, and_self, if_true]
        by_cases hb : mem p = 0xff
        · simp only [hb, if_true]
          cases u <;> simp [dropCtx, Outcome.map]
        · simp only [hb, if_false]
          by_cases hm : rank = INT_MAX
          · simp [hm, dropCtx, Outcome.map, ignoreCtx]
          · simp only [hm, if_false]
            rw [array_loop_eq_ctx parse d mem in_max u val fuel]
            simp [ignoreCtx]
      · simp only [hc, if_false]
        simp [dropCtx, Outcome.map]

theorem cbor_array_parse_eq_ctx {α : Type} (gn : HeaderDecoder) (parse : ElemParser α)
    (d : α) (mem : Mem) (in_ in_max : Nat) (v : List α) (err : ErrCell) (fuel : Nat) :
    cbor_array_parse gn parse d mem in_ in_max v err fuel
      = (cbor_ctx_array_parse gn (ignoreCtx parse) d mem in_ in_max v err () fuel).map
          (Outcome.map dropCtx) := by
  unfold cbor_array_parse cbor_ctx_array_parse
  cases hg : gn mem in_ in_max with
  | none => simp [dropCtx, Outcome.map]
  | some pv =>
    obtain ⟨p, val⟩ := pv
    simp only
    by_cases ht : CBOR_CLASS (mem in_) ≠ CBOR_T_ARRAY
    · simp [ht, dropCtx, Outcome.map]
    · simp only [ht, if_false]
      exact array_loop_eq_ctx parse d mem in_max _ _ fuel 0 (some p) v err []

/-- A chain of items accepted by a plain element parser is a chain accepted by
the same parser with an ignored context. -/
theorem ElemsAccepted.toCtx {α : Type} (parse : ElemParser α) (d : α) (mem : Mem)
    (in_max : Nat) (err : ErrCell) :
    ∀ (items : List (Nat × α)) (slot : α) (p : Nat),
      ElemsAccepted parse d mem in_max err slot p items →
      CtxElemsAccepted (ignoreCtx parse) d mem in_max err slot p ()
        (items.map fun it => (it.1, it.2, ()))
  | [], _, _, _ => trivial
  | it :: rest, slot, p, h => by
    obtain ⟨hp, hb, hparse, hrest⟩ := h
    refine ⟨hp, hb, ?_, ElemsAccepted.toCtx parse d mem in_max err rest d it.1 hrest⟩
    simp [ignoreCtx, hparse]

/-- Along a chain of accepted items the loop of `cbor_array_parse` makes one
iteration per item, as long as the rank stays below the count and does not
pass `INT_MAX`. -/
theorem array_loop_accepted {α : Type} (parse : ElemParser α) (d : α) (mem : Mem)
    (in_max : Nat) (u : Bool) (val : Int) (err : ErrCell) (items : List (Nat × α))
    (fuel : Nat) (p : Nat) (v : List α) (calls : List Nat)
    (hn : (items.length : Int) ≤ INT_MAX)
    (hlt : ∀ j : Nat, j < items.length → (j : Int) < val)
    (hacc : ElemsAccepted parse d mem in_max err (v.headD d) p items) :
    array_loop parse d mem in_max u val (fuel + items.length) 0 (some p) v err calls
      = array_loop parse d mem in_max u val fuel items.length
          (some (chainEnd p (items.map fun it => it.1)))
          (vecAfter d 0 v (items.map fun it => it.2)) err
          (calls ++ chainStarts p (items.map fun it => it.1)) := by
  have hslot : (vec_resize v ((toSizeT 0 + 1) % 18446744073709551616) d).getD (toSizeT 0) d
      = v.headD d := by
    have : toSizeT 0 = 0 := by decide
    rw [this]
    cases v <;> simp [vec_resize]
  have h := ctx_array_loop_accepted (ignoreCtx parse) d mem in_max u val err
    (items.map fun it => (it.1, it.2, ())) fuel 0 p v () calls (v.headD d) (by omega)
    (by simpa using hn) hslot (by simpa using hlt)
    (ElemsAccepted.toCtx parse d mem in_max err items _ p hacc)
  rw [array_loop_eq_ctx, array_loop_eq_ctx]
  simp only [List.length_map, List.map_map, zero_add] at h
  rw [h]
  simp [Function.comp_def]

/-- The loop of `cbor_array_parse` stops on a null cursor. -/
theorem array_loop_null {α : Type} (parse : ElemParser α) (d : α) (mem : Mem)
    (in_max : Nat) (u : Bool) (val : Int) (fuel : Nat) (rank : Int) (v : List α)
    (err : ErrCell) (calls : List Nat) :
    array_loop parse d mem in_max u val (fuel + 1) rank none v err calls
      = some (Outcome.returned ⟨none, v, err, calls⟩) := by
  rw [array_loop]

/-- The loop of `cbor_array_parse` stops when the count is reached or the buffer
is exhausted. -/
theorem array_loop_done {α : Type} (parse : ElemParser α) (d : α) (mem : Mem)
    (in_max : Nat) (u : Bool) (val : Int) (fuel : Nat) (rank : Int) (p : Nat) (v : List α)
    (err : ErrCell) (calls : List Nat) (h : ¬ (rank < val ∧ p < in_max)) :
    array_loop parse d mem in_max u val (fuel + 1) rank (some p) v err calls
      = some (Outcome.returned ⟨some p, v, err, calls⟩) := by
  rw [array_loop]
  simp only [h, if_false]

/-- The loop of `cbor_array_parse` on a break byte. -/
theorem array_loop_break {α : Type} (parse : ElemParser α) (d : α) (mem : Mem)
    (in_max : Nat) (u : Bool) (val : Int) (fuel : Nat) (rank : Int) (p : Nat) (v : List α)
    (err : ErrCell) (calls : List Nat)
    (hr : rank < val) (hp : p < in_max) (hb : mem p = 0xff) :
    array_loop parse d mem in_max u val (fuel + 1) rank (some p) v err calls
      = if u then some (Outcome.returned ⟨some (p + 1), v, err, calls⟩)
        else some (Outcome.returned ⟨none, v, err.set CBOR_MALFORMED_VALUE, calls⟩) := by
  rw [array_loop]
  simp only [hr, hp, and_self, if_true, hb]

/-- The iteration of the loop of `cbor_array_parse` on an item with the counter
at `INT_MAX`: the element is parsed, then `rank++` overflows. -/
theorem array_loop_overflow {α : Type} (parse : ElemParser α) (d : α) (mem : Mem)
    (in_max : Nat) (u : Bool) (val : Int) (fuel : Nat) (p : Nat) (v : List α)
    (err : ErrCell) (calls : List Nat)
    (hr : INT_MAX < val) (hp : p < in_max) (hb : mem p ≠ 0xff) :
    array_loop parse d mem in_max u val (fuel + 1) INT_MAX (some p) v err calls
      = some (Outcome.rank_overflow
          ⟨(parse mem p in_max
              ((vec_resize v ((toSizeT INT_MAX + 1) % 18446744073709551616) d).getD
                (toSizeT INT_MAX) d) err).1,
            (vec_resize v ((toSizeT INT_MAX + 1) % 18446744073709551616) d).set (toSizeT INT_MAX)
              (parse mem p in_max
                ((vec_resize v ((toSizeT INT_MAX + 1) % 18446744073709551616) d).getD
                  (toSizeT INT_MAX) d) err).2.1,
            (parse mem p in_max
              ((vec_resize v ((toSizeT INT_MAX + 1) % 18446744073709551616) d).getD
                (toSizeT INT_MAX) d) err).2.2,
            calls ++ [p]⟩) := by
  rw [array_loop]
  simp only [hr, hp, and_self, if_true, hb, if_false]

/-! ## The loop of the map parser along a chain of accepted entries -/

theorem int_key_ne_break (b : Nat)
    (h : CBOR_CLASS b = CBOR_T_UINT ∨ CBOR_CLASS b = CBOR_T_NINT) : b ≠ 0xff := by
  intro hb
  rw [hb] at h
  revert h
  decide

/-- The loop of `cbor_map_parse` stops on a null cursor. -/
theorem map_loop_null {σ : Type} (gn : HeaderDecoder) (recv : MapReceiver σ) (mem : Mem)
    (in_max : Nat) (u : Bool) (fuel : Nat) (val : Int) (s : σ) (err : ErrCell)
    (calls : List (Nat × Int)) :
    map_loop gn recv mem in_max u (fuel + 1) val none s err calls
      = some ⟨none, s, err, calls⟩ := by
  rw [map_loop]

/-- The loop of `cbor_map_parse` stops when the count is reached or the buffer is
exhausted. -/
theorem map_loop_done {σ : Type} (gn : HeaderDecoder) (recv : MapReceiver σ) (mem : Mem)
    (in_max : Nat) (u : Bool) (fuel : Nat) (val : Int) (p : Nat) (s : σ) (err : ErrCell)
    (calls : List (Nat × Int)) (h : ¬ (0 < val ∧ p < in_max)) :
    map_loop gn recv mem in_max u (fuel + 1) val (some p) s err calls
      = some ⟨some p, s, err, calls⟩ := by
  rw [map_loop]
  simp only [h, if_false]

/-- The loop of `cbor_map_parse` on a break byte. -/
theorem map_loop_break {σ : Type} (gn : HeaderDecoder) (recv : MapReceiver σ) (mem : Mem)
    (in_max : Nat) (u : Bool) (fuel : Nat) (val : Int) (p : Nat) (s : σ) (err : ErrCell)
    (calls : List (Nat × Int)) (hv : 0 < val) (hp : p < in_max) (hb : mem p = 0xff) :
    map_loop gn recv mem in_max u (fuel + 1) val (some p) s err calls
      = if u then some ⟨some (p + 1), s, err, calls⟩
        else some ⟨none, s, err.set CBOR_MALFORMED_VALUE, calls⟩ := by
  rw [map_loop]
  simp only [hv, hp, and_self, if_true, hb]

/-- The loop of `cbor_map_parse` on a key that is not an integer or cannot be
decoded. -/
theorem map_loop_bad_key {σ : Type} (gn : HeaderDecoder) (recv : MapReceiver σ) (mem : Mem)
    (in_max : Nat) (u : Bool) (fuel : Nat) (val : Int) (p : Nat) (s : σ) (err : ErrCell)
    (calls : List (Nat × Int)) (hv : 0 < val) (hp : p < in_max) (hb : mem p ≠ 0xff)
    (hkey : gn mem p in_max = none ∨
      (CBOR_CLASS (mem p) ≠ CBOR_T_UINT ∧ CBOR_CLASS (mem p) ≠ CBOR_T_NINT)) :
    map_loop gn recv mem in_max u (fuel + 2) val (some p) s err calls
      = some ⟨none, s, err.set CBOR_MALFORMED_VALUE, calls⟩ := by
  rw [map_loop]
  simp only [hv, hp, and_self, if_true, hb, if_false]
  cases hg : gn mem p in_max with
  | none => simp only [map_loop_null]
  | some qv =>
    obtain ⟨q, m⟩ := qv
    rcases hkey with h | h
    · rw [hg] at h; cases h
    · simp only [h, ne_eq, not_false_eq_true, and_self, if_true, map_loop_null]

/-- One iteration of the loop of `cbor_map_parse` on an entry with an integer
key. -/
theorem map_loop_entry {σ : Type} (gn : HeaderDecoder) (recv : MapReceiver σ) (mem : Mem)
    (in_max : Nat) (u : Bool) (fuel : Nat) (val : Int) (p q : Nat) (m : Int) (s : σ)
    (err : ErrCell) (calls : List (Nat × Int)) (hv : 0 < val) (hp : p < in_max)
    (hty : CBOR_CLASS (mem p) = CBOR_T_UINT ∨ CBOR_CLASS (mem p) = CBOR_T_NINT)
    (hg : gn mem p in_max = some (q, m)) :
    map_loop gn recv mem in_max u (fuel + 1) val (some p) s err calls
      = map_loop gn recv mem in_max u fuel (val - 1)
          (recv mem q in_max (map_index (CBOR_CLASS (mem p)) m) s err).1
          (recv mem q in_max (map_index (CBOR_CLASS (mem p)) m) s err).2.1
          (recv mem q in_max (map_index (CBOR_CLASS (mem p)) m) s err).2.2
          (calls ++ [(q, map_index (CBOR_CLASS (mem p)) m)]) := by
  have hb := int_key_ne_break (mem p) hty
  have hn : ¬ (CBOR_CLASS (mem p) ≠ CBOR_T_UINT ∧ CBOR_CLASS (mem p) ≠ CBOR_T_NINT) := by
    rcases hty with h | h <;> simp [h]
  rw [map_loop]
  simp only [hv, hp, and_self, if_true, hb, if_false, hg, hn]

/-- Along a chain of accepted entries the loop of `cbor_map_parse` makes one
iteration, and one receiver call, per entry, as long as the count allows. -/
theorem map_loop_accepted {σ : Type} (gn : HeaderDecoder) (recv : MapReceiver σ) (mem : Mem)
    (in_max : Nat) (u : Bool) (err : ErrCell) :
    ∀ (entries : List (MapEntry σ)) (fuel : Nat) (val : Int) (p : Nat) (s : σ)
      (calls : List (Nat × Int)),
      (entries.length : Int) ≤ val →
      EntriesAccepted gn recv mem in_max err p s entries →
      map_loop gn recv mem in_max u (fuel + entries.length) val (some p) s err calls
        = map_loop gn recv mem in_max u fuel (val - entries.length)
            (some (chainEnd p (entries.map fun en => en.valEnd)))
            ((entries.map fun en => en.recv).getLastD s) err
            (calls ++ entryCalls mem p entries)
  | [], fuel, val, p, s, calls, _, _ => by
    simp [chainEnd, entryCalls]
  | en :: rest, fuel, val, p, s, calls, hlen, hacc => by
    obtain ⟨hp, hty, hg, hrecv, hrest⟩ := hacc
    simp only [List.length_cons, Nat.cast_add, Nat.cast_one] at hlen
    have hfuel : fuel + (en :: rest).length = (fuel + rest.length) + 1 := by
      simp only [List.length_cons]; omega
    rw [hfuel, map_loop_entry gn recv mem in_max u _ val p en.keyEnd en.mag s err calls
      (by omega) hp hty hg, hrecv]
    have ih := map_loop_accepted gn recv mem in_max u err rest fuel (val - 1) en.valEnd
      en.recv (calls ++ [(en.keyEnd, map_index (CBOR_CLASS (mem p)) en.mag)]) (by omega) hrest
    simp only at ih ⊢
    rw [ih]
    have hval : val - 1 - (rest.length : Int) = val - ((en :: rest).length : Nat) := by
      simp only [List.length_cons, Nat.cast_add, Nat.cast_one]; omega
    simp only [List.map_cons, chainEnd_cons, entryCalls, List.getLastD_cons,
      List.append_assoc, List.singleton_append, hval]

/-- The first slot handed out is the old first element of the vector, or a
value-initialised one when the vector is empty. -/
theorem first_slot {α : Type} (v : List α) (d : α) :
    (vec_resize v ((toSizeT 0 + 1) % 18446744073709551616) d).getD (toSizeT 0) d
      = v.headD d := by
  have : toSizeT 0 = 0 := by decide
  rw [this]
  cases v <;> simp [vec_resize]

/-- Along a chain of accepted items, from rank 0, the loop of
`cbor_ctx_array_parse` makes one iteration per item. -/
theorem ctx_array_loop_accepted_zero {α γ : Type} (parse : CtxElemParser α γ) (d : α)
    (mem : Mem) (in_max : Nat) (u : Bool) (val : Int) (err : ErrCell)
    (items : List (Nat × α × γ)) (fuel : Nat) (p : Nat) (v : List α) (c : γ)
    (calls : List Nat)
    (hn : (items.length : Int) ≤ INT_MAX)
    (hlt : ∀ j : Nat, j < items.length → (j : Int) < val)
    (hacc : CtxElemsAccepted parse d mem in_max err (v.headD d) p c items) :
    ctx_array_loop parse d mem in_max u val (fuel + items.length) 0 (some p) v err c calls
      = ctx_array_loop parse d mem in_max u val fuel items.length
          (some (chainEnd p (items.map fun it => it.1)))
          (vecAfter d 0 v (items.map fun it => it.2.1)) err
          ((items.map fun it => it.2.2).getLastD c)
          (calls ++ chainStarts p (items.map fun it => it.1)) := by
  have h := ctx_array_loop_accepted parse d mem in_max u val err items fuel 0 p v c calls
    (v.headD d) (by omega) (by simpa using hn) (first_slot v d) (by simpa using hlt) hacc
  simpa using h

/-! ## Unfolding the header part -/

theorem cbor_array_parse_header {α : Type} (gn : HeaderDecoder) (parse : ElemParser α) (d : α)
    (mem : Mem) (in_ in_max p0 : Nat) (hv : Int) (v : List α) (err : ErrCell) (fuel : Nat)
    (hty : CBOR_CLASS (mem in_) = CBOR_T_ARRAY) (hhdr : gn mem in_ in_max = some (p0, hv)) :
    cbor_array_parse gn parse d mem in_ in_max v err fuel
      = array_loop parse d mem in_max (decide (hv = CBOR_END_OF_ARRAY)) (container_count hv)
          fuel 0 (some p0) v err [] := by
  unfold cbor_array_parse container_count
  simp only [hhdr, hty, ne_eq, not_true_eq_false, if_false, decide_eq_true_eq]

theorem cbor_ctx_array_parse_header {α γ : Type} (gn : HeaderDecoder)
    (parse : CtxElemParser α γ) (d : α) (mem : Mem) (in_ in_max p0 : Nat) (hv : Int)
    (v : List α) (err : ErrCell) (ctx : γ) (fuel : Nat)
    (hty : CBOR_CLASS (mem in_) = CBOR_T_ARRAY) (hhdr : gn mem in_ in_max = some (p0, hv)) :
    cbor_ctx_array_parse gn parse d mem in_ in_max v err ctx fuel
      = ctx_array_loop parse d mem in_max (decide (hv = CBOR_END_OF_ARRAY))
          (container_count hv) fuel 0 (some p0) v err ctx [] := by
  unfold cbor_ctx_array_parse container_count
  simp only [hhdr, hty, ne_eq, not_true_eq_false, if_false, decide_eq_true_eq]

theorem cbor_map_parse_header {σ : Type} (gn : HeaderDecoder) (recv : MapReceiver σ)
    (mem : Mem) (in_ in_max p0 : Nat) (hv : Int) (s : σ) (err : ErrCell) (fuel : Nat)
    (hty : CBOR_CLASS (mem in_) = CBOR_T_MAP) (hhdr : gn mem in_ in_max = some (p0, hv)) :
    cbor_map_parse gn recv mem in_ in_max s err fuel
      = map_loop gn recv mem in_max (decide (hv = CBOR_END_OF_ARRAY)) fuel
          (container_count hv) (some p0) s err [] := by
  unfold cbor_map_parse container_count
  simp only [hhdr, hty, ne_eq, not_true_eq_false, if_false, decide_eq_true_eq]

/-- One iteration of the loop of `cbor_array_parse` on an item, below the last
value of the counter. -/
theorem array_loop_item {α : Type} (parse : ElemParser α) (d : α) (mem : Mem)
    (in_max : Nat) (u : Bool) (val : Int) (fuel : Nat) (rank : Int) (p : Nat) (v : List α)
    (err : ErrCell) (calls : List Nat)
    (hr : rank < val) (hp : p < in_max) (hb : mem p ≠ 0xff) (hm : rank ≠ INT_MAX) :
    array_loop parse d mem in_max u val (fuel + 1) rank (some p) v err calls
      = array_loop parse d mem in_max u val fuel (rank + 1)
          (parse mem p in_max
            ((vec_resize v ((toSizeT rank + 1) % 18446744073709551616) d).getD (toSizeT rank) d)
            err).1
          ((vec_resize v ((toSizeT rank + 1) % 18446744073709551616) d).set (toSizeT rank)
            (parse mem p in_max
              ((vec_resize v ((toSizeT rank + 1) % 18446744073709551616) d).getD (toSizeT rank) d)
              err).2.1)
          (parse mem p in_max
            ((vec_resize v ((toSizeT rank + 1) % 18446744073709551616) d).getD (toSizeT rank) d)
            err).2.2
          (calls ++ [p]) := by
  rw [array_loop]
  simp only [hr, hp, and_self, if_true, hb, if_false, hm]

/-- Storing one more value after the values `xs`. -/
theorem vecAfter_snoc {α : Type} (d : α) :
    ∀ (xs : List α) (rank : Int) (v : List α) (x : α),
      vecAfter d rank v (xs ++ [x])
        = (vec_resize (vecAfter d rank v xs)
            ((toSizeT (rank + xs.length) + 1) % 18446744073709551616) d).set
            (toSizeT (rank + xs.length)) x
  | [], rank, v, x => by
    simp [vecAfter]
  | y :: ys, rank, v, x => by
    have ih := vecAfter_snoc d ys (rank + 1)
      ((vec_resize v ((toSizeT rank + 1) % 18446744073709551616) d).set (toSizeT rank) y) x
    have hw : rank + 1 + (ys.length : Nat) = rank + ((y :: ys).length : Nat) := by
      simp only [List.length_cons]; push_cast; omega
    rw [hw] at ih
    show vecAfter d (rank + 1)
      ((vec_resize v ((toSizeT rank + 1) % 18446744073709551616) d).set (toSizeT rank) y)
      (ys ++ [x]) = _
    rw [ih]
    rfl

/-- Below `2^31` items, the vector after `k` items and the slot of the next. -/
theorem slot_after {α : Type} (d : α) (v xs : List α) (h : xs.length < 2147483648) :
    (vec_resize (vecAfter d 0 v xs)
        ((toSizeT (xs.length : Int) + 1) % 18446744073709551616) d).getD
        (toSizeT (xs.length : Int)) d
      = next_slot v d xs.length := by
  cases xs with
  | nil =>
    simp only [List.length_nil, Nat.cast_zero, next_slot, vecAfter, if_true]
    exact first_slot v d
  | cons x xs =>
    have hz := vecAfter_zero d v (x :: xs) (by simp) (by omega)
    have hne : (x :: xs).length ≠ 0 := by simp
    rw [hz, next_slot, if_neg hne]
    apply slot_fresh
    rw [toSizeT_of_nat _ (by omega)]

/-- Below `2^31` items, the vector after one more store. -/
theorem store_after {α : Type} (d : α) (v xs : List α) (x : α) (h : xs.length < 2147483648) :
    (vec_resize (vecAfter d 0 v xs)
        ((toSizeT (xs.length : Int) + 1) % 18446744073709551616) d).set
        (toSizeT (xs.length : Int)) x
      = xs ++ [x] := by
  have h1 := vecAfter_snoc d xs 0 v x
  simp only [zero_add] at h1
  rw [← h1]
  exact vecAfter_zero d v (xs ++ [x]) (by simp) (by simp; omega)

/-! ## Long containers -/

theorem int_parse_one (mem : Mem) (p in_max : Nat) (sl : Int) (err : ErrCell)
    (hp : p < in_max) (hm : mem p = 1) :
    cbor_object_parse_int mem p in_max sl err = (some (p + 1), 1, err) := by
  simp only [cbor_object_parse_int, cbor_parse_int, cbor_get_number, hp, hm, if_true]
  rfl

theorem int_parse_two (mem : Mem) (p in_max : Nat) (sl : Int) (err : ErrCell)
    (hp : p < in_max) (hm : mem p = 2) :
    cbor_object_parse_int mem p in_max sl err = (some (p + 1), 2, err) := by
  simp only [cbor_object_parse_int, cbor_parse_int, cbor_get_number, hp, hm, if_true]
  rfl

theorem int_parse_text (mem : Mem) (p in_max : Nat) (sl : Int) (err : ErrCell)
    (hp : p < in_max) (hm : mem p = 0x61) :
    cbor_object_parse_int mem p in_max sl err = (none, sl, err.set CBOR_MALFORMED_VALUE) := by
  simp only [cbor_object_parse_int, cbor_parse_int, cbor_get_number, hp, hm, if_true]
  rfl

theorem get_number_one (mem : Mem) (p in_max : Nat) (hp : p < in_max) (hm : mem p = 1) :
    cbor_get_number mem p in_max = some (p + 1, 1) := by
  simp only [cbor_get_number, hp, hm, if_true]
  rfl

theorem onesItems_accepted (mem : Mem) (in_max : Nat) (err : ErrCell) :
    ∀ (n p : Nat) (sl : Int), (∀ i, p ≤ i → i < p + n → mem i = 1) → p + n ≤ in_max →
      ElemsAccepted cbor_object_parse_int 0 mem in_max err sl p (onesItems p n)
  | 0, _, _, _, _ => trivial
  | n + 1, p, sl, hm, hle => by
    have h1 : mem p = 1 := hm p (le_refl _) (by omega)
    refine ⟨by omega, by rw [h1]; decide, int_parse_one mem p in_max sl err (by omega) h1, ?_⟩
    exact onesItems_accepted mem in_max err n (p + 1) 0
      (fun i h2 h3 => hm i (by omega) (by omega)) (by omega)

theorem onesItems_length : ∀ (n p : Nat), (onesItems p n).length = n
  | 0, _ => rfl
  | n + 1, p => by simp [onesItems, onesItems_length n]

theorem onesItems_end : ∀ (n p : Nat), chainEnd p ((onesItems p n).map fun it => it.1) = p + n
  | 0, _ => rfl
  | n + 1, p => by
    rw [onesItems, List.map_cons, chainEnd_cons, onesItems_end n (p + 1)]
    omega

theorem pairEntries_accepted (mem : Mem) (in_max : Nat) (err : ErrCell) :
    ∀ (n p : Nat), (∀ i, p ≤ i → i < p + 2 * n → mem i = if i % 2 = 1 then 1 else 2) →
      p % 2 = 1 → p + 2 * n ≤ in_max →
      EntriesAccepted cbor_get_number checkInts mem in_max err p () (pairEntries p n)
  | 0, _, _, _, _ => trivial
  | n + 1, p, hm, hodd, hle => by
    have h1 : mem p = 1 := by rw [hm p (le_refl _) (by omega), if_pos hodd]
    have h2 : mem (p + 1) = 2 := by
      rw [hm (p + 1) (by omega) (by omega), if_neg (by omega)]
    refine ⟨by omega, Or.inl (by rw [h1]; decide),
      get_number_one mem p in_max (by omega) h1, ?_, ?_⟩
    · simp only [checkInts, int_parse_two mem (p + 1) in_max 0 err (by omega) h2]
    · exact pairEntries_accepted mem in_max err n (p + 2)
        (fun i h3 h4 => hm i (by omega) (by omega)) (by omega) (by omega)

theorem pairEntries_length : ∀ (n p : Nat), (pairEntries p n).length = n
  | 0, _ => rfl
  | n + 1, p => by simp [pairEntries, pairEntries_length n]

theorem pairEntries_end : ∀ (n p : Nat),
    chainEnd p ((pairEntries p n).map fun en => en.valEnd) = p + 2 * n
  | 0, _ => rfl
  | n + 1, p => by
    rw [pairEntries, List.map_cons, chainEnd_cons, pairEntries_end n (p + 2)]
    omega

/-- After `INT_MAX` accepted items, one more item makes the counter overflow:
`cbor_array_parse` parses it, with a value-initialised slot, and reaches `rank++`
with `rank == INT_MAX`. That item is the last one handed to the element parser. -/
theorem array_overflow_raw {α : Type} (gn : HeaderDecoder) (parse : ElemParser α) (d : α)
    (mem : Mem) (in_ in_max p0 : Nat) (v : List α) (err : ErrCell) (items : List (Nat × α))
    (hv : Int) (fuel : Nat)
    (hty : CBOR_CLASS (mem in_) = CBOR_T_ARRAY)
    (hhdr : gn mem in_ in_max = some (p0, hv))
    (hlen : items.length = 2147483647)
    (hcount : INT_MAX < container_count hv)
    (hacc : ElemsAccepted parse d mem in_max err (v.headD d) p0 items)
    (hq : chainEnd p0 (items.map fun it => it.1) < in_max)
    (hnb : mem (chainEnd p0 (items.map fun it => it.1)) ≠ 0xff)
    (hfuel : items.length < fuel) :
    cbor_array_parse gn parse d mem in_ in_max v err fuel
      = some (Outcome.rank_overflow
          ⟨(parse mem (chainEnd p0 (items.map fun it => it.1)) in_max d err).1,
            (items.map fun it => it.2)
              ++ [(parse mem (chainEnd p0 (items.map fun it => it.1)) in_max d err).2.1],
            (parse mem (chainEnd p0 (items.map fun it => it.1)) in_max d err).2.2,
            chainStarts p0 (items.map fun it => it.1)
              ++ [chainEnd p0 (items.map fun it => it.1)]⟩) := by
  obtain ⟨f, rfl⟩ : ∃ f, fuel = (f + 1) + items.length := ⟨fuel - items.length - 1, by omega⟩
  have hmax : (items.length : Int) = INT_MAX := by rw [hlen]; rfl
  have hl2 : (items.map fun it => it.2).length = items.length := List.length_map _ _
  have hs := slot_after d v (items.map fun it => it.2) (by rw [hl2, hlen]; decide)
  have hne : (items.map fun it => it.2).length ≠ 0 := by rw [hl2, hlen]; decide
  rw [next_slot, if_neg hne, hl2, hmax] at hs
  have hst := fun x => store_after d v (items.map fun it => it.2) x (by rw [hl2, hlen]; decide)
  simp only [hl2, hmax] at hst
  rw [cbor_array_parse_header gn parse d mem in_ in_max p0 hv v err _ hty hhdr,
    array_loop_accepted parse d mem in_max _ _ err items (f + 1) p0 v [] (le_of_eq hmax)
      (fun j hj => by unfold INT_MAX at hcount; omega) hacc,
    hmax, array_loop_overflow _ _ _ _ _ _ _ _ _ _ _ hcount hq hnb, hs, hst]
  simp

/-- When `cbor_array_parse` ends in the overflow of the counter, so does
`cbor_ctx_array_parse` with the same element parser and an ignored context. -/
theorem ctx_overflow_of_plain {α : Type} (gn : HeaderDecoder) (parse : ElemParser α) (d : α)
    (mem : Mem) (in_ in_max : Nat) (v : List α) (err : ErrCell) (fuel : Nat)
    (r : ArrayResult α)
    (h : cbor_array_parse gn parse d mem in_ in_max v err fuel = some (Outcome.rank_overflow r)) :
    cbor_ctx_array_parse gn (ignoreCtx parse) d mem in_ in_max v err () fuel
      = some (Outcome.rank_overflow ⟨r.cur, r.v, r.err, (), r.calls⟩) := by
  rw [cbor_array_parse_eq_ctx] at h
  cases hc : cbor_ctx_array_parse gn (ignoreCtx parse) d mem in_ in_max v err () fuel with
  | none => rw [hc] at h; cases h
  | some o =>
    rw [hc] at h
    cases o with
    | returned r2 => simp [Outcome.map] at h
    | rank_overflow r2 =>
      simp only [Option.map_some', Outcome.map, Option.some.injEq, Outcome.rank_overflow.injEq]
        at h
      subst h
      rfl

/-- The loop of `cbor_map_parse` ends without a word once as many entries were
accepted as the count allows, whatever follows. -/
theorem map_count_exhausted {σ : Type} (gn : HeaderDecoder) (recv : MapReceiver σ) (mem : Mem)
    (in_ in_max p0 : Nat) (s : σ) (err : ErrCell) (entries : List (MapEntry σ)) (hv : Int)
    (fuel : Nat)
    (hty : CBOR_CLASS (mem in_) = CBOR_T_MAP)
    (hhdr : gn mem in_ in_max = some (p0, hv))
    (hk : (entries.length : Int) = container_count hv)
    (hacc : EntriesAccepted gn recv mem in_max err p0 s entries)
    (hfuel : entries.length < fuel) :
    cbor_map_parse gn recv mem in_ in_max s err fuel
      = some ⟨some (chainEnd p0 (entries.map fun en => en.valEnd)),
          (entries.map fun en => en.recv).getLastD s, err, entryCalls mem p0 entries⟩ := by
  obtain ⟨f, rfl⟩ : ∃ f, fuel = (f + 1) + entries.length :=
    ⟨fuel - entries.length - 1, by omega⟩
  rw [cbor_map_parse_header gn recv mem in_ in_max p0 hv s err _ hty hhdr,
    map_loop_accepted gn recv mem in_max _ err entries (f + 1) _ p0 s [] (by omega) hacc,
    map_loop_done _ _ _ _ _ _ _ _ _ _ _ (by omega)]
  simp

/-! ## Every run of the map loop ends, and only adds receiver calls -/

/-- With more fuel than the count, the loop of `cbor_map_parse` returns, and the
calls it was entered with are the first calls of the result. -/
theorem map_loop_total {σ : Type} (gn : HeaderDecoder) (recv : MapReceiver σ) (mem : Mem)
    (in_max : Nat) (u : Bool) :
    ∀ (fuel : Nat) (val : Int) (cur : Option Nat) (s : σ) (err : ErrCell)
      (calls : List (Nat × Int)), val.toNat + 1 < fuel →
      ∃ r t, map_loop gn recv mem in_max u fuel val cur s err calls = some r
        ∧ r.calls = calls ++ t
  | 0, _, _, _, _, _, h => by omega
  | fuel + 1, val, none, s, err, calls, _ => ⟨_, [], map_loop_null _ _ _ _ _ _ _ _ _ _, by simp⟩
  | fuel + 1, val, some p, s, err, calls, h => by
    obtain ⟨f, rfl⟩ : ∃ f, fuel = f + 1 := ⟨fuel - 1, by omega⟩
    by_cases hc : 0 < val ∧ p < in_max
    · by_cases hb : mem p = 0xff
      · have hbr := map_loop_break gn recv mem in_max u (f + 1) val p s err calls hc.1 hc.2 hb
        cases u
        · exact ⟨_, [], hbr, by simp⟩
        · exact ⟨_, [], hbr, by simp⟩
      · by_cases hkey : gn mem p in_max = none ∨
          (CBOR_CLASS (mem p) ≠ CBOR_T_UINT ∧ CBOR_CLASS (mem p) ≠ CBOR_T_NINT)
        · exact ⟨_, [], map_loop_bad_key gn recv mem in_max u f val p s err calls hc.1 hc.2 hb
            hkey, by simp⟩
        · have hg : ∃ q m, gn mem p in_max = some (q, m) := by
            cases hgn : gn mem p in_max with
            | none => exact absurd (Or.inl hgn) hkey
            | some qm => exact ⟨qm.1, qm.2, rfl⟩
          obtain ⟨q, m, hg⟩ := hg
          have hty : CBOR_CLASS (mem p) = CBOR_T_UINT ∨ CBOR_CLASS (mem p) = CBOR_T_NINT := by
            by_contra hn
            exact hkey (Or.inr ⟨fun h0 => hn (Or.inl h0), fun h1 => hn (Or.inr h1)⟩)
          rw [map_loop_entry gn recv mem in_max u (f + 1) val p q m s err calls hc.1 hc.2 hty hg]
          obtain ⟨r, t, hr, ht⟩ := map_loop_total gn recv mem in_max u (f + 1) (val - 1)
            (recv mem q in_max (map_index (CBOR_CLASS (mem p)) m) s err).1
            (recv mem q in_max (map_index (CBOR_CLASS (mem p)) m) s err).2.1
            (recv mem q in_max (map_index (CBOR_CLASS (mem p)) m) s err).2.2
            (calls ++ [(q, map_index (CBOR_CLASS (mem p)) m)]) (by omega)
          exact ⟨r, (q, map_index (CBOR_CLASS (mem p)) m) :: t, hr, by rw [ht]; simp⟩
    · exact ⟨_, [], map_loop_done gn recv mem in_max u _ val p s err calls hc, by simp⟩

theorem entryCalls_length {σ : Type} (mem : Mem) :
    ∀ (entries : List (MapEntry σ)) (p : Nat), (entryCalls mem p entries).length = entries.length
  | [], _ => rfl
  | en :: rest, p => by simp [entryCalls, entryCalls_length mem rest]

theorem entryCalls_snoc {σ : Type} (mem : Mem) :
    ∀ (pre : List (MapEntry σ)) (en : MapEntry σ) (p : Nat),
      entryCalls mem p (pre ++ [en]) = entryCalls mem p pre ++
        [(en.keyEnd, map_index (CBOR_CLASS (mem (chainEnd p (pre.map fun e => e.valEnd)))) en.mag)]
  | [], en, p => by simp [entryCalls, chainEnd]
  | e :: pre, en, p => by
    have ih := entryCalls_snoc mem pre en e.valEnd
    show (e.keyEnd, map_index (CBOR_CLASS (mem p)) e.mag)
      :: entryCalls mem e.valEnd (pre ++ [en]) = _
    rw [ih, List.map_cons, chainEnd_cons]
    rfl

/-- The `int64_t` computation `-(inner_val + 1)` is exact on every `int64_t`. -/
theorem map_index_nint (m : Int) (h1 : -9223372036854775808 ≤ m)
    (h2 : m ≤ 9223372036854775807) : map_index CBOR_T_NINT m = -(m + 1) := by
  unfold map_index wrapInt64
  simp only [if_true]
  omega

/-! ## The context of `cbor_ctx_array_parse` -/

/-- The loop of `cbor_ctx_array_parse` with an element parser whose cursor, slot
and error cell do not depend on the context is the loop of `cbor_array_parse`. -/
theorem ctx_array_loop_agrees {α γ : Type} (parse : ElemParser α) (cparse : CtxElemParser α γ)
    (d : α) (mem : Mem) (in_max : Nat) (u : Bool) (val : Int)
    (h : ∀ (p : Nat) (slot : α) (e : ErrCell) (c : γ),
      (cparse mem p in_max slot e c).1 = (parse mem p in_max slot e).1
        ∧ (cparse mem p in_max slot e c).2.1 = (parse mem p in_max slot e).2.1
        ∧ (cparse mem p in_max slot e c).2.2.1 = (parse mem p in_max slot e).2.2) :
    ∀ (fuel : Nat) (rank : Int) (cur : Option Nat) (v : List α) (err : ErrCell) (c : γ)
      (calls : List Nat),
      (ctx_array_loop cparse d mem in_max u val fuel rank cur v err c calls).map
          (Outcome.map dropCtx)
        = array_loop parse d mem in_max u val fuel rank cur v err calls
  | 0, _, _, _, _, _, _ => by simp [array_loop, ctx_array_loop]
  | fuel + 1, rank, none, v, err, c, calls => by
    rw [ctx_array_loop_null, array_loop_null]; rfl
  | fuel + 1, rank, some p, v, err, c, calls => by
    by_cases hc : rank < val ∧ p < in_max
    · by_cases hb : mem p = 0xff
      · rw [ctx_array_loop_break _ _ _ _ _ _ _ _ _ _ _ _ _ hc.1 hc.2 hb,
          array_loop_break _ _ _ _ _ _ _ _ _ _ _ _ hc.1 hc.2 hb]
        cases u <;> rfl
      · by_cases hm : rank = INT_MAX
        · subst hm
          rw [ctx_array_loop_overflow _ _ _ _ _ _ _ _ _ _ _ _ hc.1 hc.2 hb,
            array_loop_overflow _ _ _ _ _ _ _ _ _ _ _ hc.1 hc.2 hb]
          simp only [Option.map_some', Outcome.map, dropCtx, (h p _ err c).1, (h p _ err c).2.1,
            (h p _ err c).2.2]
        · rw [ctx_array_loop_item _ _ _ _ _ _ _ _ _ _ _ _ _ hc.1 hc.2 hb hm,
            array_loop_item _ _ _ _ _ _ _ _ _ _ _ _ hc.1 hc.2 hb hm,
            ctx_array_loop_agrees parse cparse d mem in_max u val h fuel,
            (h p _ err c).1, (h p _ err c).2.1, (h p _ err c).2.2]
    · rw [ctx_array_loop_done _ _ _ _ _ _ _ _ _ _ _ _ _ hc,
        array_loop_done _ _ _ _ _ _ _ _ _ _ _ _ hc]
      rfl

theorem threaded_snoc {γ : Type} : ∀ (t : List (γ × γ)) (c a b : γ),
    Threaded c t → (t.map Prod.snd).getLastD c = a → Threaded c (t ++ [(a, b)])
  | [], c, a, b, _, h => by
    simp only [List.map_nil, List.getLastD_nil] at h
    exact ⟨h.symm, trivial⟩
  | e :: rest, c, a, b, ht, h => by
    simp only [List.map_cons, List.getLastD_cons] at h
    exact ⟨ht.1, threaded_snoc rest e.2 a b ht.2 h⟩

/-- The loop of `cbor_ctx_array_parse` with a recording element parser: it is the
loop with the parser itself, and the record stays threaded from the initial
context, one entry per call, ending in the current context. -/
theorem ctx_array_loop_log {α γ : Type} (parse : CtxElemParser α γ) (d : α) (mem : Mem)
    (in_max : Nat) (u : Bool) (val : Int) (c0 : γ) :
    ∀ (fuel : Nat) (rank : Int) (cur : Option Nat) (v : List α) (err : ErrCell) (c : γ)
      (log : List (γ × γ)) (calls : List Nat),
      Threaded c0 log → (log.map Prod.snd).getLastD c0 = c → log.length = calls.length →
      (ctx_array_loop (logCtx parse) d mem in_max u val fuel rank cur v err (c, log) calls).map
          (Outcome.map dropLog)
        = ctx_array_loop parse d mem in_max u val fuel rank cur v err c calls
      ∧ ∀ o, ctx_array_loop (logCtx parse) d mem in_max u val fuel rank cur v err (c, log) calls
          = some o →
        Threaded c0 o.state.ctx.2 ∧ (o.state.ctx.2.map Prod.snd).getLastD c0 = o.state.ctx.1
          ∧ o.state.ctx.2.length = o.state.calls.length
  | 0, _, _, _, _, _, _, _, _, _, _ => by simp [ctx_array_loop]
  | fuel + 1, rank, none, v, err, c, log, calls, ht, hl, hn => by
    rw [ctx_array_loop_null, ctx_array_loop_null]
    refine ⟨rfl, fun r hr => ?_⟩
    cases hr
    exact ⟨ht, hl, hn⟩
  | fuel + 1, rank, some p, v, err, c, log, calls, ht, hl, hn => by
    by_cases hc : rank < val ∧ p < in_max
    · by_cases hb : mem p = 0xff
      · rw [ctx_array_loop_break _ _ _ _ _ _ _ _ _ _ _ _ _ hc.1 hc.2 hb,
          ctx_array_loop_break _ _ _ _ _ _ _ _ _ _ _ _ _ hc.1 hc.2 hb]
        cases u
        · refine ⟨rfl, fun r hr => ?_⟩
          cases hr
          exact ⟨ht, hl, hn⟩
        · refine ⟨rfl, fun r hr => ?_⟩
          cases hr
          exact ⟨ht, hl, hn⟩
      · by_cases hm : rank = INT_MAX
        · subst hm
          rw [ctx_array_loop_overflow _ _ _ _ _ _ _ _ _ _ _ _ hc.1 hc.2 hb,
            ctx_array_loop_overflow _ _ _ _ _ _ _ _ _ _ _ _ hc.1 hc.2 hb]
          refine ⟨rfl, fun r hr => ?_⟩
          cases hr
          exact ⟨threaded_snoc log c0 c _ ht hl, by simp [Outcome.state, logCtx],
            by simp [Outcome.state, logCtx, hn]⟩
        · rw [ctx_array_loop_item _ _ _ _ _ _ _ _ _ _ _ _ _ hc.1 hc.2 hb hm,
            ctx_array_loop_item _ _ _ _ _ _ _ _ _ _ _ _ _ hc.1 hc.2 hb hm]
          exact ctx_array_loop_log parse d mem in_max u val c0 fuel _ _ _ _ _ _ _
            (threaded_snoc log c0 c _ ht hl) (by simp [logCtx])
            (by simp [logCtx, hn])
    · rw [ctx_array_loop_done _ _ _ _ _ _ _ _ _ _ _ _ _ hc,
        ctx_array_loop_done _ _ _ _ _ _ _ _ _ _ _ _ _ hc]
      refine ⟨rfl, fun r hr => ?_⟩
      cases hr
      exact ⟨ht, hl, hn⟩

/-! ## Null return and error store go together -/

/-- The loop of `cbor_ctx_array_parse` keeps "null cursor: one store; non-null
cursor: no store" when the element parser does. -/
theorem ctx_array_loop_err {α γ : Type} (parse : CtxElemParser α γ) (d : α) (mem : Mem)
    (in_max : Nat) (u : Bool) (val : Int) (e0 : ErrCell)
    (h : CtxElemErrDiscipline parse mem in_max) :
    ∀ (fuel : Nat) (rank : Int) (cur : Option Nat) (v : List α) (err : ErrCell) (c : γ)
      (calls : List Nat) (r : CtxArrayResult α γ),
      (cur = none → err.stores = e0.stores + 1) → (cur ≠ none → err = e0) →
      ctx_array_loop parse d mem in_max u val fuel rank cur v err c calls
        = some (Outcome.returned r) →
      (r.cur = none → r.err.stores = e0.stores + 1) ∧ (r.cur ≠ none → r.err = e0)
  | 0, _, _, _, _, _, _, _, _, _, hr => by simp [ctx_array_loop] at hr
  | fuel + 1, rank, none, v, err, c, calls, r, h1, h2, hr => by
    rw [ctx_array_loop_null] at hr
    cases hr
    exact ⟨h1, h2⟩
  | fuel + 1, rank, some p, v, err, c, calls, r, h1, h2, hr => by
    have he : err = e0 := h2 (by simp)
    by_cases hc : rank < val ∧ p < in_max
    · by_cases hb : mem p = 0xff
      · rw [ctx_array_loop_break _ _ _ _ _ _ _ _ _ _ _ _ _ hc.1 hc.2 hb] at hr
        cases u
        · cases hr
          exact ⟨fun _ => by simp [ErrCell.set, he], fun hn => absurd rfl hn⟩
        · cases hr
          exact ⟨fun hn => by simp at hn, fun _ => he⟩
      · by_cases hm : rank = INT_MAX
        · subst hm
          rw [ctx_array_loop_overflow _ _ _ _ _ _ _ _ _ _ _ _ hc.1 hc.2 hb] at hr
          cases hr
        · rw [ctx_array_loop_item _ _ _ _ _ _ _ _ _ _ _ _ _ hc.1 hc.2 hb hm] at hr
          have hd := h p ((vec_resize v ((toSizeT rank + 1) % 18446744073709551616) d).getD
            (toSizeT rank) d) err c
          rw [he] at hd
          rw [he] at hr
          exact ctx_array_loop_err parse d mem in_max u val e0 h fuel _ _ _ _ _ _ r hd.1 hd.2 hr
    · rw [ctx_array_loop_done _ _ _ _ _ _ _ _ _ _ _ _ _ hc] at hr
      cases hr
      exact ⟨fun hn => by simp at hn, fun _ => he⟩

/-- The loop of `cbor_map_parse` keeps "null cursor: one store; non-null cursor:
no store" when the receiver does. -/
theorem map_loop_err {σ : Type} (gn : HeaderDecoder) (recv : MapReceiver σ) (mem : Mem)
    (in_max : Nat) (u : Bool) (e0 : ErrCell) (h : RecvErrDiscipline recv mem in_max) :
    ∀ (fuel : Nat) (val : Int) (cur : Option Nat) (s : σ) (err : ErrCell)
      (calls : List (Nat × Int)) (r : MapResult σ),
      (cur = none → err.stores = e0.stores + 1) → (cur ≠ none → err = e0) →
      map_loop gn recv mem in_max u fuel val cur s err calls = some r →
      (r.cur = none → r.err.stores = e0.stores + 1) ∧ (r.cur ≠ none → r.err = e0)
  | 0, _, _, _, _, _, _, _, _, hr => by simp [map_loop] at hr
  | fuel + 1, val, none, s, err, calls, r, h1, h2, hr => by
    rw [map_loop_null] at hr
    cases hr
    exact ⟨h1, h2⟩
  | fuel + 1, val, some p, s, err, calls, r, h1, h2, hr => by
    have he : err = e0 := h2 (by simp)
    by_cases hc : 0 < val ∧ p < in_max
    · by_cases hb : mem p = 0xff
      · rw [map_loop_break _ _ _ _ _ _ _ _ _ _ _ hc.1 hc.2 hb] at hr
        cases u
        · cases hr
          exact ⟨fun _ => by simp [ErrCell.set, he], fun hn => absurd rfl hn⟩
        · cases hr
          exact ⟨fun hn => by simp at hn, fun _ => he⟩
      · by_cases hkey : gn mem p in_max = none ∨
          (CBOR_CLASS (mem p) ≠ CBOR_T_UINT ∧ CBOR_CLASS (mem p) ≠ CBOR_T_NINT)
        · have hstep : map_loop gn recv mem in_max u (fuel + 1) val (some p) s err calls
              = map_loop gn recv mem in_max u fuel val none s
                  (err.set CBOR_MALFORMED_VALUE) calls := by
            rw [map_loop]
            simp only [hc, and_self, if_true, hb, if_false]
            cases hg : gn mem p in_max with
            | none => rfl
            | some qm =>
              rcases hkey with hk | hk
              · rw [hg] at hk; cases hk
              · simp only [hk, ne_eq, not_false_eq_true, and_self, if_true]
          rw [hstep] at hr
          exact map_loop_err gn recv mem in_max u e0 h fuel val none s _ calls r
            (fun _ => by simp [ErrCell.set, he]) (fun hn => absurd rfl hn) hr
        · have hg : ∃ q m, gn mem p in_max = some (q, m) := by
            cases hgn : gn mem p in_max with
            | none => exact absurd (Or.inl hgn) hkey
            | some qm => exact ⟨qm.1, qm.2, rfl⟩
          obtain ⟨q, m, hg⟩ := hg
          have hty : CBOR_CLASS (mem p) = CBOR_T_UINT ∨ CBOR_CLASS (mem p) = CBOR_T_NINT := by
            by_contra hn
            exact hkey (Or.inr ⟨fun h0 => hn (Or.inl h0), fun h1 => hn (Or.inr h1)⟩)
          rw [map_loop_entry gn recv mem in_max u fuel val p q m s err calls hc.1 hc.2 hty hg]
            at hr
          have hd := h q (map_index (CBOR_CLASS (mem p)) m) s err
          rw [he] at hd
          rw [he] at hr
          exact map_loop_err gn recv mem in_max u e0 h fuel _ _ _ _ _ r hd.1 hd.2 hr
    · rw [map_loop_done _ _ _ _ _ _ _ _ _ _ _ hc] at hr
      cases hr
      exact ⟨fun hn => by simp at hn, fun _ => he⟩

/-- The integer parser modelled from the spec follows the error discipline. -/
theorem int_parse_discipline (mem : Mem) (in_max : Nat) :
    ElemErrDiscipline cbor_object_parse_int mem in_max := by
  intro p slot e
  unfold cbor_object_parse_int cbor_parse_int
  cases cbor_get_number mem p in_max with
  | none => exact ⟨fun _ => rfl, fun hn => absurd rfl hn⟩
  | some qv =>
    obtain ⟨q, val⟩ := qv
    simp only
    split_ifs <;> first
      | exact ⟨fun _ => rfl, fun hn => absurd rfl hn⟩
      | exact ⟨fun hn => by simp at hn, fun _ => rfl⟩

/-- The recording receiver follows the error discipline. -/
theorem recordInts_discipline (mem : Mem) (in_max : Nat) :
    RecvErrDiscipline recordInts mem in_max := by
  intro p index s e
  have h := int_parse_discipline mem in_max p 0 e
  unfold recordInts
  rcases hr : cbor_object_parse_int mem p in_max 0 e with ⟨c, x, e1⟩
  rw [hr] at h
  cases c with
  | none => exact ⟨fun _ => h.1 rfl, fun hn => absurd rfl hn⟩
  | some q => exact ⟨fun hn => by simp at hn, fun _ => h.2 (by simp)⟩

/-- Ignoring a context keeps the error discipline. -/
theorem ignoreCtx_discipline {α γ : Type} (parse : ElemParser α) (mem : Mem) (in_max : Nat)
    (h : ElemErrDiscipline parse mem in_max) :
    CtxElemErrDiscipline (ignoreCtx parse : CtxElemParser α γ) mem in_max :=
  fun p slot e _ => h p slot e

/-! ## The cursor stays in the buffer and moves forward -/

/-- One step of the loop of `cbor_map_parse` on a key that is not an integer or
cannot be decoded: the cursor becomes null with one store. -/
theorem map_loop_bad_key_step {σ : Type} (gn : HeaderDecoder) (recv : MapReceiver σ)
    (mem : Mem) (in_max : Nat) (u : Bool) (fuel : Nat) (val : Int) (p : Nat) (s : σ)
    (err : ErrCell) (calls : List (Nat × Int)) (hv : 0 < val) (hp : p < in_max)
    (hb : mem p ≠ 0xff)
    (hkey : gn mem p in_max = none ∨
      (CBOR_CLASS (mem p) ≠ CBOR_T_UINT ∧ CBOR_CLASS (mem p) ≠ CBOR_T_NINT)) :
    map_loop gn recv mem in_max u (fuel + 1) val (some p) s err calls
      = map_loop gn recv mem in_max u fuel val none s (err.set CBOR_MALFORMED_VALUE) calls := by
  rw [map_loop]
  simp only [hv, hp, and_self, if_true, hb, if_false]
  cases hg : gn mem p in_max with
  | none => rfl
  | some qm =>
    rcases hkey with hk | hk
    · rw [hg] at hk; cases hk
    · simp only [hk, ne_eq, not_false_eq_true, and_self, if_true]

/-- A key that is neither undecodable nor of a wrong major type is an integer key
with a decoded header. -/
theorem good_key {gn : HeaderDecoder} {mem : Mem} {p in_max : Nat}
    (hkey : ¬ (gn mem p in_max = none ∨
      (CBOR_CLASS (mem p) ≠ CBOR_T_UINT ∧ CBOR_CLASS (mem p) ≠ CBOR_T_NINT))) :
    (CBOR_CLASS (mem p) = CBOR_T_UINT ∨ CBOR_CLASS (mem p) = CBOR_T_NINT)
      ∧ ∃ q m, gn mem p in_max = some (q, m) := by
  constructor
  · by_contra hn
    exact hkey (Or.inr ⟨fun h0 => hn (Or.inl h0), fun h1 => hn (Or.inr h1)⟩)
  · cases hgn : gn mem p in_max with
    | none => exact absurd (Or.inl hgn) hkey
    | some qm => exact ⟨qm.1, qm.2, rfl⟩

theorem pairwise_snoc_le (calls : List Nat) (p : Nat) (hs : calls.Pairwise (· ≤ ·))
    (hle : ∀ x ∈ calls, x ≤ p) : (calls ++ [p]).Pairwise (· ≤ ·) := by
  rw [List.pairwise_append]
  refine ⟨hs, List.pairwise_singleton _ _, fun a ha b hb => ?_⟩
  rw [List.mem_singleton] at hb
  rw [hb]; exact hle a ha

/-- The loop of `cbor_ctx_array_parse` keeps the cursor between its start and
`in_max`, and hands non-decreasing cursors to the element parser, when the
element parser keeps its cursor between its start and `in_max`. -/
theorem ctx_array_loop_bounds {α γ : Type} (parse : CtxElemParser α γ) (d : α) (mem : Mem)
    (in_max : Nat) (u : Bool) (val : Int) (lo : Nat)
    (h : ∀ (p : Nat) (slot : α) (e : ErrCell) (c : γ) (q : Nat), p ≤ in_max →
      (parse mem p in_max slot e c).1 = some q → p ≤ q ∧ q ≤ in_max) :
    ∀ (fuel : Nat) (rank : Int) (cur : Option Nat) (v : List α) (err : ErrCell) (c : γ)
      (calls : List Nat) (o : Outcome (CtxArrayResult α γ)),
      calls.Pairwise (· ≤ ·) →
      (∀ p, cur = some p → lo ≤ p ∧ p ≤ in_max ∧ ∀ x ∈ calls, x ≤ p) →
      ctx_array_loop parse d mem in_max u val fuel rank cur v err c calls = some o →
      (∀ r, o = Outcome.returned r → ∀ q, r.cur = some q → lo ≤ q ∧ q ≤ in_max)
        ∧ o.state.calls.Pairwise (· ≤ ·)
  | 0, _, _, _, _, _, _, _, _, _, hr => by simp [ctx_array_loop] at hr
  | fuel + 1, rank, none, v, err, c, calls, o, hs, _, hr => by
    rw [ctx_array_loop_null] at hr
    cases hr
    exact ⟨fun r hr q hq => by cases hr; simp at hq, hs⟩
  | fuel + 1, rank, some p, v, err, c, calls, o, hs, hp, hr => by
    obtain ⟨hlo, hhi, hcalls⟩ := hp p rfl
    by_cases hc : rank < val ∧ p < in_max
    · by_cases hb : mem p = 0xff
      · rw [ctx_array_loop_break _ _ _ _ _ _ _ _ _ _ _ _ _ hc.1 hc.2 hb] at hr
        cases u
        · cases hr
          exact ⟨fun r hr q hq => by cases hr; simp at hq, hs⟩
        · cases hr
          refine ⟨fun r hr q hq => ?_, hs⟩
          cases hr
          simp only [Option.some.injEq] at hq
          omega
      · by_cases hm : rank = INT_MAX
        · subst hm
          rw [ctx_array_loop_overflow _ _ _ _ _ _ _ _ _ _ _ _ hc.1 hc.2 hb] at hr
          cases hr
          exact ⟨fun r hr => (by cases hr), pairwise_snoc_le calls p hs hcalls⟩
        · rw [ctx_array_loop_item _ _ _ _ _ _ _ _ _ _ _ _ _ hc.1 hc.2 hb hm] at hr
          refine ctx_array_loop_bounds parse d mem in_max u val lo h fuel _ _ _ _ _ _ o
            (pairwise_snoc_le calls p hs hcalls) (fun q hq => ?_) hr
          have hq2 := h p _ err c q hhi hq
          refine ⟨by omega, hq2.2, fun x hx => ?_⟩
          rw [List.mem_append, List.mem_singleton] at hx
          rcases hx with hx | hx
          · have := hcalls x hx; omega
          · omega
    · rw [ctx_array_loop_done _ _ _ _ _ _ _ _ _ _ _ _ _ hc] at hr
      cases hr
      refine ⟨fun r hr q hq => ?_, hs⟩
      cases hr
      simp only [Option.some.injEq] at hq
      omega

/-- The loop of `cbor_map_parse` keeps the cursor between its start and `in_max`,
and hands non-decreasing cursors to the receiver, when the header decoder
advances inside the buffer and the receiver keeps its cursor between its start
and `in_max`. -/
theorem map_loop_bounds {σ : Type} (gn : HeaderDecoder) (recv : MapReceiver σ) (mem : Mem)
    (in_max : Nat) (u : Bool) (lo : Nat)
    (hgn : ∀ (p q : Nat) (m : Int), p ≤ in_max → gn mem p in_max = some (q, m) →
      p < q ∧ q ≤ in_max)
    (h : ∀ (p : Nat) (index : Int) (s : σ) (e : ErrCell) (q : Nat), p ≤ in_max →
      (recv mem p in_max index s e).1 = some q → p ≤ q ∧ q ≤ in_max) :
    ∀ (fuel : Nat) (val : Int) (cur : Option Nat) (s : σ) (err : ErrCell)
      (calls : List (Nat × Int)) (r : MapResult σ),
      (calls.map Prod.fst).Pairwise (· ≤ ·) →
      (∀ p, cur = some p → lo ≤ p ∧ p ≤ in_max ∧ ∀ x ∈ calls.map Prod.fst, x ≤ p) →
      map_loop gn recv mem in_max u fuel val cur s err calls = some r →
      (∀ q, r.cur = some q → lo ≤ q ∧ q ≤ in_max) ∧ (r.calls.map Prod.fst).Pairwise (· ≤ ·)
  | 0, _, _, _, _, _, _, _, _, hr => by simp [map_loop] at hr
  | fuel + 1, val, none, s, err, calls, r, hs, _, hr => by
    rw [map_loop_null] at hr
    cases hr
    exact ⟨fun q hq => by simp at hq, hs⟩
  | fuel + 1, val, some p, s, err, calls, r, hs, hp, hr => by
    obtain ⟨hlo, hhi, hcalls⟩ := hp p rfl
    by_cases hc : 0 < val ∧ p < in_max
    · by_cases hb : mem p = 0xff
      · rw [map_loop_break _ _ _ _ _ _ _ _ _ _ _ hc.1 hc.2 hb] at hr
        cases u
        · cases hr
          exact ⟨fun q hq => by simp at hq, hs⟩
        · cases hr
          refine ⟨fun q hq => ?_, hs⟩
          simp only [Option.some.injEq] at hq
          omega
      · by_cases hkey : gn mem p in_max = none ∨
          (CBOR_CLASS (mem p) ≠ CBOR_T_UINT ∧ CBOR_CLASS (mem p) ≠ CBOR_T_NINT)
        · rw [map_loop_bad_key_step gn recv mem in_max u fuel val p s err calls hc.1 hc.2 hb
            hkey] at hr
          exact map_loop_bounds gn recv mem in_max u lo hgn h fuel val none s _ calls r hs
            (fun q hq => by simp at hq) hr
        · obtain ⟨hty, q, m, hg⟩ := good_key hkey
          rw [map_loop_entry gn recv mem in_max u fuel val p q m s err calls hc.1 hc.2 hty hg]
            at hr
          have hq := hgn p q m hhi hg
          refine map_loop_bounds gn recv mem in_max u lo hgn h fuel _ _ _ _ _ r ?_
            (fun q2 hq2 => ?_) hr
          · rw [List.map_append]
            exact pairwise_snoc_le _ q hs (fun x hx => by have := hcalls x hx; omega)
          · have hq3 := h q _ s err q2 hq.2 hq2
            refine ⟨by omega, hq3.2, fun x hx => ?_⟩
            rw [List.map_append, List.mem_append] at hx
            rcases hx with hx | hx
            · have := hcalls x hx; omega
            · simp only [List.map_cons, List.map_nil, List.mem_singleton] at hx
              omega
    · rw [map_loop_done _ _ _ _ _ _ _ _ _ _ _ hc] at hr
      cases hr
      refine ⟨fun q hq => ?_, hs⟩
      simp only [Option.some.injEq] at hq
      omega

/-- The header decoder modelled from the spec advances, inside the buffer. -/
theorem get_number_advances (mem : Mem) (p in_max q : Nat) (m : Int)
    (h : cbor_get_number mem p in_max = some (q, m)) : p < q ∧ q ≤ in_max := by
  unfold cbor_get_number at h
  by_cases h0 : p < in_max
  · rw [if_pos h0] at h
    simp only at h
    split at h
    · cases h; omega
    · split at h
      · split at h
        · cases h; omega
        · cases h
      · split at h
        · split at h
          · cases h; omega
          · cases h
        · split at h
          · split at h
            · cases h; omega
            · cases h
          · split at h
            · split at h
              · cases h; omega
              · cases h
            · split at h
              · split at h
                · cases h; omega
                · cases h
              · cases h
  · rw [if_neg h0] at h
    cases h

/-- The integer parser modelled from the spec advances, inside the buffer. -/
theorem int_parse_advances (mem : Mem) (p in_max : Nat) (slot : Int) (e : ErrCell) (q : Nat)
    (h : (cbor_object_parse_int mem p in_max slot e).1 = some q) : p < q ∧ q ≤ in_max := by
  unfold cbor_object_parse_int cbor_parse_int at h
  cases hg : cbor_get_number mem p in_max with
  | none => rw [hg] at h; simp at h
  | some qv =>
    obtain ⟨q1, val⟩ := qv
    rw [hg] at h
    have hadv := get_number_advances mem p in_max q1 val hg
    simp only at h
    split_ifs at h <;> simp only [Option.some.injEq, reduceCtorEq] at h <;> omega

/-- The recording receiver advances, inside the buffer. -/
theorem recordInts_advances (mem : Mem) (p in_max : Nat) (index : Int) (s : List (Int × Int))
    (e : ErrCell) (q : Nat) (h : (recordInts mem p in_max index s e).1 = some q) :
    p < q ∧ q ≤ in_max := by
  have hi := int_parse_advances mem p in_max 0 e q
  unfold recordInts at h
  rcases hr : cbor_object_parse_int mem p in_max 0 e with ⟨c, x, e1⟩
  rw [hr] at h hi
  cases c with
  | none => simp at h
  | some q1 => exact hi h

/-! ## Work is bounded by the buffer size -/

/-- Forgetting the reads, the traced loop of `cbor_array_parse` is the loop; all
its own reads are below `in_max`. -/
theorem array_loop_traced_spec {α : Type} (parse : ElemParser α) (d : α) (mem : Mem)
    (in_max : Nat) (u : Bool) (val : Int) :
    ∀ (fuel : Nat) (rank : Int) (cur : Option Nat) (v : List α) (err : ErrCell)
      (calls reads : List Nat),
      (array_loop_traced parse d mem in_max u val fuel rank cur v err calls reads).map Prod.fst
          = array_loop parse d mem in_max u val fuel rank cur v err calls
        ∧ ∀ r, array_loop_traced parse d mem in_max u val fuel rank cur v err calls reads
            = some r → ∃ t, r.2 = reads ++ t ∧ ∀ x ∈ t, x < in_max
  | 0, _, _, _, _, _, _ => by simp [array_loop, array_loop_traced]
  | fuel + 1, rank, none, v, err, calls, reads => by
    rw [array_loop_traced, array_loop]
    exact ⟨rfl, fun r hr => by cases hr; exact ⟨[], by simp⟩⟩
  | fuel + 1, rank, some p, v, err, calls, reads => by
    rw [array_loop_traced, array_loop]
    by_cases hc : rank < val ∧ p < in_max
    · simp only [hc, and_self, if_true]
      by_cases hb : mem p = 0xff
      · simp only [hb, if_true]
        cases u
        · exact ⟨rfl, fun r hr => by
            cases hr; exact ⟨[p], rfl, fun x hx => by simp at hx; omega⟩⟩
        · exact ⟨rfl, fun r hr => by
            cases hr; exact ⟨[p], rfl, fun x hx => by simp at hx; omega⟩⟩
      · simp only [hb, if_false]
        by_cases hm : rank = INT_MAX
        · simp only [hm, if_true]
          exact ⟨rfl, fun r hr => by
            cases hr; exact ⟨[p], rfl, fun x hx => by simp at hx; omega⟩⟩
        · simp only [hm, if_false]
          have ih := array_loop_traced_spec parse d mem in_max u val fuel (rank + 1)
            (parse mem p in_max
              ((vec_resize v ((toSizeT rank + 1) % 18446744073709551616) d).getD (toSizeT rank)
                d) err).1
            ((vec_resize v ((toSizeT rank + 1) % 18446744073709551616) d).set (toSizeT rank)
              (parse mem p in_max
                ((vec_resize v ((toSizeT rank + 1) % 18446744073709551616) d).getD
                  (toSizeT rank) d) err).2.1)
            (parse mem p in_max
              ((vec_resize v ((toSizeT rank + 1) % 18446744073709551616) d).getD (toSizeT rank)
                d) err).2.2 (calls ++ [p]) (reads ++ [p])
          refine ⟨ih.1, fun r hr => ?_⟩
          obtain ⟨t, ht, hlt⟩ := ih.2 r hr
          refine ⟨p :: t, by rw [ht]; simp, fun x hx => ?_⟩
          rcases List.mem_cons.mp hx with hx | hx
          · omega
          · exact hlt x hx
    · simp only [hc, if_false]
      exact ⟨rfl, fun r hr => by cases hr; exact ⟨[], by simp⟩⟩

/-- Forgetting the reads, the traced loop of `cbor_ctx_array_parse` is the loop;
all its own reads are below `in_max`. -/
theorem ctx_array_loop_traced_spec {α γ : Type} (parse : CtxElemParser α γ) (d : α)
    (mem : Mem) (in_max : Nat) (u : Bool) (val : Int) :
    ∀ (fuel : Nat) (rank : Int) (cur : Option Nat) (v : List α) (err : ErrCell) (c : γ)
      (calls reads : List Nat),
      (ctx_array_loop_traced parse d mem in_max u val fuel rank cur v err c calls reads).map
            Prod.fst
          = ctx_array_loop parse d mem in_max u val fuel rank cur v err c calls
        ∧ ∀ r, ctx_array_loop_traced parse d mem in_max u val fuel rank cur v err c calls reads
            = some r → ∃ t, r.2 = reads ++ t ∧ ∀ x ∈ t, x < in_max
  | 0, _, _, _, _, _, _, _ => by simp [ctx_array_loop, ctx_array_loop_traced]
  | fuel + 1, rank, none, v, err, c, calls, reads => by
    rw [ctx_array_loop_traced, ctx_array_loop]
    exact ⟨rfl, fun r hr => by cases hr; exact ⟨[], by simp⟩⟩
  | fuel + 1, rank, some p, v, err, c, calls, reads => by
    rw [ctx_array_loop_traced, ctx_array_loop]
    by_cases hc : rank < val ∧ p < in_max
    · simp only [hc, and_self, if_true]
      by_cases hb : mem p = 0xff
      · simp only [hb, if_true]
        cases u
        · exact ⟨rfl, fun r hr => by
            cases hr; exact ⟨[p], rfl, fun x hx => by simp at hx; omega⟩⟩
        · exact ⟨rfl, fun r hr => by
            cases hr; exact ⟨[p], rfl, fun x hx => by simp at hx; omega⟩⟩
      · simp only [hb, if_false]
        by_cases hm : rank = INT_MAX
        · simp only [hm, if_true]
          exact ⟨rfl, fun r hr => by
            cases hr; exact ⟨[p], rfl, fun x hx => by simp at hx; omega⟩⟩
        · simp only [hm, if_false]
          have ih := ctx_array_loop_traced_spec parse d mem in_max u val fuel (rank + 1)
            (parse mem p in_max
              ((vec_resize v ((toSizeT rank + 1) % 18446744073709551616) d).getD (toSizeT rank)
                d) err c).1
            ((vec_resize v ((toSizeT rank + 1) % 18446744073709551616) d).set (toSizeT rank)
              (parse mem p in_max
                ((vec_resize v ((toSizeT rank + 1) % 18446744073709551616) d).getD
                  (toSizeT rank) d) err c).2.1)
            (parse mem p in_max
              ((vec_resize v ((toSizeT rank + 1) % 18446744073709551616) d).getD (toSizeT rank)
                d) err c).2.2.1
            (parse mem p in_max
              ((vec_resize v ((toSizeT rank + 1) % 18446744073709551616) d).getD (toSizeT rank)
                d) err c).2.2.2 (calls ++ [p]) (reads ++ [p])
          refine ⟨ih.1, fun r hr => ?_⟩
          obtain ⟨t, ht, hlt⟩ := ih.2 r hr
          refine ⟨p :: t, by rw [ht]; simp, fun x hx => ?_⟩
          rcases List.mem_cons.mp hx with hx | hx
          · omega
          · exact hlt x hx
    · simp only [hc, if_false]
      exact ⟨rfl, fun r hr => by cases hr; exact ⟨[], by simp⟩⟩

/-- Forgetting the reads, the traced loop of `cbor_map_parse` is the loop; all
its own reads are below `in_max`. -/
theorem map_loop_traced_spec {σ : Type} (gn : HeaderDecoder) (recv : MapReceiver σ)
    (mem : Mem) (in_max : Nat) (u : Bool) :
    ∀ (fuel : Nat) (val : Int) (cur : Option Nat) (s : σ) (err : ErrCell)
      (calls : List (Nat × Int)) (reads : List Nat),
      (map_loop_traced gn recv mem in_max u fuel val cur s err calls reads).map Prod.fst
          = map_loop gn recv mem in_max u fuel val cur s err calls
        ∧ ∀ r, map_loop_traced gn recv mem in_max u fuel val cur s err calls reads = some r →
            ∃ t, r.2 = reads ++ t ∧ ∀ x ∈ t, x < in_max
  | 0, _, _, _, _, _, _ => by simp [map_loop, map_loop_traced]
  | fuel + 1, val, none, s, err, calls, reads => by
    rw [map_loop_traced, map_loop]
    exact ⟨rfl, fun r hr => by cases hr; exact ⟨[], by simp⟩⟩
  | fuel + 1, val, some p, s, err, calls, reads => by
    have hnull : ∀ (e : ErrCell) (rd : List Nat),
        (map_loop_traced gn recv mem in_max u fuel val none s e calls (rd ++ [p, p])).map
              Prod.fst
            = map_loop gn recv mem in_max u fuel val none s e calls
          ∧ ∀ r, map_loop_traced gn recv mem in_max u fuel val none s e calls (rd ++ [p, p])
              = some r → p < in_max → ∃ t, r.2 = rd ++ t ∧ ∀ x ∈ t, x < in_max := by
      intro e rd
      have ih := map_loop_traced_spec gn recv mem in_max u fuel val none s e calls
        (rd ++ [p, p])
      refine ⟨ih.1, fun r hr hp => ?_⟩
      obtain ⟨t, ht, hlt⟩ := ih.2 r hr
      refine ⟨p :: p :: t, by rw [ht]; simp, fun x hx => ?_⟩
      simp only [List.mem_cons] at hx
      rcases hx with hx | hx | hx
      · omega
      · omega
      · exact hlt x hx
    rw [map_loop_traced, map_loop]
    by_cases hc : 0 < val ∧ p < in_max
    · simp only [hc, and_self, if_true]
      by_cases hb : mem p = 0xff
      · simp only [hb, if_true]
        cases u
        · exact ⟨rfl, fun r hr => by
            cases hr; exact ⟨[p], rfl, fun x hx => by simp at hx; omega⟩⟩
        · exact ⟨rfl, fun r hr => by
            cases hr; exact ⟨[p], rfl, fun x hx => by simp at hx; omega⟩⟩
      · simp only [hb, if_false]
        cases hg : gn mem p in_max with
        | none =>
          exact ⟨(hnull _ reads).1, fun r hr => (hnull _ reads).2 r hr hc.2⟩
        | some qm =>
          obtain ⟨q, m⟩ := qm
          simp only
          by_cases hk : CBOR_CLASS (mem p) ≠ CBOR_T_UINT ∧ CBOR_CLASS (mem p) ≠ CBOR_T_NINT
          · simp only [hk, ne_eq, not_false_eq_true, and_self, if_true]
            exact ⟨(hnull _ reads).1, fun r hr => (hnull _ reads).2 r hr hc.2⟩
          · simp only [hk, if_false]
            have ih := map_loop_traced_spec gn recv mem in_max u fuel (val - 1)
              (recv mem q in_max (map_index (CBOR_CLASS (mem p)) m) s err).1
              (recv mem q in_max (map_index (CBOR_CLASS (mem p)) m) s err).2.1
              (recv mem q in_max (map_index (CBOR_CLASS (mem p)) m) s err).2.2
              (calls ++ [(q, map_index (CBOR_CLASS (mem p)) m)]) (reads ++ [p, p])
            refine ⟨ih.1, fun r hr => ?_⟩
            obtain ⟨t, ht, hlt⟩ := ih.2 r hr
            refine ⟨p :: p :: t, by rw [ht]; simp, fun x hx => ?_⟩
            simp only [List.mem_cons] at hx
            rcases hx with hx | hx | hx
            · omega
            · omega
            · exact hlt x hx
    · simp only [hc, if_false]
      exact ⟨rfl, fun r hr => by cases hr; exact ⟨[], by simp⟩⟩

/-- The traced `cbor_array_parse` is `cbor_array_parse`; its first read is at
`in`, before any test against `in_max`, and all later reads are below
`in_max`. -/
theorem cbor_array_parse_traced_spec {α : Type} (gn : HeaderDecoder) (parse : ElemParser α)
    (d : α) (mem : Mem) (in_ in_max : Nat) (v : List α) (err : ErrCell) (fuel : Nat) :
    (cbor_array_parse_traced gn parse d mem in_ in_max v err fuel).map Prod.fst
        = cbor_array_parse gn parse d mem in_ in_max v err fuel
      ∧ ∀ r, cbor_array_parse_traced gn parse d mem in_ in_max v err fuel = some r →
          ∃ t, r.2 = in_ :: t ∧ ∀ x ∈ t, x < in_max := by
  unfold cbor_array_parse_traced cbor_array_parse
  cases hg : gn mem in_ in_max with
  | none => exact ⟨rfl, fun r hr => by cases hr; exact ⟨[], rfl, by simp⟩⟩
  | some pv =>
    obtain ⟨p, val⟩ := pv
    by_cases ht : CBOR_CLASS (mem in_) ≠ CBOR_T_ARRAY
    · simp only [ht, ne_eq, not_false_eq_true, if_true]
      exact ⟨rfl, fun r hr => by cases hr; exact ⟨[], rfl, by simp⟩⟩
    · simp only [ht, if_false]
      have h := array_loop_traced_spec parse d mem in_max (decide (val = CBOR_END_OF_ARRAY))
        (if decide (val = CBOR_END_OF_ARRAY) = true then 0xffffffff else val) fuel 0 (some p)
        v err [] [in_]
      exact ⟨h.1, fun r hr => by
        obtain ⟨t, ht2, hlt⟩ := h.2 r hr
        exact ⟨t, by rw [ht2]; rfl, hlt⟩⟩

/-- The traced `cbor_ctx_array_parse` is `cbor_ctx_array_parse`; its first read
is at `in`, before any test against `in_max`, and all later reads are below
`in_max`. -/
theorem cbor_ctx_array_parse_traced_spec {α γ : Type} (gn : HeaderDecoder)
    (parse : CtxElemParser α γ) (d : α) (mem : Mem) (in_ in_max : Nat) (v : List α)
    (err : ErrCell) (ctx : γ) (fuel : Nat) :
    (cbor_ctx_array_parse_traced gn parse d mem in_ in_max v err ctx fuel).map Prod.fst
        = cbor_ctx_array_parse gn parse d mem in_ in_max v err ctx fuel
      ∧ ∀ r, cbor_ctx_array_parse_traced gn parse d mem in_ in_max v err ctx fuel = some r →
          ∃ t, r.2 = in_ :: t ∧ ∀ x ∈ t, x < in_max := by
  unfold cbor_ctx_array_parse_traced cbor_ctx_array_parse
  cases hg : gn mem in_ in_max with
  | none => exact ⟨rfl, fun r hr => by cases hr; exact ⟨[], rfl, by simp⟩⟩
  | some pv =>
    obtain ⟨p, val⟩ := pv
    by_cases ht : CBOR_CLASS (mem in_) ≠ CBOR_T_ARRAY
    · simp only [ht, ne_eq, not_false_eq_true, if_true]
      exact ⟨rfl, fun r hr => by cases hr; exact ⟨[], rfl, by simp⟩⟩
    · simp only [ht, if_false]
      have h := ctx_array_loop_traced_spec parse d mem in_max
        (decide (val = CBOR_END_OF_ARRAY))
        (if decide (val = CBOR_END_OF_ARRAY) = true then 0xffffffff else val) fuel 0 (some p)
        v err ctx [] [in_]
      exact ⟨h.1, fun r hr => by
        obtain ⟨t, ht2, hlt⟩ := h.2 r hr
        exact ⟨t, by rw [ht2]; rfl, hlt⟩⟩

/-- The traced `cbor_map_parse` is `cbor_map_parse`; its first read is at `in`,
before any test against `in_max`, and all later reads are below `in_max`. -/
theorem cbor_map_parse_traced_spec {σ : Type} (gn : HeaderDecoder) (recv : MapReceiver σ)
    (mem : Mem) (in_ in_max : Nat) (s : σ) (err : ErrCell) (fuel : Nat) :
    (cbor_map_parse_traced gn recv mem in_ in_max s err fuel).map Prod.fst
        = cbor_map_parse gn recv mem in_ in_max s err fuel
      ∧ ∀ r, cbor_map_parse_traced gn recv mem in_ in_max s err fuel = some r →
          ∃ t, r.2 = in_ :: t ∧ ∀ x ∈ t, x < in_max := by
  unfold cbor_map_parse_traced cbor_map_parse
  cases hg : gn mem in_ in_max with
  | none => exact ⟨rfl, fun r hr => by cases hr; exact ⟨[], rfl, by simp⟩⟩
  | some pv =>
    obtain ⟨p, val⟩ := pv
    by_cases ht : CBOR_CLASS (mem in_) ≠ CBOR_T_MAP
    · simp only [ht, ne_eq, not_false_eq_true, if_true]
      exact ⟨rfl, fun r hr => by cases hr; exact ⟨[], rfl, by simp⟩⟩
    · simp only [ht, if_false]
      have h := map_loop_traced_spec gn recv mem in_max (decide (val = CBOR_END_OF_ARRAY))
        fuel (if decide (val = CBOR_END_OF_ARRAY) = true then 0xffffffff else val) (some p)
        s err [] [in_]
      exact ⟨h.1, fun r hr => by
        obtain ⟨t, ht2, hlt⟩ := h.2 r hr
        exact ⟨t, by rw [ht2]; rfl, hlt⟩⟩

/-- C1: on an `ARRAY` header of definite magnitude `N < 2^31` (the value the
header decoder delivers) followed by `N` items that the element parser accepts
(none starting with `0xFF`), whatever follows them, `cbor_array_parse` with an empty output vector returns the cursor
right after the `N`-th item, leaves the error cell alone, and leaves exactly the
`N` parsed values, in input order; the element parser was called once per item,
each call starting where the previous item ended. -/
theorem array_parse_definite {α : Type} (gn : HeaderDecoder) (parse : ElemParser α) (d : α)
    (mem : Mem) (in_ in_max p0 : Nat) (err : ErrCell) (items : List (Nat × α)) (fuel : Nat)
    (hty : CBOR_CLASS (mem in_) = CBOR_T_ARRAY)
    (hhdr : gn mem in_ in_max = some (p0, (items.length : Int)))
    (hN : items.length < 2147483648)
    (hacc : ElemsAccepted parse d mem in_max err d p0 items)
    (hfuel : items.length < fuel) :
    cbor_array_parse gn parse d mem in_ in_max [] err fuel
      = some (Outcome.returned ⟨some (chainEnd p0 (items.map fun it => it.1)),
          items.map fun it => it.2, err, chainStarts p0 (items.map fun it => it.1)⟩) := by
  obtain ⟨f, rfl⟩ : ∃ f, fuel = (f + 1) + items.length := ⟨fuel - items.length - 1, by omega⟩
  have hdef : ((items.length : Int) = CBOR_END_OF_ARRAY) = False := by
    simp only [CBOR_END_OF_ARRAY, eq_iff_iff, iff_false]; omega
  unfold cbor_array_parse
  simp only [hhdr, hty, ne_eq, not_true_eq_false, if_false, hdef, decide_False,
    Bool.false_eq_true]
  rw [array_loop_accepted parse d mem in_max false _ err items (f + 1) p0 [] []
    (by unfold INT_MAX; omega) (fun j hj => by exact_mod_cast hj) hacc,
    array_loop_done _ _ _ _ _ _ _ _ _ _ _ _ (by omega)]
  have hv : vecAfter d 0 [] (items.map fun it => it.2) = items.map fun it => it.2 := by
    cases items with
    | nil => rfl
    | cons it rest => exact vecAfter_zero d [] _ (by simp) (by simp at hN ⊢; omega)
  rw [hv]
  simp

/-- Witness for C1: the bytes `82 01 02` with the integer element parser give
`[1, 2]` and the cursor advances by 3. -/
theorem array_parse_definite_witness :
    cbor_array_parse cbor_get_number cbor_object_parse_int 0 (bytes [0x82, 1, 2]) 0 3 [] err0 3
      = some (Outcome.returned ⟨some 3, [1, 2], err0, [1, 2]⟩) :=
  array_parse_definite cbor_get_number cbor_object_parse_int 0 (bytes [0x82, 1, 2]) 0 3 1 err0
    [(2, 1), (3, 2)] 3 (by decide) (by decide) (by decide) (by decide) (by decide)

/-- C2, evaluation at the failing input: the indefinite-length array
`9f 01 ... 01 ff` with `2^31 + 1` one-byte integers satisfies the hypotheses of
the claim, and `cbor_array_parse` does not return the cursor after the `0xFF`
with `2^31 + 1` elements: after `2^31` element parses, the last one at address
`2^31`, it reaches `rank++` with `rank == INT_MAX`, the overflow of the `int`
counter. The last integer and the break byte are never looked at. -/
theorem indefinite_array_rank_overflow :
    CBOR_CLASS (longIndefArray 0) = CBOR_T_ARRAY
      ∧ cbor_get_number longIndefArray 0 2147483651 = some (1, CBOR_END_OF_ARRAY)
      ∧ ElemsAccepted cbor_object_parse_int 0 longIndefArray 2147483651 err0 0 1
          (onesItems 1 2147483649)
      ∧ (onesItems 1 2147483649).length = 2147483649
      ∧ longIndefArray 2147483650 = 0xff
      ∧ ∃ r, cbor_array_parse cbor_get_number cbor_object_parse_int 0 longIndefArray 0
            2147483651 [] err0 2147483650 = some (Outcome.rank_overflow r)
          ∧ r.cur = some 2147483649 ∧ r.v.length = 2147483648 ∧ r.err = err0
          ∧ r.calls.length = 2147483648 ∧ r.calls.getLast? = some 2147483648 := by
  have hm : ∀ i, 1 ≤ i → i < 1 + 2147483649 → longIndefArray i = 1 := by
    intro i h1 h2
    unfold longIndefArray
    rw [if_neg (by omega), if_pos (by omega)]
  have hacc := onesItems_accepted longIndefArray 2147483651 err0 2147483649 1 0 hm (by omega)
  have hacc1 := onesItems_accepted longIndefArray 2147483651 err0 2147483647 1 0
    (fun i h1 h2 => hm i h1 (by omega)) (by omega)
  have hend := onesItems_end 2147483647 1
  have hlen := onesItems_length 2147483647 1
  have hlast : longIndefArray (1 + 2147483647) = 1 := hm _ (by omega) (by omega)
  have raw := array_overflow_raw cbor_get_number cbor_object_parse_int 0 longIndefArray 0
    2147483651 1 [] err0 (onesItems 1 2147483647) CBOR_END_OF_ARRAY 2147483650 (by decide)
    (by decide) hlen (by decide) hacc1 (by rw [hend]; omega) (by rw [hend, hlast]; decide)
    (by rw [hlen]; omega)
  rw [hend, int_parse_one longIndefArray (1 + 2147483647) 2147483651 0 err0 (by omega) hlast]
    at raw
  refine ⟨by decide, by decide, hacc, onesItems_length 2147483649 1, by decide, _, raw, rfl, ?_,
    rfl, ?_, ?_⟩
  · dsimp only
    rw [List.length_append, List.length_map, hlen]
    rfl
  · dsimp only
    rw [List.length_append, chainStarts_length, List.length_map, hlen]
    rfl
  · dsimp only
    rw [List.getLast?_append, List.getLast?_singleton]
    rfl

/-- Support for C2, below the overflow of the counter: on an `ARRAY` header that
the header decoder reports as indefinite, followed by `n < 2^31` accepted items
(none starting with `0xFF`), one byte `0xFF` and arbitrary trailing bytes,
`cbor_array_parse` with an empty output vector returns the cursor right after
that first `0xFF`, so it consumes exactly one break byte and none of the
trailing bytes, leaves the error cell alone and leaves exactly the `n` parsed
values in input order. -/
theorem array_parse_indefinite {α : Type} (gn : HeaderDecoder) (parse : ElemParser α) (d : α)
    (mem : Mem) (in_ in_max p0 : Nat) (err : ErrCell) (items : List (Nat × α)) (fuel : Nat)
    (hty : CBOR_CLASS (mem in_) = CBOR_T_ARRAY)
    (hhdr : gn mem in_ in_max = some (p0, CBOR_END_OF_ARRAY))
    (hn : items.length < 2147483648)
    (hacc : ElemsAccepted parse d mem in_max err d p0 items)
    (hq : chainEnd p0 (items.map fun it => it.1) < in_max)
    (hbrk : mem (chainEnd p0 (items.map fun it => it.1)) = 0xff)
    (hfuel : items.length < fuel) :
    cbor_array_parse gn parse d mem in_ in_max [] err fuel
      = some (Outcome.returned ⟨some (chainEnd p0 (items.map fun it => it.1) + 1),
          items.map fun it => it.2, err, chainStarts p0 (items.map fun it => it.1)⟩) := by
  obtain ⟨f, rfl⟩ : ∃ f, fuel = (f + 1) + items.length := ⟨fuel - items.length - 1, by omega⟩
  unfold cbor_array_parse
  simp only [hhdr, hty, ne_eq, not_true_eq_false, if_false, decide_True, if_true]
  rw [array_loop_accepted parse d mem in_max true _ err items (f + 1) p0 [] []
    (by unfold INT_MAX; omega) (fun j hj => by omega) hacc,
    array_loop_break _ _ _ _ _ _ _ _ _ _ _ _ (by omega) hq hbrk]
  have hv : vecAfter d 0 [] (items.map fun it => it.2) = items.map fun it => it.2 := by
    cases items with
    | nil => rfl
    | cons it rest => exact vecAfter_zero d [] _ (by simp) (by simp at hn ⊢; omega)
  rw [hv]
  simp

/-- Support for C2, the example of the claim: the bytes `9f 01 02 ff` with the
integer element parser give `[1, 2]` and the cursor advances by 4; a second
`0xFF` behind them is left. -/
theorem array_parse_indefinite_example :
    cbor_array_parse cbor_get_number cbor_object_parse_int 0 (bytes [0x9f, 1, 2, 0xff, 0xff])
        0 5 [] err0 3
      = some (Outcome.returned ⟨some 4, [1, 2], err0, [1, 2]⟩) :=
  array_parse_indefinite cbor_get_number cbor_object_parse_int 0
    (bytes [0x9f, 1, 2, 0xff, 0xff]) 0 5 1 err0 [(2, 1), (3, 2)] 3
    (by decide) (by decide) (by decide) (by decide) (by decide) (by decide) (by decide)

/-- C3: on a `MAP` header of definite magnitude `N` (the value the header decoder
delivers) followed by `N` entries, each a `UINT` or `NINT` key header followed
by a value the receiver accepts, `cbor_map_parse` calls `parse_map_item` exactly `N` times, in input order, the
`k`-th call with the cursor right after the `k`-th key header and the index of
the `k`-th key (the magnitude itself for a `UINT` key); it returns the cursor
that the last call returned (the cursor after the header when `N = 0`) and
leaves the error cell alone. -/
theorem map_parse_definite {σ : Type} (gn : HeaderDecoder) (recv : MapReceiver σ) (mem : Mem)
    (in_ in_max p0 : Nat) (s : σ) (err : ErrCell) (entries : List (MapEntry σ)) (fuel : Nat)
    (hty : CBOR_CLASS (mem in_) = CBOR_T_MAP)
    (hhdr : gn mem in_ in_max = some (p0, (entries.length : Int)))
    (hacc : EntriesAccepted gn recv mem in_max err p0 s entries)
    (hfuel : entries.length < fuel) :
    cbor_map_parse gn recv mem in_ in_max s err fuel
        = some ⟨some (chainEnd p0 (entries.map fun en => en.valEnd)),
            (entries.map fun en => en.recv).getLastD s, err, entryCalls mem p0 entries⟩
      ∧ (entryCalls mem p0 entries).length = entries.length
      ∧ ∀ m : Int, map_index CBOR_T_UINT m = m := by
  obtain ⟨f, rfl⟩ : ∃ f, fuel = (f + 1) + entries.length :=
    ⟨fuel - entries.length - 1, by omega⟩
  have hdef : ((entries.length : Int) = CBOR_END_OF_ARRAY) = False := by
    simp only [CBOR_END_OF_ARRAY, eq_iff_iff, iff_false]; omega
  refine ⟨?_, ?_, fun m => by simp [map_index, CBOR_T_UINT, CBOR_T_NINT]⟩
  · unfold cbor_map_parse
    simp only [hhdr, hty, ne_eq, not_true_eq_false, if_false, hdef, decide_False,
      Bool.false_eq_true]
    rw [map_loop_accepted gn recv mem in_max false err entries (f + 1) _ p0 s []
      (le_refl _) hacc,
      map_loop_done _ _ _ _ _ _ _ _ _ _ _ (by omega)]
    simp
  · clear hacc hhdr hdef
    induction entries generalizing p0 with
    | nil => rfl
    | cons en rest ih => simp [entryCalls, ih]

/-- Witness for C3: the bytes `a1 01 02` make exactly one receiver call, with
index 1, positioned at the byte `02`. -/
theorem map_parse_definite_witness :
    cbor_map_parse cbor_get_number recordInts (bytes [0xa1, 1, 2]) 0 3 [] err0 2
        = some ⟨some 3, [(1, 2)], err0, [(2, 1)]⟩
      ∧ [((2 : Nat), (1 : Int))].length = 1
      ∧ ∀ m : Int, map_index CBOR_T_UINT m = m :=
  map_parse_definite cbor_get_number recordInts (bytes [0xa1, 1, 2]) 0 3 1 [] err0
    [⟨2, 1, 3, [(1, 2)]⟩] 2 (by decide) (by decide) (by decide) (by decide)

/-- C4, evaluation at the failing inputs: a definite-length container whose buffer
ends after fewer complete elements than announced is accepted. On `82 01` both
array parsers return the non-null cursor 2 with one element and no error; on
`a2 01 02` the map parser returns the non-null cursor 3 after one entry. -/
theorem truncated_definite_accepted :
    cbor_array_parse cbor_get_number cbor_object_parse_int 0 (bytes [0x82, 1]) 0 2 [] err0 3
        = some (Outcome.returned ⟨some 2, [1], err0, [1]⟩)
      ∧ cbor_ctx_array_parse cbor_get_number (ignoreCtx cbor_object_parse_int) 0
          (bytes [0x82, 1]) 0 2 [] err0 () 3
        = some (Outcome.returned ⟨some 2, [1], err0, (), [1]⟩)
      ∧ cbor_map_parse cbor_get_number recordInts (bytes [0xa2, 1, 2]) 0 3 [] err0 3
        = some ⟨some 3, [(1, 2)], err0, [(2, 1)]⟩ := by
  decide

/-- C5, evaluation at the failing inputs: an indefinite-length container whose
buffer ends before any break byte is accepted. On `9f 01 02` both array parsers
return the non-null cursor 3, and the byte before it is `02`; on `bf 01 02` so
does the map parser. -/
theorem indefinite_without_break_accepted :
    cbor_array_parse cbor_get_number cbor_object_parse_int 0 (bytes [0x9f, 1, 2]) 0 3 [] err0 4
        = some (Outcome.returned ⟨some 3, [1, 2], err0, [1, 2]⟩)
      ∧ cbor_ctx_array_parse cbor_get_number (ignoreCtx cbor_object_parse_int) 0
          (bytes [0x9f, 1, 2]) 0 3 [] err0 () 4
        = some (Outcome.returned ⟨some 3, [1, 2], err0, (), [1, 2]⟩)
      ∧ cbor_map_parse cbor_get_number recordInts (bytes [0xbf, 1, 2]) 0 3 [] err0 4
        = some ⟨some 3, [(1, 2)], err0, [(2, 1)]⟩
      ∧ bytes [0x9f, 1, 2] 2 = 2 ∧ bytes [0xbf, 1, 2] 2 = 2 := by
  decide

/-- C6, evaluation at the failing input: the array `9a 80 00 00 02 01 ... 01 ff`
announces `N = 2^31 + 2` elements and holds `k = 2^31 + 1` accepted ones followed
by the byte `0xFF`, as in the claim, and neither array parser returns the null
cursor with `CBOR_MALFORMED_VALUE`: after `2^31` element parses both reach
`rank++` with `rank == INT_MAX`, the overflow of the `int` counter, with nothing
stored in the error cell. The break byte is never looked at. -/
theorem break_after_rank_overflow :
    CBOR_CLASS (longDefiniteArray 0) = CBOR_T_ARRAY
      ∧ cbor_get_number longDefiniteArray 0 2147483655 = some (5, 2147483650)
      ∧ ElemsAccepted cbor_object_parse_int 0 longDefiniteArray 2147483655 err0 0 5
          (onesItems 5 2147483649)
      ∧ (onesItems 5 2147483649).length = 2147483649
      ∧ longDefiniteArray 2147483654 = 0xff
      ∧ (∃ r, cbor_array_parse cbor_get_number cbor_object_parse_int 0 longDefiniteArray 0
            2147483655 [] err0 2147483651 = some (Outcome.rank_overflow r)
          ∧ r.err = err0 ∧ r.calls.length = 2147483648
          ∧ r.calls.getLast? = some 2147483652)
      ∧ (∃ r, cbor_ctx_array_parse cbor_get_number (ignoreCtx cbor_object_parse_int) 0
            longDefiniteArray 0 2147483655 [] err0 () 2147483651
            = some (Outcome.rank_overflow r)
          ∧ r.err = err0 ∧ r.calls.length = 2147483648
          ∧ r.calls.getLast? = some 2147483652) := by
  have hm : ∀ i, 5 ≤ i → i < 5 + 2147483649 → longDefiniteArray i = 1 := by
    intro i h1 h2
    unfold longDefiniteArray
    rw [if_neg (by omega), if_neg (by omega), if_neg (by omega), if_neg (by omega),
      if_neg (by omega), if_pos (by omega)]
  have hacc := onesItems_accepted longDefiniteArray 2147483655 err0 2147483649 5 0 hm (by omega)
  have hacc1 := onesItems_accepted longDefiniteArray 2147483655 err0 2147483647 5 0
    (fun i h1 h2 => hm i h1 (by omega)) (by omega)
  have hend := onesItems_end 2147483647 5
  have hlen := onesItems_length 2147483647 5
  have hlast : longDefiniteArray (5 + 2147483647) = 1 := hm _ (by omega) (by omega)
  have raw := array_overflow_raw cbor_get_number cbor_object_parse_int 0 longDefiniteArray 0
    2147483655 5 [] err0 (onesItems 5 2147483647) 2147483650 2147483651 (by decide)
    (by decide) hlen (by decide) hacc1 (by rw [hend]; omega) (by rw [hend, hlast]; decide)
    (by rw [hlen]; omega)
  rw [hend, int_parse_one longDefiniteArray (5 + 2147483647) 2147483655 0 err0 (by omega) hlast]
    at raw
  refine ⟨by decide, by decide, hacc, onesItems_length 2147483649 5, by decide,
    ⟨_, raw, rfl, ?_, ?_⟩, ⟨_, ctx_overflow_of_plain _ _ _ _ _ _ _ _ _ _ raw, rfl, ?_, ?_⟩⟩
  · dsimp only
    rw [List.length_append, chainStarts_length, List.length_map, hlen]
    rfl
  · dsimp only
    rw [List.getLast?_append, List.getLast?_singleton]
    rfl
  · dsimp only
    rw [List.length_append, chainStarts_length, List.length_map, hlen]
    rfl
  · dsimp only
    rw [List.getLast?_append, List.getLast?_singleton]
    rfl

/-- Support for C6, below the overflow of the counter: if a definite header
announces `N` elements (entries), `N` being the value the header decoder
delivers, and, after `k < N` accepted ones (`k < 2^31` for the array parsers),
the next byte of the buffer is `0xFF`, then `cbor_array_parse`,
`cbor_ctx_array_parse` and `cbor_map_parse` return the null cursor, so the
`0xFF` is not consumed as a terminator, store `CBOR_MALFORMED_VALUE` in the
error cell, and have made exactly the `k` delegate calls of the accepted
elements. -/
theorem break_in_definite_malformed (α γ σ : Type) :
    (∀ (gn : HeaderDecoder) (parse : ElemParser α) (d : α) (mem : Mem) (in_ in_max p0 : Nat)
        (v : List α) (err : ErrCell) (items : List (Nat × α)) (N : Int) (fuel : Nat),
        CBOR_CLASS (mem in_) = CBOR_T_ARRAY →
        gn mem in_ in_max = some (p0, N) →
        (items.length : Int) < N →
        items.length < 2147483648 →
        ElemsAccepted parse d mem in_max err (v.headD d) p0 items →
        chainEnd p0 (items.map fun it => it.1) < in_max →
        mem (chainEnd p0 (items.map fun it => it.1)) = 0xff →
        items.length < fuel →
        cbor_array_parse gn parse d mem in_ in_max v err fuel
          = some (Outcome.returned ⟨none, vecAfter d 0 v (items.map fun it => it.2),
              err.set CBOR_MALFORMED_VALUE, chainStarts p0 (items.map fun it => it.1)⟩))
    ∧ (∀ (gn : HeaderDecoder) (parse : CtxElemParser α γ) (d : α) (mem : Mem)
        (in_ in_max p0 : Nat) (v : List α) (err : ErrCell) (ctx : γ)
        (items : List (Nat × α × γ)) (N : Int) (fuel : Nat),
        CBOR_CLASS (mem in_) = CBOR_T_ARRAY →
        gn mem in_ in_max = some (p0, N) →
        (items.length : Int) < N →
        items.length < 2147483648 →
        CtxElemsAccepted parse d mem in_max err (v.headD d) p0 ctx items →
        chainEnd p0 (items.map fun it => it.1) < in_max →
        mem (chainEnd p0 (items.map fun it => it.1)) = 0xff →
        items.length < fuel →
        cbor_ctx_array_parse gn parse d mem in_ in_max v err ctx fuel
          = some (Outcome.returned ⟨none, vecAfter d 0 v (items.map fun it => it.2.1),
              err.set CBOR_MALFORMED_VALUE, (items.map fun it => it.2.2).getLastD ctx,
              chainStarts p0 (items.map fun it => it.1)⟩))
    ∧ (∀ (gn : HeaderDecoder) (recv : MapReceiver σ) (mem : Mem) (in_ in_max p0 : Nat)
        (s : σ) (err : ErrCell) (entries : List (MapEntry σ)) (N : Int) (fuel : Nat),
        CBOR_CLASS (mem in_) = CBOR_T_MAP →
        gn mem in_ in_max = some (p0, N) →
        (entries.length : Int) < N →
        EntriesAccepted gn recv mem in_max err p0 s entries →
        chainEnd p0 (entries.map fun en => en.valEnd) < in_max →
        mem (chainEnd p0 (entries.map fun en => en.valEnd)) = 0xff →
        entries.length < fuel →
        cbor_map_parse gn recv mem in_ in_max s err fuel
          = some ⟨none, (entries.map fun en => en.recv).getLastD s,
              err.set CBOR_MALFORMED_VALUE, entryCalls mem p0 entries⟩) := by
  refine ⟨?_, ?_, ?_⟩
  · intro gn parse d mem in_ in_max p0 v err items N fuel hty hhdr hk h31 hacc hq hbrk hfuel
    obtain ⟨f, rfl⟩ : ∃ f, fuel = (f + 1) + items.length := ⟨fuel - items.length - 1, by omega⟩
    have hdef : (N = CBOR_END_OF_ARRAY) = False := by
      simp only [CBOR_END_OF_ARRAY, eq_iff_iff, iff_false]; omega
    unfold cbor_array_parse
    simp only [hhdr, hty, ne_eq, not_true_eq_false, if_false, hdef, decide_False,
      Bool.false_eq_true]
    rw [array_loop_accepted parse d mem in_max false _ err items (f + 1) p0 v []
      (by unfold INT_MAX; omega) (fun j hj => by omega) hacc,
      array_loop_break _ _ _ _ _ _ _ _ _ _ _ _ hk hq hbrk]
    simp
  · intro gn parse d mem in_ in_max p0 v err ctx items N fuel hty hhdr hk h31 hacc hq hbrk hfuel
    obtain ⟨f, rfl⟩ : ∃ f, fuel = (f + 1) + items.length := ⟨fuel - items.length - 1, by omega⟩
    have hdef : (N = CBOR_END_OF_ARRAY) = False := by
      simp only [CBOR_END_OF_ARRAY, eq_iff_iff, iff_false]; omega
    unfold cbor_ctx_array_parse
    simp only [hhdr, hty, ne_eq, not_true_eq_false, if_false, hdef, decide_False,
      Bool.false_eq_true]
    rw [ctx_array_loop_accepted_zero parse d mem in_max false _ err items (f + 1) p0 v ctx []
      (by unfold INT_MAX; omega) (fun j hj => by omega) hacc,
      ctx_array_loop_break _ _ _ _ _ _ _ _ _ _ _ _ _ hk hq hbrk]
    simp
  · intro gn recv mem in_ in_max p0 s err entries N fuel hty hhdr hk hacc hq hbrk hfuel
    obtain ⟨f, rfl⟩ : ∃ f, fuel = (f + 1) + entries.length :=
      ⟨fuel - entries.length - 1, by omega⟩
    have hdef : (N = CBOR_END_OF_ARRAY) = False := by
      simp only [CBOR_END_OF_ARRAY, eq_iff_iff, iff_false]; omega
    unfold cbor_map_parse
    simp only [hhdr, hty, ne_eq, not_true_eq_false, if_false, hdef, decide_False,
      Bool.false_eq_true]
    rw [map_loop_accepted gn recv mem in_max false err entries (f + 1) _ p0 s []
      (by omega) hacc,
      map_loop_break _ _ _ _ _ _ _ _ _ _ _ (by omega) hq hbrk]
    simp

/-- Support for C6, the example of the claim: `82 01 ff` for both array parsers
(one element parsed, then the break byte where the second is due) and
`a2 01 02 ff` for the map parser. -/
theorem break_in_definite_malformed_example :
    cbor_array_parse cbor_get_number cbor_object_parse_int 0 (bytes [0x82, 1, 0xff]) 0 3 []
        err0 2
        = some (Outcome.returned ⟨none, [1], ⟨-3, 1⟩, [1]⟩)
      ∧ cbor_ctx_array_parse cbor_get_number (ignoreCtx cbor_object_parse_int) 0
          (bytes [0x82, 1, 0xff]) 0 3 [] err0 () 2
        = some (Outcome.returned ⟨none, [1], ⟨-3, 1⟩, (), [1]⟩)
      ∧ cbor_map_parse cbor_get_number recordInts (bytes [0xa2, 1, 2, 0xff]) 0 4 [] err0 2
        = some ⟨none, [(1, 2)], ⟨-3, 1⟩, [(2, 1)]⟩ :=
  ⟨(break_in_definite_malformed Int Unit (List (Int × Int))).1 cbor_get_number cbor_object_parse_int 0
      (bytes [0x82, 1, 0xff]) 0 3 1 [] err0 [(2, 1)] 2 2
      (by decide) (by decide) (by decide) (by decide) (by decide) (by decide) (by decide)
      (by decide),
    (break_in_definite_malformed Int Unit (List (Int × Int))).2.1 cbor_get_number (ignoreCtx cbor_object_parse_int) 0
      (bytes [0x82, 1, 0xff]) 0 3 1 [] err0 () [(2, 1, ())] 2 2
      (by decide) (by decide) (by decide) (by decide) (by decide) (by decide) (by decide)
      (by decide),
    (break_in_definite_malformed Int Unit (List (Int × Int))).2.2 cbor_get_number recordInts
      (bytes [0xa2, 1, 2, 0xff]) 0 4 1 [] err0 [⟨2, 1, 3, [(1, 2)]⟩] 2 2
      (by decide) (by decide) (by decide) (by decide) (by decide) (by decide) (by decide)⟩

/-- C7, evaluation at the failing input: an indefinite-length array of `2^31`
one-byte integers followed by a text-string header, which the integer parser
rejects with `CBOR_MALFORMED_VALUE`. The first `2^31` elements are accepted and
the element parser fails on the next one, as in the claim, yet neither array
parser returns the null cursor with that error: after the parse of the
`2^31`-th element, at address `2^31`, both reach `rank++` with
`rank == INT_MAX`, the overflow of the `int` counter. The failing element is
never handed to the element parser and the error cell is untouched. -/
theorem failing_element_rank_overflow :
    CBOR_CLASS (longFailingArray 0) = CBOR_T_ARRAY
      ∧ cbor_get_number longFailingArray 0 2147483650 = some (1, CBOR_END_OF_ARRAY)
      ∧ ElemsAccepted cbor_object_parse_int 0 longFailingArray 2147483650 err0 0 1
          (onesItems 1 2147483648)
      ∧ (onesItems 1 2147483648).length = 2147483648
      ∧ cbor_object_parse_int longFailingArray 2147483649 2147483650 0 err0
          = (none, 0, ⟨-3, 1⟩)
      ∧ (∃ r, cbor_array_parse cbor_get_number cbor_object_parse_int 0 longFailingArray 0
            2147483650 [] err0 2147483650 = some (Outcome.rank_overflow r)
          ∧ r.cur = some 2147483649 ∧ r.err = err0 ∧ r.calls.length = 2147483648
          ∧ r.calls.getLast? = some 2147483648)
      ∧ (∃ r, cbor_ctx_array_parse cbor_get_number (ignoreCtx cbor_object_parse_int) 0
            longFailingArray 0 2147483650 [] err0 () 2147483650
            = some (Outcome.rank_overflow r)
          ∧ r.cur = some 2147483649 ∧ r.err = err0 ∧ r.calls.length = 2147483648
          ∧ r.calls.getLast? = some 2147483648) := by
  have hm : ∀ i, 1 ≤ i → i < 1 + 2147483648 → longFailingArray i = 1 := by
    intro i h1 h2
    unfold longFailingArray
    rw [if_neg (by omega), if_pos (by omega)]
  have hacc := onesItems_accepted longFailingArray 2147483650 err0 2147483648 1 0 hm (by omega)
  have hacc1 := onesItems_accepted longFailingArray 2147483650 err0 2147483647 1 0
    (fun i h1 h2 => hm i h1 (by omega)) (by omega)
  have hend := onesItems_end 2147483647 1
  have hlen := onesItems_length 2147483647 1
  have hlast : longFailingArray (1 + 2147483647) = 1 := hm _ (by omega) (by omega)
  have hfail : cbor_object_parse_int longFailingArray 2147483649 2147483650 0 err0
      = (none, 0, ⟨-3, 1⟩) :=
    int_parse_text longFailingArray 2147483649 2147483650 0 err0 (by omega) (by decide)
  have raw := array_overflow_raw cbor_get_number cbor_object_parse_int 0 longFailingArray 0
    2147483650 1 [] err0 (onesItems 1 2147483647) CBOR_END_OF_ARRAY 2147483650 (by decide)
    (by decide) hlen (by decide) hacc1 (by rw [hend]; omega) (by rw [hend, hlast]; decide)
    (by rw [hlen]; omega)
  rw [hend, int_parse_one longFailingArray (1 + 2147483647) 2147483650 0 err0 (by omega) hlast]
    at raw
  refine ⟨by decide, by decide, hacc, onesItems_length 2147483648 1, hfail,
    ⟨_, raw, rfl, rfl, ?_, ?_⟩,
    ⟨_, ctx_overflow_of_plain _ _ _ _ _ _ _ _ _ _ raw, rfl, rfl, ?_, ?_⟩⟩
  · dsimp only
    rw [List.length_append, chainStarts_length, List.length_map, hlen]
    rfl
  · dsimp only
    rw [List.getLast?_append, List.getLast?_singleton]
    rfl
  · dsimp only
    rw [List.length_append, chainStarts_length, List.length_map, hlen]
    rfl
  · dsimp only
    rw [List.getLast?_append, List.getLast?_singleton]
    rfl

/-- Support for C7, below the overflow of the counter: an element failure aborts
the container parse with the element's own error. If the first `k` elements are
accepted, `k` is below the count of the container (its magnitude, or
`0xffffffff` when indefinite) and, for the array parsers, `k < INT_MAX`, and the
delegate fails on element `k + 1` (null cursor, error cell left as `e`), then
`cbor_array_parse` and `cbor_ctx_array_parse` return the null cursor with the
error cell exactly `e`, the failing call is the last element parse, and the
vector holds the `k` parsed values followed by the slot handed to the failing
parse; `cbor_map_parse` returns the null cursor with the receiver's `e` and the
failing call is the last receiver call. -/
theorem element_failure_propagates (α γ σ : Type) :
    (∀ (gn : HeaderDecoder) (parse : ElemParser α) (d : α) (mem : Mem) (in_ in_max p0 : Nat)
        (v : List α) (err : ErrCell) (items : List (Nat × α)) (hv : Int) (x : α) (e : ErrCell)
        (fuel : Nat),
        CBOR_CLASS (mem in_) = CBOR_T_ARRAY →
        gn mem in_ in_max = some (p0, hv) →
        (items.length : Int) < container_count hv →
        items.length < 2147483647 →
        ElemsAccepted parse d mem in_max err (v.headD d) p0 items →
        chainEnd p0 (items.map fun it => it.1) < in_max →
        mem (chainEnd p0 (items.map fun it => it.1)) ≠ 0xff →
        parse mem (chainEnd p0 (items.map fun it => it.1)) in_max
          (next_slot v d items.length) err = (none, x, e) →
        items.length + 1 < fuel →
        cbor_array_parse gn parse d mem in_ in_max v err fuel
          = some (Outcome.returned ⟨none, (items.map fun it => it.2) ++ [x], e,
              chainStarts p0 (items.map fun it => it.1)
                ++ [chainEnd p0 (items.map fun it => it.1)]⟩))
    ∧ (∀ (gn : HeaderDecoder) (parse : CtxElemParser α γ) (d : α) (mem : Mem)
        (in_ in_max p0 : Nat) (v : List α) (err : ErrCell) (ctx : γ)
        (items : List (Nat × α × γ)) (hv : Int) (x : α) (e : ErrCell) (c : γ) (fuel : Nat),
        CBOR_CLASS (mem in_) = CBOR_T_ARRAY →
        gn mem in_ in_max = some (p0, hv) →
        (items.length : Int) < container_count hv →
        items.length < 2147483647 →
        CtxElemsAccepted parse d mem in_max err (v.headD d) p0 ctx items →
        chainEnd p0 (items.map fun it => it.1) < in_max →
        mem (chainEnd p0 (items.map fun it => it.1)) ≠ 0xff →
        parse mem (chainEnd p0 (items.map fun it => it.1)) in_max
          (next_slot v d items.length) err ((items.map fun it => it.2.2).getLastD ctx)
          = (none, x, e, c) →
        items.length + 1 < fuel →
        cbor_ctx_array_parse gn parse d mem in_ in_max v err ctx fuel
          = some (Outcome.returned ⟨none, (items.map fun it => it.2.1) ++ [x], e, c,
              chainStarts p0 (items.map fun it => it.1)
                ++ [chainEnd p0 (items.map fun it => it.1)]⟩))
    ∧ (∀ (gn : HeaderDecoder) (recv : MapReceiver σ) (mem : Mem) (in_ in_max p0 : Nat)
        (s : σ) (err : ErrCell) (entries : List (MapEntry σ)) (hv : Int) (q : Nat) (m : Int)
        (s1 : σ) (e : ErrCell) (fuel : Nat),
        CBOR_CLASS (mem in_) = CBOR_T_MAP →
        gn mem in_ in_max = some (p0, hv) →
        (entries.length : Int) < container_count hv →
        EntriesAccepted gn recv mem in_max err p0 s entries →
        chainEnd p0 (entries.map fun en => en.valEnd) < in_max →
        (CBOR_CLASS (mem (chainEnd p0 (entries.map fun en => en.valEnd))) = CBOR_T_UINT
          ∨ CBOR_CLASS (mem (chainEnd p0 (entries.map fun en => en.valEnd))) = CBOR_T_NINT) →
        gn mem (chainEnd p0 (entries.map fun en => en.valEnd)) in_max = some (q, m) →
        recv mem q in_max
          (map_index (CBOR_CLASS (mem (chainEnd p0 (entries.map fun en => en.valEnd)))) m)
          ((entries.map fun en => en.recv).getLastD s) err = (none, s1, e) →
        entries.length + 1 < fuel →
        cbor_map_parse gn recv mem in_ in_max s err fuel
          = some ⟨none, s1, e, entryCalls mem p0 entries ++
              [(q, map_index
                (CBOR_CLASS (mem (chainEnd p0 (entries.map fun en => en.valEnd)))) m)]⟩) := by
  refine ⟨?_, ?_, ?_⟩
  · intro gn parse d mem in_ in_max p0 v err items hv x e fuel hty hhdr hk h31 hacc hq hnb
      hfail hfuel
    obtain ⟨f, rfl⟩ : ∃ f, fuel = (f + 1 + 1) + items.length :=
      ⟨fuel - items.length - 2, by omega⟩
    have hlen : (items.map fun it => it.2).length = items.length := by simp
    rw [cbor_array_parse_header gn parse d mem in_ in_max p0 hv v err _ hty hhdr,
      array_loop_accepted parse d mem in_max _ _ err items (f + 1 + 1) p0 v []
        (by unfold INT_MAX; omega) (fun j hj => by omega) hacc,
      array_loop_item _ _ _ _ _ _ _ _ _ _ _ _ hk hq hnb (by unfold INT_MAX; omega)]
    have hs := slot_after d v (items.map fun it => it.2) (by rw [hlen]; omega)
    have hst := store_after d v (items.map fun it => it.2) x (by rw [hlen]; omega)
    rw [hlen] at hs hst
    rw [hs, hfail]
    simp only
    rw [hst, array_loop_null]
    simp
  · intro gn parse d mem in_ in_max p0 v err ctx items hv x e c fuel hty hhdr hk h31 hacc hq hnb
      hfail hfuel
    obtain ⟨f, rfl⟩ : ∃ f, fuel = (f + 1 + 1) + items.length :=
      ⟨fuel - items.length - 2, by omega⟩
    have hlen : (items.map fun it => it.2.1).length = items.length := by simp
    rw [cbor_ctx_array_parse_header gn parse d mem in_ in_max p0 hv v err ctx _ hty hhdr,
      ctx_array_loop_accepted_zero parse d mem in_max _ _ err items (f + 1 + 1) p0 v ctx []
        (by unfold INT_MAX; omega) (fun j hj => by omega) hacc,
      ctx_array_loop_item _ _ _ _ _ _ _ _ _ _ _ _ _ hk hq hnb (by unfold INT_MAX; omega)]
    have hs := slot_after d v (items.map fun it => it.2.1) (by rw [hlen]; omega)
    have hst := store_after d v (items.map fun it => it.2.1) x (by rw [hlen]; omega)
    rw [hlen] at hs hst
    rw [hs, hfail]
    simp only
    rw [hst, ctx_array_loop_null]
    simp
  · intro gn recv mem in_ in_max p0 s err entries hv q m s1 e fuel hty hhdr hk hacc hq hkey hg
      hfail hfuel
    obtain ⟨f, rfl⟩ : ∃ f, fuel = (f + 1 + 1) + entries.length :=
      ⟨fuel - entries.length - 2, by omega⟩
    rw [cbor_map_parse_header gn recv mem in_ in_max p0 hv s err _ hty hhdr,
      map_loop_accepted gn recv mem in_max _ err entries (f + 1 + 1) _ p0 s [] (by omega) hacc,
      map_loop_entry _ _ _ _ _ _ _ _ _ _ _ _ _ (by omega) hq hkey hg, hfail]
    simp only
    rw [map_loop_null]
    simp

/-- Support for C7, a small case: `83 01 61 02` for both array parsers (the
integer parser rejects the text header `61` with `CBOR_MALFORMED_VALUE`, the
third element is never looked at) and `a2 01 02 03 61` for the map parser. -/
theorem element_failure_propagates_example :
    cbor_array_parse cbor_get_number cbor_object_parse_int 0 (bytes [0x83, 1, 0x61, 2]) 0 4
        [7, 8, 9] err0 3
        = some (Outcome.returned ⟨none, [1, 0], ⟨-3, 1⟩, [1, 2]⟩)
      ∧ cbor_ctx_array_parse cbor_get_number (ignoreCtx cbor_object_parse_int) 0
          (bytes [0x83, 1, 0x61, 2]) 0 4 [7, 8, 9] err0 () 3
        = some (Outcome.returned ⟨none, [1, 0], ⟨-3, 1⟩, (), [1, 2]⟩)
      ∧ cbor_map_parse cbor_get_number recordInts (bytes [0xa2, 1, 2, 3, 0x61]) 0 5 [] err0 3
        = some ⟨none, [(1, 2)], ⟨-3, 1⟩, [(2, 1), (4, 3)]⟩ :=
  ⟨(element_failure_propagates Int Unit (List (Int × Int))).1 cbor_get_number
      cbor_object_parse_int 0 (bytes [0x83, 1, 0x61, 2]) 0 4 1 [7, 8, 9] err0 [(2, 1)] 3 0
      ⟨-3, 1⟩ 3 (by decide) (by decide) (by decide) (by decide) (by decide) (by decide)
      (by decide) (by decide) (by decide),
    (element_failure_propagates Int Unit (List (Int × Int))).2.1 cbor_get_number
      (ignoreCtx cbor_object_parse_int) 0 (bytes [0x83, 1, 0x61, 2]) 0 4 1 [7, 8, 9] err0 ()
      [(2, 1, ())] 3 0 ⟨-3, 1⟩ () 3 (by decide) (by decide) (by decide) (by decide) (by decide)
      (by decide) (by decide) (by decide) (by decide),
    (element_failure_propagates Int Unit (List (Int × Int))).2.2 cbor_get_number
      recordInts (bytes [0xa2, 1, 2, 3, 0x61]) 0 5 1 [] err0 [⟨2, 1, 3, [(1, 2)]⟩] 2 4 3
      [(1, 2)] ⟨-3, 1⟩ 3 (by decide) (by decide) (by decide) (by decide) (by decide)
      (by decide) (by decide) (by decide) (by decide)⟩

/-- C8: the container parsers require the matching major type. On a non-empty
buffer whose first byte does not have major type `ARRAY`, or on which the header
decoder returns `NULL`, `cbor_array_parse` and `cbor_ctx_array_parse` return the
null cursor, store `CBOR_MALFORMED_VALUE`, call no element parser and leave the
vector (and the context) unchanged; likewise `cbor_map_parse` with major type
`MAP`, which never calls `parse_map_item` and leaves the receiver unchanged. -/
theorem wrong_major_type_malformed (α γ σ : Type) :
    (∀ (gn : HeaderDecoder) (parse : ElemParser α) (d : α) (mem : Mem) (in_ in_max : Nat)
        (v : List α) (err : ErrCell) (fuel : Nat),
        in_ < in_max →
        CBOR_CLASS (mem in_) ≠ CBOR_T_ARRAY ∨ gn mem in_ in_max = none →
        cbor_array_parse gn parse d mem in_ in_max v err fuel
          = some (Outcome.returned ⟨none, v, err.set CBOR_MALFORMED_VALUE, []⟩))
    ∧ (∀ (gn : HeaderDecoder) (parse : CtxElemParser α γ) (d : α) (mem : Mem)
        (in_ in_max : Nat) (v : List α) (err : ErrCell) (ctx : γ) (fuel : Nat),
        in_ < in_max →
        CBOR_CLASS (mem in_) ≠ CBOR_T_ARRAY ∨ gn mem in_ in_max = none →
        cbor_ctx_array_parse gn parse d mem in_ in_max v err ctx fuel
          = some (Outcome.returned ⟨none, v, err.set CBOR_MALFORMED_VALUE, ctx, []⟩))
    ∧ (∀ (gn : HeaderDecoder) (recv : MapReceiver σ) (mem : Mem) (in_ in_max : Nat)
        (s : σ) (err : ErrCell) (fuel : Nat),
        in_ < in_max →
        CBOR_CLASS (mem in_) ≠ CBOR_T_MAP ∨ gn mem in_ in_max = none →
        cbor_map_parse gn recv mem in_ in_max s err fuel
          = some ⟨none, s, err.set CBOR_MALFORMED_VALUE, []⟩) := by
  refine ⟨?_, ?_, ?_⟩
  · intro gn parse d mem in_ in_max v err fuel _ h
    unfold cbor_array_parse
    cases hg : gn mem in_ in_max with
    | none => rfl
    | some pv =>
      rcases h with h | h
      · simp only [h, ne_eq, not_false_eq_true, if_true]
      · rw [hg] at h; cases h
  · intro gn parse d mem in_ in_max v err ctx fuel _ h
    unfold cbor_ctx_array_parse
    cases hg : gn mem in_ in_max with
    | none => rfl
    | some pv =>
      rcases h with h | h
      · simp only [h, ne_eq, not_false_eq_true, if_true]
      · rw [hg] at h; cases h
  · intro gn recv mem in_ in_max s err fuel _ h
    unfold cbor_map_parse
    cases hg : gn mem in_ in_max with
    | none => rfl
    | some pv =>
      rcases h with h | h
      · simp only [h, ne_eq, not_false_eq_true, if_true]
      · rw [hg] at h; cases h

/-- Witness for C8: the map `a1 01 02` handed to `cbor_array_parse`, the array
header `98` (one length byte announced, none present) handed to
`cbor_ctx_array_parse`, and the array `82 01 02` handed to `cbor_map_parse`. -/
theorem wrong_major_type_malformed_witness :
    cbor_array_parse cbor_get_number cbor_object_parse_int 0 (bytes [0xa1, 1, 2]) 0 3 [7]
        err0 5
        = some (Outcome.returned ⟨none, [7], ⟨-3, 1⟩, []⟩)
      ∧ cbor_ctx_array_parse cbor_get_number (ignoreCtx cbor_object_parse_int) 0
          (bytes [0x98]) 0 1 [7] err0 () 5
        = some (Outcome.returned ⟨none, [7], ⟨-3, 1⟩, (), []⟩)
      ∧ cbor_map_parse cbor_get_number recordInts (bytes [0x82, 1, 2]) 0 3 [] err0 5
        = some ⟨none, [], ⟨-3, 1⟩, []⟩ :=
  ⟨(wrong_major_type_malformed Int Unit (List (Int × Int))).1 cbor_get_number
      cbor_object_parse_int 0 (bytes [0xa1, 1, 2]) 0 3 [7] err0 5 (by decide)
      (Or.inl (by decide)),
    (wrong_major_type_malformed Int Unit (List (Int × Int))).2.1 cbor_get_number
      (ignoreCtx cbor_object_parse_int) 0 (bytes [0x98]) 0 1 [7] err0 () 5 (by decide)
      (Or.inr (by decide)),
    (wrong_major_type_malformed Int Unit (List (Int × Int))).2.2 cbor_get_number
      recordInts (bytes [0x82, 1, 2]) 0 3 [] err0 5 (by decide) (Or.inl (by decide))⟩

/-- C9, evaluation at the failing inputs: when the loop of `cbor_map_parse` is
left silently, the next key is never examined. On `a2 01 02`, a map of two
entries whose buffer ends after the first, the key header of the second entry
cannot be decoded, and `cbor_map_parse` returns the non-null cursor 3 without
error. On the indefinite-length map `bf 01 02 ... 01 02 61 61 02` with
`2^32 - 1` well-formed entries followed by an entry with a text-string key,
`cbor_map_parse` returns the non-null cursor of the text-string key without
touching the error cell: the count `0xffffffff` that stands for "indefinite" is
used up. -/
theorem bad_key_after_loop_exit_accepted :
    cbor_get_number (bytes [0xa2, 1, 2]) 3 3 = none
      ∧ cbor_map_parse cbor_get_number recordInts (bytes [0xa2, 1, 2]) 0 3 [] err0 3
          = some ⟨some 3, [(1, 2)], err0, [(2, 1)]⟩
      ∧ CBOR_CLASS (longIndefMap 0) = CBOR_T_MAP
      ∧ cbor_get_number longIndefMap 0 8589934594 = some (1, CBOR_END_OF_ARRAY)
      ∧ EntriesAccepted cbor_get_number checkInts longIndefMap 8589934594 err0 1 ()
          (pairEntries 1 4294967295)
      ∧ (pairEntries 1 4294967295).length = 4294967295
      ∧ chainEnd 1 ((pairEntries 1 4294967295).map fun en => en.valEnd) = 8589934591
      ∧ longIndefMap 8589934591 = 0x61
      ∧ CBOR_CLASS (longIndefMap 8589934591) = CBOR_T_TEXT
      ∧ ∃ r, cbor_map_parse cbor_get_number checkInts longIndefMap 0 8589934594 () err0
            4294967297 = some r
          ∧ r.cur = some 8589934591 ∧ r.err = err0 := by
  have hm : ∀ i, 1 ≤ i → i < 1 + 2 * 4294967295 →
      longIndefMap i = if i % 2 = 1 then 1 else 2 := by
    intro i h1 h2
    unfold longIndefMap
    rw [if_neg (by omega), if_pos (by omega)]
  have hacc := pairEntries_accepted longIndefMap 8589934594 err0 4294967295 1 hm (by omega)
    (by omega)
  have hend := pairEntries_end 4294967295 1
  have hlen := pairEntries_length 4294967295 1
  have raw := map_count_exhausted cbor_get_number checkInts longIndefMap 0 8589934594 1 ()
    err0 (pairEntries 1 4294967295) CBOR_END_OF_ARRAY 4294967297 (by decide) (by decide)
    (by rw [hlen]; decide) hacc (by rw [hlen]; omega)
  refine ⟨by decide, by decide, by decide, by decide, hacc, hlen, hend, by decide, by decide,
    _, raw, ?_, rfl⟩
  dsimp only
  rw [hend]

/-- Support for C9, inside the loop: map keys must be integers. If, after `k`
accepted entries with `k` below the count of the map (its magnitude, or
`0xffffffff` when indefinite), the next byte lies in the buffer, is not the
break byte, and either does not
have major type `UINT` or `NINT` or is not decoded by the header decoder, then
`cbor_map_parse` returns the null cursor, stores `CBOR_MALFORMED_VALUE`, and
`parse_map_item` has been called exactly `k` times, not for that entry nor any
later one. -/
theorem non_integer_key_malformed {σ : Type} (gn : HeaderDecoder) (recv : MapReceiver σ)
    (mem : Mem) (in_ in_max p0 : Nat) (s : σ) (err : ErrCell) (entries : List (MapEntry σ))
    (hv : Int) (fuel : Nat)
    (hty : CBOR_CLASS (mem in_) = CBOR_T_MAP)
    (hhdr : gn mem in_ in_max = some (p0, hv))
    (hk : (entries.length : Int) < container_count hv)
    (hacc : EntriesAccepted gn recv mem in_max err p0 s entries)
    (hq : chainEnd p0 (entries.map fun en => en.valEnd) < in_max)
    (hnb : mem (chainEnd p0 (entries.map fun en => en.valEnd)) ≠ 0xff)
    (hkey : gn mem (chainEnd p0 (entries.map fun en => en.valEnd)) in_max = none ∨
      (CBOR_CLASS (mem (chainEnd p0 (entries.map fun en => en.valEnd))) ≠ CBOR_T_UINT ∧
        CBOR_CLASS (mem (chainEnd p0 (entries.map fun en => en.valEnd))) ≠ CBOR_T_NINT))
    (hfuel : entries.length + 1 < fuel) :
    cbor_map_parse gn recv mem in_ in_max s err fuel
        = some ⟨none, (entries.map fun en => en.recv).getLastD s,
            err.set CBOR_MALFORMED_VALUE, entryCalls mem p0 entries⟩
      ∧ (entryCalls mem p0 entries).length = entries.length := by
  obtain ⟨f, rfl⟩ : ∃ f, fuel = (f + 2) + entries.length :=
    ⟨fuel - entries.length - 2, by omega⟩
  constructor
  · rw [cbor_map_parse_header gn recv mem in_ in_max p0 hv s err _ hty hhdr,
      map_loop_accepted gn recv mem in_max _ err entries (f + 2) _ p0 s [] (by omega) hacc,
      map_loop_bad_key _ _ _ _ _ _ _ _ _ _ _ (by omega) hq hnb hkey]
    simp
  · clear hacc hhdr hk hq hnb hkey hfuel
    induction entries generalizing p0 with
    | nil => rfl
    | cons en rest ih => simp [entryCalls, ih]

/-- Support for C9, the example of the claim: `a1 61 61 02`, a text-string key in
the first entry, and `a2 01 02 61 61 02`, a text-string key after one
well-formed entry. -/
theorem non_integer_key_malformed_example :
    (cbor_map_parse cbor_get_number recordInts (bytes [0xa1, 0x61, 0x61, 2]) 0 4 [] err0 2
        = some ⟨none, [], ⟨-3, 1⟩, []⟩
      ∧ ([] : List (Nat × Int)).length = 0)
    ∧ (cbor_map_parse cbor_get_number recordInts (bytes [0xa2, 1, 2, 0x61, 0x61, 2]) 0 6 []
          err0 3
        = some ⟨none, [(1, 2)], ⟨-3, 1⟩, [(2, 1)]⟩
      ∧ [((2 : Nat), (1 : Int))].length = 1) :=
  ⟨non_integer_key_malformed cbor_get_number recordInts (bytes [0xa1, 0x61, 0x61, 2])
      0 4 1 [] err0 [] 1 2 (by decide) (by decide) (by decide) (by decide)
      (by decide) (by decide) (Or.inr (by decide)) (by decide),
    non_integer_key_malformed cbor_get_number recordInts (bytes [0xa2, 1, 2, 0x61, 0x61, 2])
      0 6 1 [] err0 [⟨2, 1, 3, [(1, 2)]⟩] 2 3 (by decide) (by decide) (by decide) (by decide)
      (by decide) (by decide) (Or.inr (by decide)) (by decide)⟩

/-- C10: negative map keys decode by the `NINT` transform. For a key header that
follows well-formed entries of a map, within the count of the map, the index
that `cbor_map_parse` passes to `parse_map_item` is `-(m + 1)` when the key is
a `NINT` header whose magnitude `m` the header decoder delivers with
`0 ≤ m ≤ 2^63 - 1`, the boundary `m = 2^63 - 1` included, and `m` unchanged
when the key is a `UINT` header; the call is made with the cursor right after
the key header, whatever the receiver then answers. -/
theorem map_key_index {σ : Type} (gn : HeaderDecoder) (recv : MapReceiver σ) (mem : Mem)
    (in_ in_max p0 : Nat) (s : σ) (err : ErrCell) (pre : List (MapEntry σ)) (q : Nat)
    (m : Int) (hv : Int) (fuel : Nat)
    (hty : CBOR_CLASS (mem in_) = CBOR_T_MAP)
    (hhdr : gn mem in_ in_max = some (p0, hv))
    (hk : (pre.length : Int) < container_count hv)
    (hacc : EntriesAccepted gn recv mem in_max err p0 s pre)
    (hp : chainEnd p0 (pre.map fun e => e.valEnd) < in_max)
    (hkey : CBOR_CLASS (mem (chainEnd p0 (pre.map fun e => e.valEnd))) = CBOR_T_UINT
      ∨ CBOR_CLASS (mem (chainEnd p0 (pre.map fun e => e.valEnd))) = CBOR_T_NINT)
    (hg : gn mem (chainEnd p0 (pre.map fun e => e.valEnd)) in_max = some (q, m))
    (hm : CBOR_CLASS (mem (chainEnd p0 (pre.map fun e => e.valEnd))) = CBOR_T_NINT →
      0 ≤ m ∧ m ≤ 9223372036854775807)
    (hfuel : (container_count hv).toNat + 1 < fuel) :
    ∃ r, cbor_map_parse gn recv mem in_ in_max s err fuel = some r
      ∧ r.calls[pre.length]? = some (q,
          if CBOR_CLASS (mem (chainEnd p0 (pre.map fun e => e.valEnd))) = CBOR_T_NINT
          then -(m + 1) else m) := by
  obtain ⟨f, rfl⟩ : ∃ f, fuel = (f + 1) + pre.length :=
    ⟨fuel - pre.length - 1, by omega⟩
  rw [cbor_map_parse_header gn recv mem in_ in_max p0 hv s err _ hty hhdr,
    map_loop_accepted gn recv mem in_max _ err pre (f + 1) _ p0 s [] (by omega) hacc,
    map_loop_entry _ _ _ _ _ _ _ _ _ _ _ _ _ (by omega) hp hkey hg]
  obtain ⟨r, t, hr, ht⟩ := map_loop_total gn recv mem in_max (decide (hv = CBOR_END_OF_ARRAY)) f
    (container_count hv - (pre.length : Nat) - 1)
    (recv mem q in_max
      (map_index (CBOR_CLASS (mem (chainEnd p0 (pre.map fun e => e.valEnd)))) m)
      ((pre.map fun en => en.recv).getLastD s) err).1
    (recv mem q in_max
      (map_index (CBOR_CLASS (mem (chainEnd p0 (pre.map fun e => e.valEnd)))) m)
      ((pre.map fun en => en.recv).getLastD s) err).2.1
    (recv mem q in_max
      (map_index (CBOR_CLASS (mem (chainEnd p0 (pre.map fun e => e.valEnd)))) m)
      ((pre.map fun en => en.recv).getLastD s) err).2.2
    ([] ++ entryCalls mem p0 pre ++
      [(q, map_index (CBOR_CLASS (mem (chainEnd p0 (pre.map fun e => e.valEnd)))) m)])
    (by omega)
  refine ⟨r, hr, ?_⟩
  have hidx : map_index (CBOR_CLASS (mem (chainEnd p0 (pre.map fun e => e.valEnd)))) m
      = if CBOR_CLASS (mem (chainEnd p0 (pre.map fun e => e.valEnd))) = CBOR_T_NINT
        then -(m + 1) else m := by
    by_cases hn : CBOR_CLASS (mem (chainEnd p0 (pre.map fun e => e.valEnd))) = CBOR_T_NINT
    · rw [hn, if_pos rfl, map_index_nint m (by have := hm hn; omega) (hm hn).2]
    · rw [if_neg hn, map_index, if_neg hn]
  rw [ht, List.nil_append, hidx, List.append_assoc,
    List.getElem?_append_right (by rw [entryCalls_length]), entryCalls_length]
  simp

/-- Witness for C10: in `a1 20 02` the key byte `20` (`NINT`, magnitude 0) gives
index -1; in `a1 3b 7f ff ff ff ff ff ff ff 02` the key of magnitude `2^63 - 1`
gives index `-2^63`. -/
theorem map_key_index_witness :
    (∃ r, cbor_map_parse cbor_get_number recordInts (bytes [0xa1, 0x20, 2]) 0 3 [] err0 3
        = some r ∧ r.calls[0]? = some (2, -1))
      ∧ (∃ r, cbor_map_parse cbor_get_number recordInts
          (bytes [0xa1, 0x3b, 0x7f, 0xff, 0xff, 0xff, 0xff, 0xff, 0xff, 0xff, 2]) 0 11 [] err0 3
        = some r ∧ r.calls[0]? = some (10, -9223372036854775808)) :=
  ⟨map_key_index cbor_get_number recordInts (bytes [0xa1, 0x20, 2]) 0 3 1 [] err0 [] 2 0 1 3
      (by decide) (by decide) (by decide) (by decide) (by decide) (by decide) (by decide)
      (fun _ => by decide) (by decide),
    map_key_index cbor_get_number recordInts
      (bytes [0xa1, 0x3b, 0x7f, 0xff, 0xff, 0xff, 0xff, 0xff, 0xff, 0xff, 2]) 0 11 1 [] err0 []
      10 9223372036854775807 1 3 (by decide) (by decide) (by decide) (by decide) (by decide)
      (by decide) (by decide) (fun _ => by decide) (by decide)⟩

/-- C11: `cbor_ctx_array_parse` is `cbor_array_parse` plus a threaded context.
If the cursor, the slot and the error cell that the context-taking element
parser returns do not depend on the context and are those of the plain element
parser, then for every buffer, initial vector, error cell and context
`cbor_ctx_array_parse` returns the same cursor and leaves the same vector and
error cell as `cbor_array_parse` (and ends when and as it does). In general the
context is threaded untouched: recording the contexts changes nothing, the
first element parse is handed the context passed to `cbor_ctx_array_parse`,
every later one the context as the previous element parse left it, and the
context after the call is the one the last element parse left. -/
theorem ctx_array_parse_threads_context (α γ : Type) :
    (∀ (gn : HeaderDecoder) (parse : ElemParser α) (cparse : CtxElemParser α γ) (d : α)
        (mem : Mem) (in_ in_max : Nat) (v : List α) (err : ErrCell) (ctx : γ) (fuel : Nat),
        (∀ (p : Nat) (slot : α) (e : ErrCell) (c : γ),
          (cparse mem p in_max slot e c).1 = (parse mem p in_max slot e).1
            ∧ (cparse mem p in_max slot e c).2.1 = (parse mem p in_max slot e).2.1
            ∧ (cparse mem p in_max slot e c).2.2.1 = (parse mem p in_max slot e).2.2) →
        (cbor_ctx_array_parse gn cparse d mem in_ in_max v err ctx fuel).map
            (Outcome.map dropCtx)
          = cbor_array_parse gn parse d mem in_ in_max v err fuel)
    ∧ (∀ (gn : HeaderDecoder) (parse : CtxElemParser α γ) (d : α) (mem : Mem)
        (in_ in_max : Nat) (v : List α) (err : ErrCell) (ctx : γ) (fuel : Nat),
        (cbor_ctx_array_parse gn (logCtx parse) d mem in_ in_max v err (ctx, []) fuel).map
            (Outcome.map dropLog)
          = cbor_ctx_array_parse gn parse d mem in_ in_max v err ctx fuel
        ∧ ∀ o, cbor_ctx_array_parse gn (logCtx parse) d mem in_ in_max v err (ctx, []) fuel
            = some o →
          Threaded ctx o.state.ctx.2 ∧ (o.state.ctx.2.map Prod.snd).getLastD ctx = o.state.ctx.1
            ∧ o.state.ctx.2.length = o.state.calls.length) := by
  refine ⟨?_, ?_⟩
  · intro gn parse cparse d mem in_ in_max v err ctx fuel h
    unfold cbor_ctx_array_parse cbor_array_parse
    cases hg : gn mem in_ in_max with
    | none => rfl
    | some pv =>
      obtain ⟨p, val⟩ := pv
      by_cases ht : CBOR_CLASS (mem in_) ≠ CBOR_T_ARRAY
      · simp only [ht, ne_eq, not_false_eq_true, if_true]; rfl
      · simp only [ht, if_false]
        exact ctx_array_loop_agrees parse cparse d mem in_max _ _ h fuel 0 (some p) v err ctx []
  · intro gn parse d mem in_ in_max v err ctx fuel
    unfold cbor_ctx_array_parse
    cases hg : gn mem in_ in_max with
    | none =>
      refine ⟨rfl, fun r hr => ?_⟩
      cases hr
      exact ⟨trivial, rfl, rfl⟩
    | some pv =>
      obtain ⟨p, val⟩ := pv
      by_cases ht : CBOR_CLASS (mem in_) ≠ CBOR_T_ARRAY
      · simp only [ht, ne_eq, not_false_eq_true, if_true]
        refine ⟨rfl, fun r hr => ?_⟩
        cases hr
        exact ⟨trivial, rfl, rfl⟩
      · simp only [ht, if_false]
        exact ctx_array_loop_log parse d mem in_max _ _ ctx fuel 0 (some p) v err ctx [] []
          trivial rfl rfl

/-- Witness for C11: on `82 01 02` the counting element parser gives what the
integer element parser gives, and its two calls are handed the contexts 0 and
1, the initial context and the one the first call left. -/
theorem ctx_array_parse_threads_context_witness :
    (cbor_ctx_array_parse cbor_get_number countingInt 0 (bytes [0x82, 1, 2]) 0 3 [7] err0 0
          3).map (Outcome.map dropCtx)
        = cbor_array_parse cbor_get_number cbor_object_parse_int 0 (bytes [0x82, 1, 2]) 0 3 [7]
            err0 3
      ∧ cbor_ctx_array_parse cbor_get_number (logCtx countingInt) 0 (bytes [0x82, 1, 2]) 0 3
            [7] err0 (0, []) 3
          = some (Outcome.returned ⟨some 3, [1, 2], err0, (2, [(0, 1), (1, 2)]), [1, 2]⟩)
      ∧ Threaded 0 [((0 : Nat), (1 : Nat)), (1, 2)] :=
  ⟨(ctx_array_parse_threads_context Int Nat).1 cbor_get_number cbor_object_parse_int
      countingInt 0 (bytes [0x82, 1, 2]) 0 3 [7] err0 0 3 (fun _ _ _ _ => ⟨rfl, rfl, rfl⟩),
    by decide,
    (((ctx_array_parse_threads_context Int Nat).2 cbor_get_number countingInt 0
      (bytes [0x82, 1, 2]) 0 3 [7] err0 0 3).2
      (Outcome.returned ⟨some 3, [1, 2], err0, (2, [(0, 1), (1, 2)]), [1, 2]⟩) (by decide)).1⟩

/-- C12: null return and error store go together. If every delegate stores to the
error cell exactly once when it returns the null cursor and never when it
succeeds, then every call of `cbor_array_parse`, `cbor_ctx_array_parse` and
`cbor_map_parse` that returns the null cursor has stored to the error cell
exactly once, and every call that returns a non-null cursor leaves the caller's
error cell untouched; so the cursor is null exactly when the cell was stored
to. -/
theorem null_iff_error_stored (α γ σ : Type) :
    (∀ (gn : HeaderDecoder) (parse : ElemParser α) (d : α) (mem : Mem) (in_ in_max : Nat)
        (v : List α) (err : ErrCell) (fuel : Nat) (r : ArrayResult α),
        ElemErrDiscipline parse mem in_max →
        cbor_array_parse gn parse d mem in_ in_max v err fuel = some (Outcome.returned r) →
        (r.cur = none → r.err.stores = err.stores + 1) ∧ (r.cur ≠ none → r.err = err)
          ∧ (r.cur = none ↔ r.err.stores ≠ err.stores))
    ∧ (∀ (gn : HeaderDecoder) (parse : CtxElemParser α γ) (d : α) (mem : Mem)
        (in_ in_max : Nat) (v : List α) (err : ErrCell) (ctx : γ) (fuel : Nat)
        (r : CtxArrayResult α γ),
        CtxElemErrDiscipline parse mem in_max →
        cbor_ctx_array_parse gn parse d mem in_ in_max v err ctx fuel
          = some (Outcome.returned r) →
        (r.cur = none → r.err.stores = err.stores + 1) ∧ (r.cur ≠ none → r.err = err)
          ∧ (r.cur = none ↔ r.err.stores ≠ err.stores))
    ∧ (∀ (gn : HeaderDecoder) (recv : MapReceiver σ) (mem : Mem) (in_ in_max : Nat) (s : σ)
        (err : ErrCell) (fuel : Nat) (r : MapResult σ),
        RecvErrDiscipline recv mem in_max →
        cbor_map_parse gn recv mem in_ in_max s err fuel = some r →
        (r.cur = none → r.err.stores = err.stores + 1) ∧ (r.cur ≠ none → r.err = err)
          ∧ (r.cur = none ↔ r.err.stores ≠ err.stores)) := by
  have fin : ∀ (c : Option Nat) (e err : ErrCell),
      (c = none → e.stores = err.stores + 1) ∧ (c ≠ none → e = err) →
      (c = none → e.stores = err.stores + 1) ∧ (c ≠ none → e = err)
        ∧ (c = none ↔ e.stores ≠ err.stores) := by
    intro c e err h
    refine ⟨h.1, h.2, fun hc => by rw [h.1 hc]; omega, fun hne => ?_⟩
    by_contra hc
    exact hne (by rw [h.2 hc])
  have ctxpart : ∀ {γ1 : Type} (gn : HeaderDecoder) (parse : CtxElemParser α γ1) (d : α)
      (mem : Mem) (in_ in_max : Nat) (v : List α) (err : ErrCell) (ctx : γ1) (fuel : Nat)
      (r : CtxArrayResult α γ1), CtxElemErrDiscipline parse mem in_max →
      cbor_ctx_array_parse gn parse d mem in_ in_max v err ctx fuel = some (Outcome.returned r) →
      (r.cur = none → r.err.stores = err.stores + 1) ∧ (r.cur ≠ none → r.err = err) := by
    intro γ1 gn parse d mem in_ in_max v err ctx fuel r h hr
    unfold cbor_ctx_array_parse at hr
    cases hg : gn mem in_ in_max with
    | none =>
      rw [hg] at hr
      cases hr
      exact ⟨fun _ => rfl, fun hn => absurd rfl hn⟩
    | some pv =>
      obtain ⟨p, val⟩ := pv
      rw [hg] at hr
      by_cases ht : CBOR_CLASS (mem in_) ≠ CBOR_T_ARRAY
      · simp only [ht, ne_eq, not_false_eq_true, if_true] at hr
        cases hr
        exact ⟨fun _ => rfl, fun hn => absurd rfl hn⟩
      · simp only [ht, if_false] at hr
        exact ctx_array_loop_err parse d mem in_max _ _ err h fuel 0 (some p) v err ctx [] r
          (fun hn => by simp at hn) (fun _ => rfl) hr
  refine ⟨?_, ?_, ?_⟩
  · intro gn parse d mem in_ in_max v err fuel r h hr
    rw [cbor_array_parse_eq_ctx] at hr
    cases hc : cbor_ctx_array_parse gn (ignoreCtx parse) d mem in_ in_max v err () fuel with
    | none => rw [hc] at hr; cases hr
    | some oc =>
      rw [hc] at hr
      cases oc with
      | rank_overflow rc => simp [Outcome.map] at hr
      | returned rc =>
        simp only [Option.map_some', Outcome.map, Option.some.injEq, Outcome.returned.injEq]
          at hr
        subst hr
        exact fin _ _ _ (ctxpart gn (ignoreCtx parse) d mem in_ in_max v err () fuel rc
          (ignoreCtx_discipline parse mem in_max h) hc)
  · intro gn parse d mem in_ in_max v err ctx fuel r h hr
    exact fin _ _ _ (ctxpart gn parse d mem in_ in_max v err ctx fuel r h hr)
  · intro gn recv mem in_ in_max s err fuel r h hr
    apply fin
    unfold cbor_map_parse at hr
    cases hg : gn mem in_ in_max with
    | none =>
      rw [hg] at hr
      cases hr
      exact ⟨fun _ => rfl, fun hn => absurd rfl hn⟩
    | some pv =>
      obtain ⟨p, val⟩ := pv
      rw [hg] at hr
      by_cases ht : CBOR_CLASS (mem in_) ≠ CBOR_T_MAP
      · simp only [ht, ne_eq, not_false_eq_true, if_true] at hr
        cases hr
        exact ⟨fun _ => rfl, fun hn => absurd rfl hn⟩
      · simp only [ht, if_false] at hr
        exact map_loop_err gn recv mem in_max _ err h fuel _ (some p) s err [] r
          (fun hn => by simp at hn) (fun _ => rfl) hr

/-- Witness for C12: `83 01 61 02` fails in the second element with one store,
`82 01 ff` fails on the break byte with one store, and `a1 01 02` succeeds
without a store. -/
theorem null_iff_error_stored_witness :
    ((none : Option Nat) = none → (⟨-3, 1⟩ : ErrCell).stores = err0.stores + 1)
      ∧ ((none : Option Nat) = none → (⟨-3, 1⟩ : ErrCell).stores = err0.stores + 1)
      ∧ (some 3 ≠ none → err0 = err0) :=
  ⟨((null_iff_error_stored Int Unit (List (Int × Int))).1 cbor_get_number
      cbor_object_parse_int 0 (bytes [0x83, 1, 0x61, 2]) 0 4 [] err0 3
      ⟨none, [1, 0], ⟨-3, 1⟩, [1, 2]⟩ (int_parse_discipline _ _) (by decide)).1,
    ((null_iff_error_stored Int Unit (List (Int × Int))).2.1 cbor_get_number
      (ignoreCtx cbor_object_parse_int) 0 (bytes [0x82, 1, 0xff]) 0 3 [] err0 () 3
      ⟨none, [1], ⟨-3, 1⟩, (), [1]⟩
      (ignoreCtx_discipline _ _ _ (int_parse_discipline _ _)) (by decide)).1,
    ((null_iff_error_stored Int Unit (List (Int × Int))).2.2 cbor_get_number recordInts
      (bytes [0xa1, 1, 2]) 0 3 [] err0 3 ⟨some 3, [(1, 2)], err0, [(2, 1)]⟩
      (recordInts_discipline _ _) (by decide)).2.1⟩

/-- C13, evaluation at the failing input: called with `in == in_max` (here the
cursor 3 at the end of the three bytes `82 01 02`), the three functions return
the null cursor with `CBOR_MALFORMED_VALUE`, but each of them has read the byte
at address 3, the address `in_max`: `CBOR_CLASS(*in)` is evaluated before any
test against `in_max`. -/
theorem read_at_end_of_buffer :
    cbor_array_parse_traced cbor_get_number cbor_object_parse_int 0 (bytes [0x82, 1, 2]) 3 3
        [] err0 1
        = some (Outcome.returned ⟨none, [], ⟨-3, 1⟩, []⟩, [3])
      ∧ cbor_ctx_array_parse_traced cbor_get_number (ignoreCtx cbor_object_parse_int) 0
          (bytes [0x82, 1, 2]) 3 3 [] err0 () 1
        = some (Outcome.returned ⟨none, [], ⟨-3, 1⟩, (), []⟩, [3])
      ∧ cbor_map_parse_traced cbor_get_number recordInts (bytes [0x82, 1, 2]) 3 3 [] err0 1
        = some (⟨none, [], ⟨-3, 1⟩, []⟩, [3]) := by
  decide

/-- C14: the cursor stays inside the buffer and moves forward. If the header
decoder and the delegate, when they succeed on a cursor `p ≤ in_max`, return a
cursor `p'` with `p ≤ p' ≤ in_max` (the header decoder with `p < p'`), then on
a non-empty input every non-null cursor `r` that `cbor_array_parse`,
`cbor_ctx_array_parse` or `cbor_map_parse` returns satisfies
`in < r ≤ in_max`, and the cursors handed to the successive delegate calls are
non-decreasing, however the call ends. -/
theorem cursor_in_bounds (α γ σ : Type) :
    (∀ (gn : HeaderDecoder) (parse : ElemParser α) (d : α) (mem : Mem) (in_ in_max : Nat)
        (v : List α) (err : ErrCell) (fuel : Nat) (o : Outcome (ArrayResult α)),
        in_ < in_max →
        (∀ (p q : Nat) (m : Int), p ≤ in_max → gn mem p in_max = some (q, m) →
          p < q ∧ q ≤ in_max) →
        (∀ (p : Nat) (slot : α) (e : ErrCell) (q : Nat), p ≤ in_max →
          (parse mem p in_max slot e).1 = some q → p ≤ q ∧ q ≤ in_max) →
        cbor_array_parse gn parse d mem in_ in_max v err fuel = some o →
        (∀ r, o = Outcome.returned r → ∀ q, r.cur = some q → in_ < q ∧ q ≤ in_max)
          ∧ o.state.calls.Pairwise (· ≤ ·))
    ∧ (∀ (gn : HeaderDecoder) (parse : CtxElemParser α γ) (d : α) (mem : Mem)
        (in_ in_max : Nat) (v : List α) (err : ErrCell) (ctx : γ) (fuel : Nat)
        (o : Outcome (CtxArrayResult α γ)),
        in_ < in_max →
        (∀ (p q : Nat) (m : Int), p ≤ in_max → gn mem p in_max = some (q, m) →
          p < q ∧ q ≤ in_max) →
        (∀ (p : Nat) (slot : α) (e : ErrCell) (c : γ) (q : Nat), p ≤ in_max →
          (parse mem p in_max slot e c).1 = some q → p ≤ q ∧ q ≤ in_max) →
        cbor_ctx_array_parse gn parse d mem in_ in_max v err ctx fuel = some o →
        (∀ r, o = Outcome.returned r → ∀ q, r.cur = some q → in_ < q ∧ q ≤ in_max)
          ∧ o.state.calls.Pairwise (· ≤ ·))
    ∧ (∀ (gn : HeaderDecoder) (recv : MapReceiver σ) (mem : Mem) (in_ in_max : Nat) (s : σ)
        (err : ErrCell) (fuel : Nat) (r : MapResult σ),
        in_ < in_max →
        (∀ (p q : Nat) (m : Int), p ≤ in_max → gn mem p in_max = some (q, m) →
          p < q ∧ q ≤ in_max) →
        (∀ (p : Nat) (index : Int) (s1 : σ) (e : ErrCell) (q : Nat), p ≤ in_max →
          (recv mem p in_max index s1 e).1 = some q → p ≤ q ∧ q ≤ in_max) →
        cbor_map_parse gn recv mem in_ in_max s err fuel = some r →
        (∀ q, r.cur = some q → in_ < q ∧ q ≤ in_max)
          ∧ (r.calls.map Prod.fst).Pairwise (· ≤ ·)) := by
  have ctxpart : ∀ {γ1 : Type} (gn : HeaderDecoder) (parse : CtxElemParser α γ1) (d : α)
      (mem : Mem) (in_ in_max : Nat) (v : List α) (err : ErrCell) (ctx : γ1) (fuel : Nat)
      (o : Outcome (CtxArrayResult α γ1)), in_ < in_max →
      (∀ (p q : Nat) (m : Int), p ≤ in_max → gn mem p in_max = some (q, m) →
        p < q ∧ q ≤ in_max) →
      (∀ (p : Nat) (slot : α) (e : ErrCell) (c : γ1) (q : Nat), p ≤ in_max →
        (parse mem p in_max slot e c).1 = some q → p ≤ q ∧ q ≤ in_max) →
      cbor_ctx_array_parse gn parse d mem in_ in_max v err ctx fuel = some o →
      (∀ r, o = Outcome.returned r → ∀ q, r.cur = some q → in_ < q ∧ q ≤ in_max)
        ∧ o.state.calls.Pairwise (· ≤ ·) := by
    intro γ1 gn parse d mem in_ in_max v err ctx fuel o hne hgn h hr
    unfold cbor_ctx_array_parse at hr
    cases hg : gn mem in_ in_max with
    | none =>
      rw [hg] at hr
      cases hr
      exact ⟨fun r hr q hq => by cases hr; simp at hq, List.Pairwise.nil⟩
    | some pv =>
      obtain ⟨p, val⟩ := pv
      rw [hg] at hr
      by_cases ht : CBOR_CLASS (mem in_) ≠ CBOR_T_ARRAY
      · simp only [ht, ne_eq, not_false_eq_true, if_true] at hr
        cases hr
        exact ⟨fun r hr q hq => by cases hr; simp at hq, List.Pairwise.nil⟩
      · simp only [ht, if_false] at hr
        have hp := hgn in_ p val (by omega) hg
        have := ctx_array_loop_bounds parse d mem in_max _ _ (in_ + 1) h fuel 0 (some p) v err
          ctx [] o List.Pairwise.nil
          (fun p1 hp1 => by
            simp only [Option.some.injEq] at hp1
            exact ⟨by omega, by omega, fun x hx => by simp at hx⟩) hr
        exact ⟨fun r hr q hq => by have := this.1 r hr q hq; omega, this.2⟩
  refine ⟨?_, ?_, ?_⟩
  · intro gn parse d mem in_ in_max v err fuel o hne hgn h hr
    rw [cbor_array_parse_eq_ctx] at hr
    cases hc : cbor_ctx_array_parse gn (ignoreCtx parse) d mem in_ in_max v err () fuel with
    | none => rw [hc] at hr; cases hr
    | some oc =>
      rw [hc] at hr
      have hb := ctxpart gn (ignoreCtx parse) d mem in_ in_max v err () fuel oc hne hgn
        (fun p slot e _ q hp hq => h p slot e q hp hq) hc
      simp only [Option.map_some', Option.some.injEq] at hr
      subst hr
      cases oc with
      | returned rc =>
        refine ⟨fun r hr q hq => ?_, hb.2⟩
        simp only [Outcome.map, Outcome.returned.injEq] at hr
        subst hr
        exact hb.1 rc rfl q hq
      | rank_overflow rc =>
        exact ⟨fun r hr => (by simp [Outcome.map] at hr), hb.2⟩
  · intro gn parse d mem in_ in_max v err ctx fuel o hne hgn h hr
    exact ctxpart gn parse d mem in_ in_max v err ctx fuel o hne hgn h hr
  · intro gn recv mem in_ in_max s err fuel r hne hgn h hr
    unfold cbor_map_parse at hr
    cases hg : gn mem in_ in_max with
    | none =>
      rw [hg] at hr
      cases hr
      exact ⟨fun q hq => by simp at hq, List.Pairwise.nil⟩
    | some pv =>
      obtain ⟨p, val⟩ := pv
      rw [hg] at hr
      by_cases ht : CBOR_CLASS (mem in_) ≠ CBOR_T_MAP
      · simp only [ht, ne_eq, not_false_eq_true, if_true] at hr
        cases hr
        exact ⟨fun q hq => by simp at hq, List.Pairwise.nil⟩
      · simp only [ht, if_false] at hr
        have hp := hgn in_ p val (by omega) hg
        have := map_loop_bounds gn recv mem in_max _ (in_ + 1) hgn h fuel _ (some p) s err
          [] r List.Pairwise.nil
          (fun p1 hp1 => by
            simp only [Option.some.injEq] at hp1
            exact ⟨by omega, by omega, fun x hx => by simp at hx⟩) hr
        exact ⟨fun q hq => by have := this.1 q hq; omega, this.2⟩

/-- Witness for C14: `82 01 02` for both array parsers and `a2 01 02 03 04` for
the map parser, with the header decoder and the integer parser modelled from
the spec. -/
theorem cursor_in_bounds_witness :
    ((∀ r : ArrayResult Int, Outcome.returned ⟨some 3, [1, 2], err0, [1, 2]⟩
          = Outcome.returned r → ∀ q, r.cur = some q → 0 < q ∧ q ≤ 3)
        ∧ [1, 2].Pairwise (· ≤ ·))
      ∧ ((∀ r : CtxArrayResult Int Unit, Outcome.returned ⟨some 3, [1, 2], err0, (), [1, 2]⟩
            = Outcome.returned r → ∀ q, r.cur = some q → 0 < q ∧ q ≤ 3)
        ∧ [1, 2].Pairwise (· ≤ ·))
      ∧ ((∀ q, some 5 = some q → 0 < q ∧ q ≤ 5)
        ∧ ([((2 : Nat), (1 : Int)), (4, 3)].map Prod.fst).Pairwise (· ≤ ·)) :=
  ⟨(cursor_in_bounds Int Unit (List (Int × Int))).1 cbor_get_number cbor_object_parse_int 0
      (bytes [0x82, 1, 2]) 0 3 [] err0 3 (Outcome.returned ⟨some 3, [1, 2], err0, [1, 2]⟩)
      (by decide) (fun p q m _ h => get_number_advances _ p 3 q m h)
      (fun p slot e q _ h => by have := int_parse_advances _ p 3 slot e q h; omega)
      (by decide),
    (cursor_in_bounds Int Unit (List (Int × Int))).2.1 cbor_get_number
      (ignoreCtx cbor_object_parse_int) 0 (bytes [0x82, 1, 2]) 0 3 [] err0 () 3
      (Outcome.returned ⟨some 3, [1, 2], err0, (), [1, 2]⟩) (by decide)
      (fun p q m _ h => get_number_advances _ p 3 q m h)
      (fun p slot e _ q _ h => by have := int_parse_advances _ p 3 slot e q h; omega)
      (by decide),
    (cursor_in_bounds Int Unit (List (Int × Int))).2.2 cbor_get_number recordInts
      (bytes [0xa2, 1, 2, 3, 4]) 0 5 [] err0 3 ⟨some 5, [(1, 2), (3, 4)], err0, [(2, 1), (4, 3)]⟩
      (by decide) (fun p q m _ h => get_number_advances _ p 5 q m h)
      (fun p index s1 e q _ h => by have := recordInts_advances _ p 5 index s1 e q h; omega)
      (by decide)⟩

/-- C15, evaluation at the failing input: on `a1 01`, a map whose buffer ends
right after the key, `cbor_map_parse` does not reject the input itself. For
every receiver it calls `parse_map_item` with the cursor 2, which is `in_max`,
and returns what the receiver returns: the null cursor with the recording
receiver, whose integer parse fails, but the non-null cursor 2 without error
with a receiver that takes the value to be empty; and with a receiver whose
values are arrays, `cbor_array_parse` is entered at `in_max` and reads the byte
at address 2, past the end of the buffer. -/
theorem value_parsed_at_end_of_buffer :
    (∀ (σ : Type) (recv : MapReceiver σ) (s : σ) (err : ErrCell),
        cbor_map_parse cbor_get_number recv (bytes [0xa1, 1]) 0 2 s err 3
          = some ⟨(recv (bytes [0xa1, 1]) 2 2 1 s err).1, (recv (bytes [0xa1, 1]) 2 2 1 s err).2.1,
              (recv (bytes [0xa1, 1]) 2 2 1 s err).2.2, [(2, 1)]⟩)
      ∧ cbor_map_parse cbor_get_number recordInts (bytes [0xa1, 1]) 0 2 [] err0 3
          = some ⟨none, [], ⟨-3, 1⟩, [(2, 1)]⟩
      ∧ cbor_map_parse cbor_get_number emptyValues (bytes [0xa1, 1]) 0 2 () err0 3
          = some ⟨some 2, (), err0, [(2, 1)]⟩
      ∧ cbor_map_parse cbor_get_number arrayValues (bytes [0xa1, 1]) 0 2 [] err0 3
          = some ⟨none, [2], ⟨-3, 1⟩, [(2, 1)]⟩ := by
  refine ⟨fun σ recv s err => ?_, by decide, by decide, by decide⟩
  rw [cbor_map_parse_header cbor_get_number recv (bytes [0xa1, 1]) 0 2 1 1 s err 3 (by decide)
      (by decide),
    map_loop_entry cbor_get_number recv (bytes [0xa1, 1]) 2 _ 2 _ 1 2 1 s err []
      (by decide) (by decide) (by decide) (by decide)]
  have hi : map_index (CBOR_CLASS (bytes [0xa1, 1] 1)) 1 = 1 := by decide
  rw [hi]
  cases hr : (recv (bytes [0xa1, 1]) 2 2 1 s err).1 with
  | none => rw [map_loop_null]; rfl
  | some q =>
    rw [map_loop_done _ _ _ _ _ _ _ _ _ _ _ (fun h => absurd h.1 (by decide))]
    rfl

/-- C18, counterexample: with the previous vector `[7, 8]` and the array
`82 01 02`, whose elements add what they read to what their slot holds, the
vector ends as `[8, 2]`: the parse of position 1 was handed a fresh element,
not the previous element 8, from which it would have produced 10. -/
theorem previous_elements_counterexample :
    cbor_array_parse cbor_get_number addToSlot 0 (bytes [0x82, 1, 2]) 0 3 [7, 8] err0 3
        = some (Outcome.returned ⟨some 3, [8, 2], err0, [1, 2]⟩)
      ∧ addToSlot (bytes [0x82, 1, 2]) 2 3 8 err0 = (some 3, 10, err0)
      ∧ addToSlot (bytes [0x82, 1, 2]) 2 3 0 err0 = (some 3, 2, err0) := by
  decide

/-- C18, amended: for every initial output vector `v` and every successful
`cbor_array_parse` that reads `n < 2^31` elements, the element parse for
position 0 is handed the previous first element of `v` (a fresh one when `v` is
empty) and every later one a fresh element; with the elements accepted from
these slots, if `n ≥ 1` the vector ends as exactly the `n` parsed elements, and
if `n = 0` it is left exactly as it was. This holds when the parse ends on the
count or the end of the buffer, and when it ends on the break byte of an
indefinite-length array. -/
theorem prepopulated_vector_effect {α : Type} (gn : HeaderDecoder) (parse : ElemParser α)
    (d : α) (mem : Mem) (in_ in_max p0 : Nat) (hv : Int) (v : List α) (err : ErrCell)
    (items : List (Nat × α)) (fuel : Nat)
    (hty : CBOR_CLASS (mem in_) = CBOR_T_ARRAY)
    (hhdr : gn mem in_ in_max = some (p0, hv))
    (hn : items.length < 2147483648)
    (hcnt : (items.length : Int) ≤ container_count hv)
    (hacc : ElemsAccepted parse d mem in_max err (v.headD d) p0 items)
    (hfuel : items.length < fuel) :
    (((items.length : Int) = container_count hv
          ∨ in_max ≤ chainEnd p0 (items.map fun it => it.1)) →
        cbor_array_parse gn parse d mem in_ in_max v err fuel
          = some (Outcome.returned ⟨some (chainEnd p0 (items.map fun it => it.1)),
              if items.length = 0 then v else items.map fun it => it.2, err,
              chainStarts p0 (items.map fun it => it.1)⟩))
      ∧ ((hv = CBOR_END_OF_ARRAY ∧ chainEnd p0 (items.map fun it => it.1) < in_max
            ∧ mem (chainEnd p0 (items.map fun it => it.1)) = 0xff) →
        cbor_array_parse gn parse d mem in_ in_max v err fuel
          = some (Outcome.returned ⟨some (chainEnd p0 (items.map fun it => it.1) + 1),
              if items.length = 0 then v else items.map fun it => it.2, err,
              chainStarts p0 (items.map fun it => it.1)⟩)) := by
  obtain ⟨f, rfl⟩ : ∃ f, fuel = (f + 1) + items.length := ⟨fuel - items.length - 1, by omega⟩
  have hlt : ∀ j : Nat, j < items.length → (j : Int) < container_count hv := fun j hj => by
    omega
  have hvec : vecAfter d 0 v (items.map fun it => it.2)
      = if items.length = 0 then v else items.map fun it => it.2 := by
    cases items with
    | nil => rfl
    | cons it rest =>
      rw [if_neg (by simp)]
      exact vecAfter_zero d v _ (by simp) (by simp only [List.length_map]; omega)
  rw [cbor_array_parse_header gn parse d mem in_ in_max p0 hv v err _ hty hhdr,
    array_loop_accepted parse d mem in_max _ _ err items (f + 1) p0 v []
      (by unfold INT_MAX; omega) hlt hacc, hvec]
  constructor
  · intro hstop
    rw [array_loop_done _ _ _ _ _ _ _ _ _ _ _ _ (by omega)]
    simp
  · rintro ⟨hs, hq, hbrk⟩
    rw [array_loop_break _ _ _ _ _ _ _ _ _ _ _ _
      (by rw [container_count, if_pos hs]; omega) hq hbrk]
    simp [hs]

/-- Witness for C18: with the previous vector `[7, 8]`, the array `82 01 02`
and elements that add what they read to their slot, the vector ends as `[8, 2]`. -/
theorem prepopulated_vector_effect_witness :
    cbor_array_parse cbor_get_number addToSlot 0 (bytes [0x82, 1, 2]) 0 3 [7, 8] err0 3
      = some (Outcome.returned ⟨some 3, [8, 2], err0, [1, 2]⟩) :=
  (prepopulated_vector_effect cbor_get_number addToSlot 0 (bytes [0x82, 1, 2]) 0 3 1 2 [7, 8]
    err0 [(2, 8), (3, 2)] 3 (by decide) (by decide) (by decide) (by decide) (by decide)
    (by decide)).1 (Or.inl (by decide))

end Cbor
